import Mathlib

/-! RedisConnect: wire codec, round trip and resource pool.

A shallow embedding of `src/RedisConnect.h` (classes `Socket`, `Command`,
`RedisConnect`) and `src/ResPool.h` (class `ResPool`), followed by the
properties established about them.

Conventions of the embedding.

* A `std::string` and the receive buffer are sequences of bytes; a byte is
  written as a `Char`, so that wire text can be written as a literal.
* A `const char*` into the receive buffer is an integer offset from the buffer
  origin (an `Int`, because `parseNode` subtracts from a pointer).  The C `NULL`
  pointer is `none`.
* The C library functions `strstr` and `atoi` read a NUL-terminated string; they
  are modelled on the bytes found in memory from the pointer onwards and stop at
  the first NUL byte, as the library functions do.
-/

namespace RedisConnect

/-! ## Status codes (`RedisConnect.h` lines 44-56) -/

def OK : Int := 1
def FAIL : Int := -1
def IOERR : Int := -2
def SYSERR : Int := -3
def NETERR : Int := -4
def TIMEOUT : Int := -5
def DATAERR : Int := -6
def SYSBUSY : Int := -7
def PARAMERR : Int := -8
def NOTFOUND : Int := -9
def NETCLOSE : Int := -10
def NETDELAY : Int := -11
def AUTHFAIL : Int := -12

/-! ## Bytes, memory and the C library -/

/-- A byte string (`std::string`, or the contents of a `char` array). -/
abbrev Bytes := List Char

/-- The byte 0 that ends a C string. -/
def NUL : Char := Char.ofNat 0

/-- The two bytes `"\r\n"`. -/
def CRLF : Bytes := ['\r', '\n']

/-- Decimal text of an unsigned number, as `ostream << size_t` and
`std::to_string` print it. -/
def decimal (n : Nat) : Bytes := (Nat.repr n).toList

/-- Decimal text of a signed number, as `std::to_string(int)` prints it. -/
def decimalInt (n : Int) : Bytes :=
  if n < 0 then '-' :: decimal (-n).toNat else decimal n.toNat

/-- The bytes found in memory from pointer `p` onwards.  Memory is the list `mem`
(offset 0 is the buffer origin); nothing is readable before the origin or after
the end of `mem`. -/
def cstr (mem : Bytes) (p : Int) : Bytes :=
  if p < 0 then [] else mem.drop p.toNat

/-- The byte `*p`; an unreadable address reads as NUL. -/
def rd (mem : Bytes) (p : Int) : Char := (cstr mem p).headD NUL

/-- The `std::string(first, first + n)` constructor on a pointer into memory. -/
def substr (mem : Bytes) (first : Int) (n : Int) : Bytes :=
  (cstr mem first).take n.toNat

/-- Index of the first `"\r\n"` in the C string held by the list `s`:
the scan of `strstr(s, "\r\n")`, which ends at the first NUL byte. -/
def findCRLF : Bytes → Option Nat
  | [] => none
  | c :: cs =>
    if c = NUL then none
    else if c = '\r' ∧ cs.head? = some '\n' then some 0
    else (findCRLF cs).map (· + 1)

/-- The call `strstr(p, "\r\n")`: pointer to the first occurrence, or `NULL`. -/
def strstr (mem : Bytes) (p : Int) : Option Int :=
  (findCRLF (cstr mem p)).map (fun (i : Nat) => p + (i : Int))

/-- The C `isspace` in the "C" locale. -/
def isspace (c : Char) : Bool :=
  c = ' ' || c = '\t' || c = '\n' || c = Char.ofNat 11 || c = Char.ofNat 12 || c = '\r'

/-- Value of the leading run of decimal digits of `s`, accumulated onto `acc`. -/
def digitsVal : Bytes → Nat → Nat
  | [], acc => acc
  | c :: cs, acc =>
    if c.isDigit then digitsVal cs (acc * 10 + (c.toNat - 48)) else acc

/-- Conversion of a C `long` to `int`: keep the low 32 bits, two's complement. -/
def wrap32 (v : Int) : Int := (v + 2 ^ 31) % 2 ^ 32 - 2 ^ 31

/-- The C `strtol(s, NULL, 10)` on a 64-bit `long`: skip white space, read an
optional sign and a run of digits, saturate at `LONG_MIN` / `LONG_MAX`. -/
def strtol (s : Bytes) : Int :=
  let v : Int :=
    match s.dropWhile isspace with
    | '-' :: r => - (digitsVal r 0 : Int)
    | '+' :: r => (digitsVal r 0 : Int)
    | r => (digitsVal r 0 : Int)
  max (-(2 ^ 63)) (min v (2 ^ 63 - 1))

/-- The C `atoi(s)`, which glibc defines as `(int) strtol(s, NULL, 10)`. -/
def atoi (s : Bytes) : Int := wrap32 (strtol s)

/-! ## `class Socket` (`RedisConnect.h` lines 66-334)

The operating system is a script: each `send` and each `recv` call consumes the
next scripted outcome.  A script that runs out makes the model return `none`. -/

/-- Outcome of one `send(2)` call: the return value `num` and, for a failed
call, whether `IsSocketTimeout()` holds afterwards. -/
structure SendResult where
  /-- Return value of `send`. -/
  num : Int
  /-- Value of `IsSocketTimeout()` after a call that returned no bytes. -/
  timedOut : Bool := false
  deriving DecidableEq, Repr

/-- Outcome of one `recv(2)` call. -/
inductive RecvResult where
  /-- These bytes are waiting in the kernel; `recv` delivers as many of them as
  fit the `count` it was given and keeps the others for the next call.  No bytes
  at all is the orderly shutdown of the peer (`recv` returns 0). -/
  | bytes (bs : Bytes)
  /-- The call failed (`recv` returns a negative value); `timedOut` is the value
  of `IsSocketTimeout()` afterwards. -/
  | err (timedOut : Bool)
  deriving DecidableEq, Repr

/-- The transport behind a `Socket`: the scripted outcomes still to come and the
bytes the kernel has accepted so far. -/
structure Socket where
  /-- Outcomes of the `send` calls to come. -/
  sends : List SendResult := []
  /-- Outcomes of the `recv` calls to come. -/
  recvs : List RecvResult := []
  /-- Every byte accepted by `send` so far, in order. -/
  wire : Bytes := []
  deriving DecidableEq, Repr

namespace Socket

/-- The `while (writed < count)` loop of `Socket::write` (lines 252-277), over
the script of `send` outcomes.  Returns the result, the unused script and the
bytes on the wire. -/
def writeLoop (str : Bytes) (count : Int) :
    List SendResult → Bytes → Int → Int → Option (Int × List SendResult × Bytes)
  | [], wire, _, writed =>
    if writed < count then none else some (writed, [], wire)
  | r :: rest, wire, times, writed =>
    if writed < count then
      if r.num > 0 then
        let wire := wire ++ (str.drop writed.toNat).take r.num.toNat
        if r.num > 8 then writeLoop str count rest wire 0 (writed + r.num)
        else if times + 1 > 100 then some (TIMEOUT, rest, wire)
        else writeLoop str count rest wire (times + 1) (writed + r.num)
      else if r.timedOut then
        if times + 1 > 100 then some (TIMEOUT, rest, wire)
        else writeLoop str count rest wire (times + 1) writed
      else some (NETERR, rest, wire)
    else some (writed, r :: rest, wire)

/-- `Socket::write(data, count)` (lines 244-278). -/
def write (s : Socket) (data : Bytes) (count : Int) : Option (Int × Socket) :=
  (writeLoop data count s.sends s.wire 0 0).map
    (fun r => (r.1, { s with sends := r.2.1, wire := r.2.2 }))

/-- `Socket::read(data, count, false)` (lines 320-330): one `recv` call.
Returns the result, the bytes stored at `data`, and the socket. -/
def read (s : Socket) (count : Int) : Option (Int × Bytes × Socket) :=
  match s.recvs with
  | [] => none
  | RecvResult.bytes bs :: rest =>
    let got := bs.take count.toNat
    let left := bs.drop count.toNat
    let s := { s with recvs := if left = [] then rest else RecvResult.bytes left :: rest }
    if (got.length : Int) > 0 then some ((got.length : Int), got, s)
    else some (NETCLOSE, [], s)
  | RecvResult.err timedOut :: rest =>
    let s := { s with recvs := rest }
    if timedOut then some (0, [], s) else some (NETERR, [], s)

end Socket

/-! ## `class Command` (`RedisConnect.h` lines 337-556) -/

/-- The data members of `Command`. -/
structure Command where
  /-- Field `int status`. -/
  status : Int := 0
  /-- Field `string msg`. -/
  msg : Bytes := []
  /-- Field `vector<string> res`: the decoded result strings. -/
  res : List Bytes := []
  /-- Field `vector<string> vec`: the command arguments. -/
  vec : List Bytes := []
  deriving DecidableEq, Repr

namespace Command

/-- `Command::parseNode(msg, len)` (lines 409-427).  Returns the pointer result
and the command with `res` possibly extended.  No path of the function returns
`NULL`: the result is `msg`, `msg + sz` or the pointer past the element. -/
def parseNode (mem : Bytes) (c : Command) (msg len : Int) : Option Int × Command :=
  let str := msg + 1
  match strstr mem str with
  | none => (some msg, c)
  | some e =>
    let sz := atoi (cstr mem str)
    if sz < 0 then (some (msg + sz), c)
    else
      let str := e + 2
      let e := str + sz + 2
      if msg + len < e then (some msg, c)
      else (some e, { c with res := c.res ++ [substr mem str sz] })

/-- The `while (cnt > 0)` loop of `Command::parse` (lines 390-402).  `self` is
the recursive call `parse(str, tail - str)` of line 391; when the loop ends the
function returns `res.size()`. -/
def parseLoop (self : Command → Int → Int → Option (Int × Command))
    (mem : Bytes) (tail : Int) : Nat → Command → Int → Option (Int × Command)
  | 0, c, _ => some ((c.res.length : Int), c)
  | cnt + 1, c, str =>
    if rd mem str = '*' then self c str (tail - str)
    else
      match parseNode mem c str (tail - str) with
      | (none, c) => some (DATAERR, c)
      | (some e, c) =>
        if e = str then some (TIMEOUT, c)
        else parseLoop self mem tail cnt c e

/-- `Command::parse(msg, len)` (lines 348-406).  The C function recurses on
nested arrays without a bound of its own; `fuel` bounds the recursion depth and
`none` means the bound was reached. -/
def parse : Nat → Bytes → Command → Int → Int → Option (Int × Command)
  | 0, _, _, _, _ => none
  | fuel + 1, mem, c, msg, len =>
    if rd mem msg = '$' then
      match parseNode mem c msg len with
      | (none, c) => some (DATAERR, c)
      | (some e, c) =>
        if e - msg = 0 then some (TIMEOUT, c)
        else if e - msg = -1 then some (NOTFOUND, c)
        else some (OK, c)
    else
      let str := msg + 1
      match strstr mem str with
      | none => some (TIMEOUT, c)
      | some e =>
        if rd mem msg = '+' ∨ rd mem msg = '-' ∨ rd mem msg = ':' then
          let c := { c with status := OK, msg := substr mem str (e - str) }
          if rd mem msg = '+' then some (OK, c)
          else if rd mem msg = '-' then some (FAIL, c)
          else some (OK, { c with status := atoi (cstr mem str) })
        else if rd mem msg = '*' then
          let cnt := atoi (cstr mem str)
          let tail := msg + len
          parseLoop (parse fuel mem) mem tail cnt.toNat { c with vec := [] } (e + 2)
        else some (DATAERR, c)

/-- `Command::toString()` (lines 457-464): the stream starts with the header and
each loop iteration appends one argument. -/
def toString (c : Command) : Bytes :=
  c.vec.foldl
    (fun out item => out ++ ['$'] ++ decimal item.length ++ CRLF ++ item ++ CRLF)
    (['*'] ++ decimal c.vec.length ++ CRLF)

end Command

end RedisConnect

/-- The data members of `RedisConnect` (lines 558-569), with the static member
`SOCKET_TIMEOUT` (line 956) kept beside them. -/
structure RedisConnect where
  /-- Field `int code`. -/
  code : Int := 0
  /-- Field `int port`. -/
  port : Int := 0
  /-- Field `int memsz`: capacity of the receive buffer. -/
  memsz : Int := 0
  /-- Field `int status`. -/
  status : Int := 0
  /-- Field `int timeout`: the command timeout in milliseconds. -/
  timeout : Int := 0
  /-- Contents of `char* buffer`, an array of `memsz + 1` bytes. -/
  buffer : RedisConnect.Bytes := []
  /-- Field `string msg`. -/
  msg : RedisConnect.Bytes := []
  /-- Field `string host`. -/
  host : RedisConnect.Bytes := []
  /-- Field `Socket sock`. -/
  sock : RedisConnect.Socket := {}
  /-- Field `string passwd`. -/
  passwd : RedisConnect.Bytes := []
  /-- Static member `SOCKET_TIMEOUT`, the poll quantum. -/
  SOCKET_TIMEOUT : Int := 10
  deriving DecidableEq, Repr

namespace RedisConnect

/-- Store the bytes `bs` into memory at offset `at`. -/
def poke (mem : Bytes) (pos : Nat) (bs : Bytes) : Bytes :=
  mem.take pos ++ bs ++ mem.drop (pos + bs.length)

namespace Command

/-- The `while (readed < maxsz)` loop of `doWork` in `Command::getResult`
(lines 494-518).  `fuel` bounds the number of iterations and the recursion depth
of each `parse`; `none` means the bound or the end of the script was reached. -/
def doWorkLoop : Nat → Command → RedisConnect → Int → Int → Int →
    Option (Int × Command × RedisConnect)
  | 0, _, _, _, _, _ => none
  | fuel + 1, cmd, redis, timeout, delay, readed =>
    if readed < redis.memsz then
      match redis.sock.read (redis.memsz - readed) with
      | none => none
      | some (len, got, sock) =>
        let redis := { redis with sock := sock }
        if len < 0 then some (len, cmd, redis)
        else if len = 0 then
          let delay := wrap32 (delay + redis.SOCKET_TIMEOUT)
          if delay > timeout then some (TIMEOUT, cmd, redis)
          else doWorkLoop fuel cmd redis timeout delay readed
        else
          let redis := { redis with buffer := poke redis.buffer readed.toNat (got ++ [NUL]) }
          let readed := readed + len
          match cmd.parse (fuel + 1) redis.buffer 0 readed with
          | none => none
          | some (len, cmd) =>
            if len = TIMEOUT then doWorkLoop fuel cmd redis timeout 0 readed
            else some (len, cmd, redis)
    else some (PARAMERR, cmd, redis)

/-- The lambda `doWork` of `Command::getResult` (lines 477-519). -/
def doWork (fuel : Nat) (cmd : Command) (redis : RedisConnect) (timeout : Int) :
    Option (Int × Command × RedisConnect) :=
  let msg := cmd.toString
  match redis.sock.write msg (msg.length : Int) with
  | none => none
  | some (n, sock) =>
    let redis := { redis with sock := sock }
    if n < 0 then some (NETERR, cmd, redis)
    else doWorkLoop fuel cmd redis timeout 0 0

/-- The `switch (redis->code)` of `Command::getResult` (lines 528-548). -/
def errorText (code : Int) : Bytes :=
  if code = SYSERR then "system error".toList
  else if code = NETERR then "network error".toList
  else if code = DATAERR then "protocol error".toList
  else if code = TIMEOUT then "response timeout".toList
  else if code = NOTFOUND then "element not found".toList
  else "unknown error".toList

/-- `Command::getResult(redis, timeout)` (lines 476-555). -/
def getResult (fuel : Nat) (cmd : Command) (redis : RedisConnect) (timeout : Int) :
    Option (Int × Command × RedisConnect) :=
  let cmd := { cmd with status := 0, msg := [] }
  match doWork fuel cmd redis timeout with
  | none => none
  | some (code, cmd, redis) =>
    let redis : RedisConnect := { redis with code := code }
    let cmd : Command :=
      if redis.code < 0 ∧ cmd.msg = [] then { cmd with msg := errorText redis.code } else cmd
    let redis : RedisConnect := { redis with status := cmd.status, msg := cmd.msg }
    some (redis.code, cmd, redis)

end Command

/-- `RedisConnect::execute(val, args...)` (lines 616-623): a fresh command whose
arguments are `args`, run through `getResult`. -/
def execute (fuel : Nat) (redis : RedisConnect) (args : List Bytes) :
    Option (Int × RedisConnect) :=
  let cmd : Command := { vec := args }
  (cmd.getResult fuel redis redis.timeout).map (fun r => (r.1, r.2.2))

/-- `RedisConnect::execute(vec, val, args...)` (lines 626-637): as `execute`,
and the result strings are swapped into `vec` when the code is positive. -/
def executeVec (fuel : Nat) (redis : RedisConnect) (vec : List Bytes) (args : List Bytes) :
    Option (Int × List Bytes × RedisConnect) :=
  let cmd : Command := { vec := args }
  match cmd.getResult fuel redis redis.timeout with
  | none => none
  | some (_, cmd, redis) =>
    let vec := if redis.code > 0 then cmd.res else vec
    some (redis.code, vec, redis)

/-- `RedisConnect::ping()` (lines 662-664). -/
def ping (fuel : Nat) (redis : RedisConnect) : Option (Int × RedisConnect) :=
  execute fuel redis ["ping".toList]

/-- `RedisConnect::get(key, val)` (lines 688-696).  Returns the code, the new
contents of `val` and the connection.  `vec[0]` on an empty vector is undefined
in C++; it reads as the empty string here. -/
def get (fuel : Nat) (redis : RedisConnect) (key : Bytes) (val : Bytes) :
    Option (Int × Bytes × RedisConnect) :=
  match executeVec fuel redis [] ["get".toList, key] with
  | none => none
  | some (r, vec, redis) =>
    if r ≤ 0 then some (redis.code, val, redis)
    else some (redis.code, vec.headD [], redis)

/-- `RedisConnect::keys(vec, key)` (lines 714-716). -/
def keys (fuel : Nat) (redis : RedisConnect) (vec : List Bytes) (key : Bytes) :
    Option (Int × List Bytes × RedisConnect) :=
  executeVec fuel redis vec ["keys".toList, key]

/-- `Command::add(val)` (lines 437-443). -/
def Command.add (c : Command) (val : Bytes) : Command :=
  { c with vec := c.vec ++ [val] }

/-- `RedisConnect::eval(vec, lua, keys, args...)` (lines 791-811).  The command
is built as the source builds it: `eval`, the script, the number of keys, and,
when there is a key, the keys but the last, the last key and the arguments. -/
def evalVec (fuel : Nat) (redis : RedisConnect) (vec : List Bytes) (lua : Bytes)
    (keys : List Bytes) (args : List Bytes) : Option (Int × List Bytes × RedisConnect) :=
  let len : Int := wrap32 keys.length
  let cmd : Command := { vec := ["eval".toList] }
  let cmd := cmd.add lua
  let cmd := cmd.add (decimalInt len)
  let cmd :=
    if len > 0 then
      let len := len - 1
      let cmd := (keys.take len.toNat).foldl Command.add cmd
      (keys.getLast?.toList ++ args).foldl Command.add cmd
    else cmd
  match cmd.getResult fuel redis redis.timeout with
  | none => none
  | some (_, cmd, redis) =>
    let vec := if redis.code > 0 then cmd.res else vec
    some (redis.code, vec, redis)

/-- `RedisConnect::eval(lua, keys, args...)` (lines 784-789). -/
def evalKeys (fuel : Nat) (redis : RedisConnect) (lua : Bytes) (keys : List Bytes)
    (args : List Bytes) : Option (Int × RedisConnect) :=
  (evalVec fuel redis [] lua keys args).map (fun r => (r.1, r.2.2))

/-- `RedisConnect::eval(lua, key, args...)` (lines 775-782). -/
def eval (fuel : Nat) (redis : RedisConnect) (lua : Bytes) (key : Bytes) (args : List Bytes) :
    Option (Int × RedisConnect) :=
  evalKeys fuel redis lua [key] args

/-- The script of `RedisConnect::unlock` (line 866). -/
def unlockScript : Bytes :=
  ("if redis.call(\x27get\x27,KEYS[1])==ARGV[1] then return redis.call(\x27del\x27,KEYS[1]) " ++
    "else return 0 end").toList

/-- `RedisConnect::unlock(key)` (lines 864-869).  `lockId` is the string that
`getLockId()` (lines 832-861) returns in the calling thread. -/
def unlock (fuel : Nat) (redis : RedisConnect) (lockId : Bytes) (key : Bytes) :
    Option (Bool × RedisConnect) :=
  match eval fuel redis unlockScript key [lockId] with
  | none => none
  | some (r, redis) => some (decide (r > 0 ∧ redis.status = OK), redis)

/-- What `lock` does, in order: the round trips it makes and the waits. -/
inductive LockEvent where
  /-- A call of `execute` on the `set` command that returned this code. -/
  | attempt (code : Int)
  /-- The call `Sleep(ms)`. -/
  | sleep (ms : Int)
  deriving DecidableEq, Repr

/-- The events of a run of failed attempts with these codes: each attempt is
followed by the wait of 10 ms. -/
def failedAttempts : List Int → List LockEvent
  | [] => []
  | c :: cs => LockEvent.attempt c :: LockEvent.sleep 10 :: failedAttempts cs

/-- The number of round trips among the events. -/
def attempts : List LockEvent → Nat
  | [] => 0
  | LockEvent.attempt _ :: es => attempts es + 1
  | LockEvent.sleep _ :: es => attempts es

/-- The `for` loop of `RedisConnect::lock` (lines 875-880), at `i`, with the
events so far.  At most `rounds` tests of `i < delay` are followed; the result
is `none` when the loop is still running after them or when a round trip did
not return, and the events and the connection are those reached so far. -/
def lockLoop (fuel : Nat) (lockId key : Bytes) (timeout delay : Int) :
    Nat → Int → RedisConnect → List LockEvent → Option Bool × List LockEvent × RedisConnect
  | 0, _, redis, events => (none, events, redis)
  | rounds + 1, i, redis, events =>
    if i < delay then
      match execute fuel redis
          ["set".toList, key, lockId, "nx".toList, "ex".toList, decimalInt timeout] with
      | none => (none, events, redis)
      | some (r, redis) =>
        if r ≥ 0 then (some true, events ++ [LockEvent.attempt r], redis)
        else
          lockLoop fuel lockId key timeout delay rounds (wrap32 (i + 10)) redis
            (events ++ [LockEvent.attempt r, LockEvent.sleep 10])
    else (some false, events, redis)

/-- `RedisConnect::lock(key, timeout)` (lines 872-883).  `lockId` is the string
that `getLockId()` returns in the calling thread. -/
def lock (rounds fuel : Nat) (redis : RedisConnect) (lockId : Bytes) (key : Bytes)
    (timeout : Int) : Option Bool × List LockEvent × RedisConnect :=
  let delay := wrap32 (timeout * 1000)
  lockLoop fuel lockId key timeout delay rounds 0 redis []

end RedisConnect

/-! ## `class ResPool` (`ResPool.h`)

A `shared_ptr<T>` is the identity of the resource it owns (a number), or `none`
when empty.  What lies outside the pool is a `World`: the clock behind
`time(NULL)`, the factory `func`, and the handles that callers hold. -/

/-- `ResPool::Data` (lines 25-53). -/
structure ResPool.Data where
  /-- Field `int num`: times handed out since the last refresh. -/
  num : Int
  /-- Field `time_t utime`: the last-touched time. -/
  utime : Int
  /-- Field `shared_ptr<T> data`. -/
  data : Option Nat
  deriving DecidableEq, Repr

/-- The data members of `ResPool` (lines 56-62); `func` lives in the `World`. -/
structure ResPool where
  /-- Field `int maxlen`. -/
  maxlen : Int := 8
  /-- Field `int timeout`: the freshness window in seconds. -/
  timeout : Int := 60
  /-- Field `vector<Data> vec`. -/
  vec : List ResPool.Data := []
  deriving DecidableEq, Repr

namespace ResPool

/-- The environment of a pool. -/
structure World where
  /-- The successive results of `time(NULL)`. -/
  clock : Nat → Int
  /-- How many times `time(NULL)` has been called. -/
  ticks : Nat := 0
  /-- The successive results of the factory `func()`. -/
  made : Nat → Option Nat
  /-- How many times `func()` has been called. -/
  calls : Nat := 0
  /-- The handles held by callers at each successive scan of the pool: the
  resource identities, one occurrence per handle. -/
  held : Nat → List Nat
  /-- How many scans have been made. -/
  scans : Nat := 0

/-- The call `time(NULL)`. -/
def World.time (w : World) : Int × World := (w.clock w.ticks, { w with ticks := w.ticks + 1 })

/-- The call `func()`. -/
def World.func (w : World) : Option Nat × World := (w.made w.calls, { w with calls := w.calls + 1 })

/-- The handles callers hold as a scan begins. -/
def World.holders (w : World) : List Nat × World := (w.held w.scans, { w with scans := w.scans + 1 })

/-- Conversion of an `int` to `size_t` (64 bits), as in `vec.size() < maxlen`. -/
def toSizeT (v : Int) : Int := v % 2 ^ 64

/-- `Data::update(data)` (lines 37-41), given the reading of `time(NULL)`. -/
def Data.update (_item : Data) (data : Option Nat) (t : Int) : Data :=
  { num := 0, data := data, utime := t }

/-- `Data::get()` (lines 47-52), given the reading of `time(NULL)`: the entry
after the call; the value returned is its `data`. -/
def Data.get (item : Data) (t : Int) : Data :=
  { item with utime := t, num := item.num + 1 }

/-- `shared_ptr::use_count()` of the handle in an entry that owns `r`: the
owners among the entries, the local `tmp`, and the callers. -/
def useCount (vec : List Data) (tmp : Option Nat) (ext : List Nat) (r : Nat) : Nat :=
  vec.countP (fun d => d.data = some r) + (if tmp = some r then 1 else 0) + ext.count r

/-- What the scan of `grasp` ends with. -/
inductive Scan where
  /-- Entry `i` is reusable (line 91): the loop stops there, with this `vec`. -/
  | hit (vec : List Data) (i : Nat)
  /-- The loop ran to its end with this `vec` and `idx`. -/
  | miss (vec : List Data) (idx : Int)
  deriving DecidableEq, Repr

/-- The entries as the scan left them. -/
def Scan.entries : Scan → List Data
  | Scan.hit vec _ => vec
  | Scan.miss vec _ => vec

/-- The eligibility of an entry for reuse, as the data model words it, in a pool
whose entries are `vec` while callers hold the handles `ext`: the handle is
owned by this entry alone, the reuse counter is below 100, and the last-touched
time is within the window `timeout` of `now`. -/
def reusable (vec : List Data) (ext : List Nat) (timeout now : Int) (item : Data) : Bool :=
  item.data.any (fun r => useCount vec none ext r = 1) && decide (item.num < 100) &&
    decide (item.utime + timeout > now)

/-- The `for` loop of `grasp` (lines 84-101) from index `i` on, `n` iterations
left. -/
def scanLoop (timeout now : Int) (ext : List Nat) :
    Nat → Nat → List Data → Option Nat → Int → Scan
  | 0, _, vec, _, idx => Scan.miss vec idx
  | n + 1, i, vec, tmp, idx =>
    match vec.get? i with
    | none => Scan.miss vec idx
    | some item =>
      if item.data = none ∨ item.data.any (fun r => useCount vec tmp ext r = 1) then
        match item.data with
        | some r =>
          if item.num < 100 ∧ item.utime + timeout > now then Scan.hit vec i
          else
            scanLoop timeout now ext n (i + 1) (vec.set i { item with data := none })
              (some r) (i : Int)
        | none => scanLoop timeout now ext n (i + 1) vec none (i : Int)
      else scanLoop timeout now ext n (i + 1) vec tmp idx

/-- The lambda `grasp` of `ResPool::get` (lines 72-139): one acquisition
attempt.  Returns the handle and the pool and world after it. -/
def grasp (p : ResPool) (w : World) : Option Nat × ResPool × World :=
  let (now, w) := w.time
  let (ext, w) := w.holders
  let len : Int := p.vec.length
  match scanLoop p.timeout now ext p.vec.length 0 p.vec none (-1) with
  | Scan.hit vec i =>
    let p := { p with vec := vec }
    match p.vec.get? i with
    | none => (none, p, w)
    | some item =>
      let (t, w) := w.time
      (item.data, { p with vec := p.vec.set i (item.get t) }, w)
  | Scan.miss vec idx =>
    let p := { p with vec := vec }
    if idx < 0 then
      if len ≥ p.maxlen then (none, p, w)
      else
        let (data, w) := w.func
        if data = none then (data, p, w)
        else if (p.vec.length : Int) < toSizeT p.maxlen then
          let (t, w) := w.time
          (data, { p with vec := p.vec ++ [Data.update { num := 0, utime := 0, data := none } data t] }, w)
        else (data, p, w)
    else
      let (data, w) := w.func
      if data = none then (data, p, w)
      else
        match p.vec.get? idx.toNat with
        | none => (data, p, w)
        | some item =>
          let (t, w) := w.time
          (data, { p with vec := p.vec.set idx.toNat (item.update data t) }, w)

/-- The retry loop of `ResPool::get` (lines 148-154), at most `fuel` rounds;
the handle is `none` when the loop is still running after them. -/
def retry (endtime : Int) : Nat → ResPool → World → Option (Option Nat) × ResPool × World
  | 0, p, w => (none, p, w)
  | fuel + 1, p, w =>
    let (data, p, w) := grasp p w
    if data.isSome then (some data, p, w)
    else
      let (t, w) := w.time
      if endtime < t then (some data, p, w)
      else retry endtime fuel p w

/-- `ResPool::get()` (lines 66-157).  The outer `none` means the retry loop did
not end within `fuel` rounds; the pool and world are those reached so far. -/
def get (fuel : Nat) (p : ResPool) (w : World) : Option (Option Nat) × ResPool × World :=
  if p.timeout ≤ 0 then
    let (data, w) := w.func
    (some data, p, w)
  else
    let (data, p, w) := grasp p w
    if data.isSome then (some data, p, w)
    else
      let (t, w) := w.time
      retry (t + 3) fuel p w

/-- The loop of `ResPool::disable` (lines 180-185). -/
def disableLoop (data : Option Nat) : List Data → List Data
  | [] => []
  | item :: rest =>
    if data = item.data then { item with data := none } :: rest
    else item :: disableLoop data rest

/-- `ResPool::disable(data)` (lines 177-186). -/
def disable (p : ResPool) (data : Option Nat) : ResPool :=
  { p with vec := disableLoop data p.vec }

/-- `ResPool::clear()` (lines 160-166). -/
def clear (p : ResPool) : ResPool := { p with vec := [] }

/-- `ResPool::setLength(maxlen)` (lines 188-195). -/
def setLength (p : ResPool) (maxlen : Int) : ResPool :=
  let p := { p with maxlen := maxlen }
  if (p.vec.length : Int) > toSizeT maxlen then { p with vec := [] } else p

/-- `ResPool::setTimeout(timeout)` (lines 197-204). -/
def setTimeout (p : ResPool) (timeout : Int) : ResPool :=
  let p := { p with timeout := timeout }
  if timeout ≤ 0 then { p with vec := [] } else p

/-- `ResPool::setCreator(func)` (lines 207-212): the factory of the world is
replaced and the entries are dropped. -/
def setCreator (p : ResPool) (w : World) (func : Nat → Option Nat) : ResPool × World :=
  ({ p with vec := [] }, { w with made := func, calls := 0 })

/-- The constructor `ResPool(func, maxlen, timeout)` (lines 219-223). -/
def new (maxlen : Int) (timeout : Int) : ResPool :=
  { maxlen := maxlen, timeout := timeout, vec := [] }

/-- A call made on a pool by its user. -/
inductive Call where
  /-- The call `get()`. -/
  | get
  /-- The call `disable(data)`. -/
  | disable (data : Option Nat)
  deriving DecidableEq, Repr

/-- The pool and world after a sequence of calls, each `get` running its retry
loop for at most `fuel` rounds. -/
def run (fuel : Nat) : List Call → ResPool → World → ResPool × World
  | [], p, w => (p, w)
  | Call.get :: cs, p, w =>
    let r := get fuel p w
    run fuel cs r.2.1 r.2.2
  | Call.disable d :: cs, p, w => run fuel cs (disable p d) w

end ResPool

namespace RedisConnect

/-! ## Replies on the wire

The replies of the wire protocol, used to state what the decoder does on
well-formed input. -/

/-- A reply of the server: status line, error line, integer, bulk string, or
array of bulk strings. -/
inductive Reply where
  | status (t : Bytes)
  | error (t : Bytes)
  | integer (n : Int)
  | bulk (s : Bytes)
  | array (items : List Bytes)
  deriving DecidableEq, Repr

/-- Wire form of a bulk string: `$<len>\r\n<bytes>\r\n`. -/
def bulkWire (s : Bytes) : Bytes := '$' :: (decimal s.length ++ CRLF ++ s ++ CRLF)

/-- Wire form of a reply. -/
def Reply.wire : Reply → Bytes
  | Reply.status t => '+' :: (t ++ CRLF)
  | Reply.error t => '-' :: (t ++ CRLF)
  | Reply.integer n => ':' :: (decimalInt n ++ CRLF)
  | Reply.bulk s => bulkWire s
  | Reply.array items => '*' :: (decimal items.length ++ CRLF ++ (items.map bulkWire).flatten)

/-- A reply is well formed when the text of a status or error line holds no
`"\r\n"` and an integer fits 32 bits. -/
def Reply.wellFormed : Reply → Prop
  | Reply.status t => ¬ CRLF <:+: t
  | Reply.error t => ¬ CRLF <:+: t
  | Reply.integer n => -(2 ^ 31) ≤ n ∧ n < 2 ^ 31
  | Reply.bulk _ => True
  | Reply.array _ => True

end RedisConnect

namespace RedisConnect

/-! ## Properties of the C library model -/

theorem digitChar_isDigit (d : Nat) (h : d < 10) :
    (Nat.digitChar d).isDigit = true ∧ (Nat.digitChar d).toNat - 48 = d := by
  interval_cases d <;> decide

/-- The digits that `Nat.toDigitsCore 10` puts before `ds` are decimal digits
whose value, read left to right, is `n`. -/
theorem toDigitsCore_spec : ∀ (fuel n : Nat) (ds : List Char), n < fuel →
    ∃ l : List Char, Nat.toDigitsCore 10 fuel n ds = l ++ ds ∧ l ≠ [] ∧
      (∀ c ∈ l, c.isDigit = true) ∧ ∀ t, digitsVal (l ++ t) 0 = digitsVal t n := by
  intro fuel
  induction fuel with
  | zero => intro n ds h; omega
  | succ fuel ih =>
    intro n ds h
    have hd := digitChar_isDigit (n % 10) (Nat.mod_lt _ (by decide))
    by_cases h0 : n / 10 = 0
    · refine ⟨[Nat.digitChar (n % 10)], ?_, by simp, ?_, ?_⟩
      · simp [Nat.toDigitsCore, h0]
      · intro c hc
        simp at hc
        rw [hc]; exact hd.1
      · intro t
        have hn : n % 10 = n := Nat.mod_eq_of_lt (by omega)
        simp only [List.singleton_append, digitsVal, hd.1, hd.2, if_true]
        simp [hn]
    · obtain ⟨l, hl, _, hdig, hval⟩ := ih (n / 10) (Nat.digitChar (n % 10) :: ds) (by omega)
      refine ⟨l ++ [Nat.digitChar (n % 10)], ?_, by simp, ?_, ?_⟩
      · simp [Nat.toDigitsCore, h0, hl]
      · intro c hc
        simp at hc
        rcases hc with hc | hc
        · exact hdig c hc
        · rw [hc]; exact hd.1
      · intro t
        have := hval (Nat.digitChar (n % 10) :: t)
        simp only [List.append_assoc, List.singleton_append]
        rw [this]
        simp only [digitsVal, hd.1, hd.2, if_true]
        congr 1
        omega

/-- The decimal text of `n` is a non-empty run of digits whose value is `n`. -/
theorem decimal_spec (n : Nat) :
    decimal n ≠ [] ∧ (∀ c ∈ decimal n, c.isDigit = true) ∧
      ∀ t, digitsVal (decimal n ++ t) 0 = digitsVal t n := by
  obtain ⟨l, hl, hne, hdig, hval⟩ := toDigitsCore_spec (n + 1) n [] (by omega)
  have : decimal n = l := by
    simp [decimal, Nat.repr, Nat.toDigits, hl, List.asString]
  rw [this]
  exact ⟨hne, hdig, hval⟩

/-- A decimal digit is none of the bytes the decoder treats specially. -/
theorem isDigit_ne {c : Char} (h : c.isDigit = true) :
    c ≠ NUL ∧ c ≠ '\r' ∧ c ≠ '\n' ∧ c ≠ '-' ∧ c ≠ '+' ∧ c ≠ '*' ∧ c ≠ '$' ∧
      isspace c = false := by
  have key : ∀ d : Char, d.isDigit = false → c ≠ d := by
    intro d hd hcd
    rw [hcd, hd] at h
    cases h
  refine ⟨key _ (by decide), key _ (by decide), key _ (by decide), key _ (by decide),
    key _ (by decide), key _ (by decide), key _ (by decide), ?_⟩
  simp [isspace, key ' ' (by decide), key '\t' (by decide), key '\n' (by decide),
    key (Char.ofNat 11) (by decide), key (Char.ofNat 12) (by decide), key '\r' (by decide)]

/-! ## Properties of memory reads -/

theorem cstr_append (pre x : Bytes) : cstr (pre ++ x) (pre.length : Int) = x := by
  simp [cstr]

theorem findCRLF_cons (c : Char) (cs : Bytes) :
    findCRLF (c :: cs) =
      if c = NUL then none
      else if c = '\r' ∧ cs.head? = some '\n' then some 0
      else (findCRLF cs).map (· + 1) := rfl

/-- No `"\r\n"` before the terminating NUL: `strstr` finds nothing. -/
theorem findCRLF_none (q r : Bytes) (h : ¬ CRLF <:+: q) : findCRLF (q ++ NUL :: r) = none := by
  induction q with
  | nil => simp [findCRLF]
  | cons c q ih =>
    have hq : ¬ CRLF <:+: q := fun hh => h (hh.trans (List.suffix_cons c q).isInfix)
    rw [List.cons_append, findCRLF_cons]
    by_cases hc : c = NUL
    · simp [hc]
    · rw [if_neg hc]
      by_cases h2 : c = '\r' ∧ (q ++ NUL :: r).head? = some '\n'
      · exfalso
        obtain ⟨h2a, h2b⟩ := h2
        cases q with
        | nil => simp [NUL] at h2b
        | cons d q =>
          simp at h2b
          apply h
          subst h2a; subst h2b
          exact ⟨[], q, by simp [CRLF]⟩
      · rw [if_neg h2, ih hq]; rfl

/-- The first `"\r\n"` after a run of bytes free of NUL and of `"\r\n"`. -/
theorem findCRLF_some (l r : Bytes) (hnul : NUL ∉ l) (h : ¬ CRLF <:+: l) :
    findCRLF (l ++ CRLF ++ r) = some l.length := by
  induction l with
  | nil => simp [findCRLF, CRLF, NUL]
  | cons c l ih =>
    have hl : ¬ CRLF <:+: l := fun hh => h (hh.trans (List.suffix_cons c l).isInfix)
    have hc : c ≠ NUL := fun hh => hnul (by simp [hh])
    have hnul2 : NUL ∉ l := fun hh => hnul (by simp [hh])
    rw [List.append_assoc, List.cons_append, findCRLF_cons, if_neg hc]
    by_cases h2 : c = '\r' ∧ (l ++ (CRLF ++ r)).head? = some '\n'
    · exfalso
      obtain ⟨h2a, h2b⟩ := h2
      cases l with
      | nil => simp [CRLF] at h2b
      | cons d l =>
        simp at h2b
        apply h
        subst h2a; subst h2b
        exact ⟨[], l, by simp [CRLF]⟩
    · rw [if_neg h2]
      have := ih hnul2 hl
      simp only [List.append_assoc] at this
      rw [this]; rfl

theorem wrap32_id (v : Int) (h1 : -(2 ^ 31) ≤ v) (h2 : v < 2 ^ 31) : wrap32 v = v := by
  unfold wrap32
  omega

/-- On text that starts with a digit, `strtol` reads the run of digits. -/
theorem strtol_digit (c : Char) (s : Bytes) (h : c.isDigit = true) :
    strtol (c :: s) = max (-(2 ^ 63)) (min (digitsVal (c :: s) 0 : Int) (2 ^ 63 - 1)) := by
  obtain ⟨_, _, _, hm, hp, _, _, hsp⟩ := isDigit_ne h
  unfold strtol
  have hdrop : List.dropWhile isspace (c :: s) = c :: s := by
    simp [List.dropWhile, hsp]
  rw [hdrop]
  split
  · rename_i heq; simp at heq; exact absurd heq.1 hm
  · rename_i heq; simp at heq; exact absurd heq.1 hp
  · rfl

/-- `atoi` reads back the decimal text of a number that fits an `int`, whatever
non-digit follows it. -/
theorem atoi_decimal (n : Nat) (r : Bytes) (hn : n < 2 ^ 31) (hr : ∀ c ∈ r.head?, c.isDigit = false) :
    atoi (decimal n ++ r) = n := by
  obtain ⟨hne, hdig, hval⟩ := decimal_spec n
  have hv : digitsVal (decimal n ++ r) 0 = n := by
    rw [hval r]
    cases r with
    | nil => rfl
    | cons d r =>
      have : d.isDigit = false := hr d (by simp)
      simp [digitsVal, this]
  cases hd : decimal n with
  | nil => exact absurd hd hne
  | cons c l =>
    have hc : c.isDigit = true := hdig c (by simp [hd])
    rw [hd, List.cons_append] at hv
    unfold atoi
    rw [List.cons_append, strtol_digit c _ hc, hv]
    have h1 : max (-(2 ^ 63)) (min (n : Int) (2 ^ 63 - 1)) = n := by
      have : (n : Int) < 2 ^ 31 := by exact_mod_cast hn
      omega
    rw [h1]
    apply wrap32_id <;> omega

/-- `atoi` reads back the decimal text of a negative number that fits an `int`. -/
theorem atoi_neg_decimal (n : Nat) (r : Bytes) (hn : n ≤ 2 ^ 31)
    (hr : ∀ c ∈ r.head?, c.isDigit = false) :
    atoi ('-' :: (decimal n ++ r)) = -(n : Int) := by
  obtain ⟨hne, hdig, hval⟩ := decimal_spec n
  have hv : digitsVal (decimal n ++ r) 0 = n := by
    rw [hval r]
    cases r with
    | nil => rfl
    | cons d r =>
      have : d.isDigit = false := hr d (by simp)
      simp [digitsVal, this]
  unfold atoi strtol
  have hdrop : List.dropWhile isspace ('-' :: (decimal n ++ r)) = '-' :: (decimal n ++ r) := by
    simp [List.dropWhile, isspace]
  rw [hdrop]
  simp only [hv]
  have h1 : max (-(2 ^ 63)) (min (-(n : Int)) (2 ^ 63 - 1)) = -(n : Int) := by
    have : (n : Int) ≤ 2 ^ 31 := by exact_mod_cast hn
    omega
  rw [h1]
  apply wrap32_id <;> omega

theorem cstr_eq (mem a b : Bytes) (k : Int) (h : mem = a ++ b) (hk : k = (a.length : Int)) :
    cstr mem k = b := by
  subst h; subst hk; exact cstr_append a b

theorem decimal_no_crlf (n : Nat) : NUL ∉ decimal n ∧ ¬ CRLF <:+: decimal n := by
  obtain ⟨_, hdig, _⟩ := decimal_spec n
  constructor
  · intro h
    exact (isDigit_ne (hdig _ h)).1 rfl
  · rintro ⟨a, b, hab⟩
    have : '\r' ∈ decimal n := by
      rw [← hab]; simp [CRLF]
    exact (isDigit_ne (hdig _ this)).2.1 rfl

theorem bulkWire_length (s : Bytes) :
    (bulkWire s).length = (decimal s.length).length + s.length + 5 := by
  simp [bulkWire, CRLF]; omega

/-! ## Properties of `parseNode` -/

namespace Command

/-- On a complete bulk string that fits the length it is given, `parseNode`
appends the payload to `res` and returns the pointer past the element. -/
theorem parseNode_bulk (pre s rest : Bytes) (c : Command) (len : Int)
    (h31 : s.length < 2 ^ 31) (hfit : ((bulkWire s).length : Int) ≤ len) :
    parseNode (pre ++ bulkWire s ++ rest) c (pre.length : Int) len =
      (some ((pre.length : Int) + ((bulkWire s).length : Int)),
        { c with res := c.res ++ [s] }) := by
  obtain ⟨hnul, hcr⟩ := decimal_no_crlf s.length
  have hmem1 : cstr (pre ++ bulkWire s ++ rest) ((pre.length : Int) + 1) =
      decimal s.length ++ CRLF ++ (s ++ CRLF ++ rest) := by
    apply cstr_eq _ (pre ++ ['$'])
    · simp [bulkWire]
    · simp
  have hfind : findCRLF (decimal s.length ++ CRLF ++ (s ++ CRLF ++ rest)) =
      some (decimal s.length).length := findCRLF_some _ _ hnul hcr
  have hatoi : atoi (decimal s.length ++ CRLF ++ (s ++ CRLF ++ rest)) = (s.length : Int) := by
    rw [List.append_assoc]
    apply atoi_decimal _ _ h31
    intro c hc
    simp [CRLF] at hc
    subst hc
    decide
  have hmem2 : cstr (pre ++ bulkWire s ++ rest)
      ((pre.length : Int) + 1 + ((decimal s.length).length : Int) + 2) = s ++ CRLF ++ rest := by
    apply cstr_eq _ (pre ++ '$' :: (decimal s.length ++ CRLF))
    · simp [bulkWire]
    · simp [CRLF]; omega
  have hlen := bulkWire_length s
  unfold parseNode
  simp only [strstr, hmem1, hfind, Option.map_some', hatoi, substr, hmem2]
  have h0 : ¬ ((s.length : Int) < 0) := by omega
  rw [if_neg h0]
  have h1 : ¬ ((pre.length : Int) + len <
      (pre.length : Int) + 1 + ((decimal s.length).length : Int) + 2 + (s.length : Int) + 2) := by
    rw [hlen] at hfit; push_cast at hfit; omega
  rw [if_neg h1]
  have h2 : (pre.length : Int) + 1 + ((decimal s.length).length : Int) + 2 + (s.length : Int) + 2
      = (pre.length : Int) + ((bulkWire s).length : Int) := by
    rw [hlen]; push_cast; omega
  rw [h2]
  simp

/-! ## The request encoder -/

theorem foldl_toString (vec : List Bytes) (init : Bytes) :
    vec.foldl (fun out item => out ++ ['$'] ++ decimal item.length ++ CRLF ++ item ++ CRLF) init =
      init ++ (vec.map (fun a => '$' :: (decimal a.length ++ CRLF ++ a ++ CRLF))).flatten := by
  induction vec generalizing init with
  | nil => simp
  | cons a vec ih =>
    rw [List.foldl_cons, ih]
    simp

/-- C1. For every argument list, `Command::toString` is exactly `*`, the decimal
argument count and `\r\n`, followed for each argument in order by `$`, the
decimal byte length, `\r\n`, the argument bytes and `\r\n`, and nothing
else. -/
theorem toString_wire_format (c : Command) :
    c.toString = '*' :: (decimal c.vec.length ++ CRLF ++
      (c.vec.map (fun a => '$' :: (decimal a.length ++ CRLF ++ a ++ CRLF))).flatten) := by
  unfold toString
  rw [foldl_toString]
  simp

/-! ## Decoding complete replies -/

/-- C2. For every byte string `s` (any bytes), decoding the bulk reply
`$<len>\r\n<s>\r\n` held in the NUL-terminated buffer, on a command whose
result sequence is empty, returns OK and leaves the result sequence equal to
`[s]`.  The reply length fits the `int len` that `parse` receives. -/
theorem parse_bulk_roundtrip (s stale : Bytes) (c : Command) (fuel : Nat)
    (hres : c.res = []) (h31 : (bulkWire s).length < 2 ^ 31) :
    parse (fuel + 1) (bulkWire s ++ NUL :: stale) c 0 ((bulkWire s).length : Int) =
      some (OK, { c with res := [s] }) := by
  have hs : s.length < 2 ^ 31 := by
    rw [bulkWire_length] at h31; omega
  have hnode := parseNode_bulk [] s (NUL :: stale) c ((bulkWire s).length : Int) hs (le_refl _)
  simp only [List.nil_append, List.length_nil, Nat.cast_zero, zero_add] at hnode
  have hrd : rd (bulkWire s ++ NUL :: stale) 0 = '$' := by
    simp [rd, cstr, bulkWire]
  have hpos : ((bulkWire s).length : Int) ≠ 0 := by
    rw [bulkWire_length]; push_cast; omega
  have hpos2 : ((bulkWire s).length : Int) ≠ -1 := by omega
  simp only [parse, hrd, if_true, hnode, sub_zero, if_neg hpos, if_neg hpos2, hres, List.nil_append]

/-- C2, at a payload that holds CR, LF and NUL. -/
theorem parse_bulk_roundtrip_witness :
    ({} : Command).res = [] ∧ (bulkWire ['a', '\r', '\n', NUL, 'b']).length < 2 ^ 31 ∧
    parse 1 (bulkWire ['a', '\r', '\n', NUL, 'b'] ++ NUL :: ['z']) {} 0
        ((bulkWire ['a', '\r', '\n', NUL, 'b']).length : Int) =
      some (OK, { res := [['a', '\r', '\n', NUL, 'b']] }) :=
  ⟨rfl, by decide, parse_bulk_roundtrip ['a', '\r', '\n', NUL, 'b'] ['z'] {} 0 rfl (by decide)⟩

/-- A status, error or integer line whose text holds neither NUL nor `"\r\n"`:
what `strstr` finds and what the message is. -/
theorem line_reads (tag : Char) (t rest : Bytes) (hnul : NUL ∉ t) (hcr : ¬ CRLF <:+: t) :
    rd (tag :: (t ++ CRLF) ++ rest) 0 = tag ∧
    cstr (tag :: (t ++ CRLF) ++ rest) (0 + 1) = t ++ CRLF ++ rest ∧
    strstr (tag :: (t ++ CRLF) ++ rest) (0 + 1) = some (0 + 1 + (t.length : Int)) ∧
    substr (tag :: (t ++ CRLF) ++ rest) (0 + 1) (0 + 1 + (t.length : Int) - (0 + 1)) = t := by
  have hc : cstr (tag :: (t ++ CRLF) ++ rest) (0 + 1) = t ++ CRLF ++ rest := by
    apply cstr_eq _ [tag]
    · simp
    · simp
  refine ⟨by simp [rd, cstr], hc, ?_, ?_⟩
  · simp only [strstr, hc, findCRLF_some t rest hnul hcr, Option.map_some']
  · simp only [substr, hc]
    simp

theorem decimalInt_no_crlf (n : Int) : NUL ∉ decimalInt n ∧ ¬ CRLF <:+: decimalInt n := by
  obtain ⟨h1, h2⟩ := decimal_no_crlf (-n).toNat
  obtain ⟨h3, h4⟩ := decimal_no_crlf n.toNat
  unfold decimalInt
  split
  · constructor
    · intro h
      simp only [List.mem_cons] at h
      rcases h with h | h
      · exact absurd h (by decide)
      · exact h1 h
    · rintro ⟨a, b, hab⟩
      cases a with
      | nil => simp [CRLF] at hab
      | cons x a =>
        simp only [List.cons_append, List.cons.injEq] at hab
        exact h2 ⟨a, b, by simpa using hab.2⟩
  · exact ⟨h3, h4⟩

theorem atoi_decimalInt (n : Int) (r : Bytes) (h1 : -(2 ^ 31) ≤ n) (h2 : n < 2 ^ 31)
    (hr : ∀ c ∈ r.head?, c.isDigit = false) : atoi (decimalInt n ++ r) = n := by
  unfold decimalInt
  split
  · rw [List.cons_append, atoi_neg_decimal _ _ (by omega) hr]
    omega
  · rw [atoi_decimal _ _ (by omega) hr]
    omega

/-- Decoding the status line `+t\r\n`. -/
theorem parse_status (t stale : Bytes) (c : Command) (fuel : Nat) (len : Int)
    (hnul : NUL ∉ t) (hcr : ¬ CRLF <:+: t) :
    parse (fuel + 1) ((Reply.status t).wire ++ NUL :: stale) c 0 len =
      some (OK, { c with status := OK, msg := t }) := by
  obtain ⟨h1, _, h3, h4⟩ := line_reads '+' t (NUL :: stale) hnul hcr
  simp only [Reply.wire, parse, h1, h3, h4]
  simp

/-- Decoding the error line `-t\r\n`. -/
theorem parse_error (t stale : Bytes) (c : Command) (fuel : Nat) (len : Int)
    (hnul : NUL ∉ t) (hcr : ¬ CRLF <:+: t) :
    parse (fuel + 1) ((Reply.error t).wire ++ NUL :: stale) c 0 len =
      some (FAIL, { c with status := OK, msg := t }) := by
  obtain ⟨h1, _, h3, h4⟩ := line_reads '-' t (NUL :: stale) hnul hcr
  simp only [Reply.wire, parse, h1, h3, h4]
  simp

/-- Decoding the integer line `:n\r\n`. -/
theorem parse_integer (n : Int) (stale : Bytes) (c : Command) (fuel : Nat) (len : Int)
    (hlo : -(2 ^ 31) ≤ n) (hhi : n < 2 ^ 31) :
    parse (fuel + 1) ((Reply.integer n).wire ++ NUL :: stale) c 0 len =
      some (OK, { c with status := n, msg := decimalInt n }) := by
  obtain ⟨hnul, hcr⟩ := decimalInt_no_crlf n
  obtain ⟨h1, h2, h3, h4⟩ := line_reads ':' (decimalInt n) (NUL :: stale) hnul hcr
  have hat : atoi (decimalInt n ++ CRLF ++ NUL :: stale) = n := by
    rw [List.append_assoc]
    apply atoi_decimalInt n _ hlo hhi
    intro c hc
    simp [CRLF] at hc
    subst hc
    decide
  simp only [Reply.wire, parse, h1, h2, h3, h4, hat]
  simp

/-! ## The round trip -/

theorem write_recvs (s : Socket) (d : Bytes) (cnt n : Int) (s1 : Socket)
    (h : s.write d cnt = some (n, s1)) : s1.recvs = s.recvs := by
  unfold Socket.write at h
  cases hl : Socket.writeLoop d cnt s.sends s.wire 0 0 with
  | none => simp [hl] at h
  | some r =>
    simp only [hl, Option.map_some', Option.some.injEq, Prod.mk.injEq] at h
    rw [← h.2]

/-- One iteration of the read loop in which `recv` delivers the bytes `bs`, all
of which fit the buffer: they are stored at `readed`, the buffer is terminated,
and the decoder runs from the buffer origin. -/
theorem doWorkLoop_read (fuel : Nat) (cmd : Command) (redis : RedisConnect)
    (T delay readed : Int) (bs : Bytes) (rest : List RecvResult)
    (hr : redis.sock.recvs = RecvResult.bytes bs :: rest) (hne : bs ≠ [])
    (hcap : readed + (bs.length : Int) ≤ redis.memsz) :
    doWorkLoop (fuel + 1) cmd redis T delay readed =
      match cmd.parse (fuel + 1) (poke redis.buffer readed.toNat (bs ++ [NUL])) 0
          (readed + (bs.length : Int)) with
      | none => none
      | some (len, cmd1) =>
        if len = TIMEOUT then
          doWorkLoop fuel cmd1
            { redis with sock := { redis.sock with recvs := rest },
                         buffer := poke redis.buffer readed.toNat (bs ++ [NUL]) } T 0
            (readed + (bs.length : Int))
        else
          some (len, cmd1,
            { redis with sock := { redis.sock with recvs := rest },
                         buffer := poke redis.buffer readed.toNat (bs ++ [NUL]) }) := by
  have hpos : 0 < bs.length := List.length_pos.mpr hne
  have hlt : readed < redis.memsz := by omega
  have htake : List.take (redis.memsz - readed).toNat bs = bs := by
    apply List.take_of_length_le; omega
  have hdrop : List.drop (redis.memsz - readed).toNat bs = [] := by
    apply List.drop_of_length_le; omega
  have h1 : ¬ ((bs.length : Int) < 0) := by omega
  have h2 : ¬ ((bs.length : Int) = 0) := by omega
  have h3 : (0 : Int) < (bs.length : Int) := by omega
  simp only [doWorkLoop, if_pos hlt, Socket.read, hr, htake, hdrop, if_true, gt_iff_lt, if_pos h3,
    if_neg h1, if_neg h2]

/-- A round trip in which the request is written and the first `recv` delivers
a reply that the decoder settles with a code other than TIMEOUT. -/
theorem getResult_single (fuel : Nat) (cmd : Command) (redis : RedisConnect) (T n : Int)
    (sock1 : Socket) (bs : Bytes) (rest : List RecvResult) (code : Int) (cmd1 : Command)
    (hw : redis.sock.write cmd.toString (cmd.toString.length : Int) = some (n, sock1))
    (hn : 0 ≤ n) (hr : redis.sock.recvs = RecvResult.bytes bs :: rest) (hne : bs ≠ [])
    (hcap : (bs.length : Int) ≤ redis.memsz)
    (hp : parse (fuel + 1) (bs ++ NUL :: redis.buffer.drop (bs.length + 1))
      { cmd with status := 0, msg := [] } 0 (bs.length : Int) = some (code, cmd1))
    (hcode : code ≠ TIMEOUT) :
    ∃ cmd2 redis2, getResult (fuel + 1) cmd redis T = some (code, cmd2, redis2) ∧
      redis2.code = code ∧ redis2.status = cmd1.status ∧ cmd2.res = cmd1.res ∧
      redis2.msg = cmd2.msg ∧
      cmd2.msg = (if code < 0 ∧ cmd1.msg = [] then errorText code else cmd1.msg) := by
  have hr1 : sock1.recvs = RecvResult.bytes bs :: rest := by
    rw [write_recvs _ _ _ _ _ hw, hr]
  have hts : ({ cmd with status := 0, msg := [] } : Command).toString = cmd.toString := rfl
  have hpoke : poke redis.buffer 0 (bs ++ [NUL]) = bs ++ NUL :: redis.buffer.drop (bs.length + 1) := by
    simp [poke]
  have hloop := doWorkLoop_read fuel { cmd with status := 0, msg := [] }
    { redis with sock := sock1 } T 0 0 bs rest hr1 hne (by simpa using hcap)
  simp only [Int.toNat_zero, hpoke, zero_add, hp, if_neg hcode] at hloop
  have hn2 : ¬ (n < 0) := by omega
  simp only [getResult, doWork, hts, hw, if_neg hn2, hloop]
  by_cases hc : code < 0 ∧ cmd1.msg = []
  · simp only [hc, and_self, if_true]
    exact ⟨_, _, rfl, rfl, rfl, rfl, rfl, rfl⟩
  · simp only [hc, if_false]
    exact ⟨_, _, rfl, rfl, rfl, rfl, rfl, rfl⟩

end Command

/-- C3, as stated, fails on a status line whose text holds a NUL byte: the text
`a\0b` holds no `"\r\n"`, yet decoding `+a\0b\r\n` returns TIMEOUT and
records no message, because `strstr` stops at the NUL. -/
theorem status_with_nul_incomplete :
    ¬ CRLF <:+: ['a', NUL, 'b'] ∧
    Command.parse 1 ((Reply.status ['a', NUL, 'b']).wire ++ [NUL]) {} 0
      (((Reply.status ['a', NUL, 'b']).wire.length : Nat) : Int) = some (TIMEOUT, {}) := by
  decide

/-- C3 (amended). For every text `t` holding no `"\r\n"` and no NUL byte:
decoding `+t\r\n` returns OK with message `t` and status OK; decoding
`-t\r\n` returns FAIL with message `t`; decoding `:n\r\n`, the decimal text
of an integer `n` in 32-bit range, returns OK with that text as message and
status `n`.  And when the request of the one-argument command `ping` is written
and the transport answers `+OK\r\n`, `ping` returns OK and the last message of
the connection is `OK`. -/
theorem line_replies_decoded (t stale : Bytes) (c : Command) (fuel : Nat) (n : Int)
    (redis : RedisConnect) (w : Int) (sock1 : Socket) (rest : List RecvResult)
    (hnul : NUL ∉ t) (hcr : ¬ CRLF <:+: t) (hlo : -(2 ^ 31) ≤ n) (hhi : n < 2 ^ 31)
    (hw : redis.sock.write (Command.toString { vec := ["ping".toList] })
      ((Command.toString { vec := ["ping".toList] }).length : Int) = some (w, sock1))
    (hw0 : 0 ≤ w) (hr : redis.sock.recvs = RecvResult.bytes "+OK\r\n".toList :: rest)
    (hcap : 5 ≤ redis.memsz) :
    Command.parse (fuel + 1) ((Reply.status t).wire ++ NUL :: stale) c 0
        ((Reply.status t).wire.length : Int) = some (OK, { c with status := OK, msg := t }) ∧
    Command.parse (fuel + 1) ((Reply.error t).wire ++ NUL :: stale) c 0
        ((Reply.error t).wire.length : Int) = some (FAIL, { c with status := OK, msg := t }) ∧
    Command.parse (fuel + 1) ((Reply.integer n).wire ++ NUL :: stale) c 0
        ((Reply.integer n).wire.length : Int) =
      some (OK, { c with status := n, msg := decimalInt n }) ∧
    ∃ redis2, ping (fuel + 1) redis = some (OK, redis2) ∧ redis2.msg = "OK".toList ∧
      redis2.code = OK := by
  refine ⟨Command.parse_status t stale c fuel _ hnul hcr, Command.parse_error t stale c fuel _ hnul hcr,
    Command.parse_integer n stale c fuel _ hlo hhi, ?_⟩
  have hp := Command.parse_status "OK".toList (redis.buffer.drop ("+OK\r\n".toList.length + 1))
    { vec := ["ping".toList] } fuel (("+OK\r\n".toList.length : Nat) : Int) (by decide) (by decide)
  have hwire : (Reply.status "OK".toList).wire = "+OK\r\n".toList := by decide
  rw [hwire] at hp
  obtain ⟨cmd2, redis2, hg, h1, _, _, h4, h5⟩ :=
    Command.getResult_single fuel { vec := ["ping".toList] } redis redis.timeout w sock1
      "+OK\r\n".toList rest OK _ hw hw0 hr (by decide) (by simpa using hcap) hp (by decide)
  refine ⟨redis2, ?_, ?_, h1⟩
  · show Option.map (fun r => (r.1, r.2.2))
      (Command.getResult (fuel + 1) { vec := ["ping".toList] } redis redis.timeout) = _
    rw [hg]
    rfl
  · rw [h4, h5]
    simp [OK]

/-- C3 (amended), at the text `OK`, the integer -42 and a connection whose
transport takes the request in one `send` and answers `+OK\r\n`. -/
theorem line_replies_decoded_witness :
    Command.parse 1 ((Reply.status "OK".toList).wire ++ NUL :: []) {} 0
        ((Reply.status "OK".toList).wire.length : Int) =
      some (OK, { status := OK, msg := "OK".toList }) ∧
    Command.parse 1 ((Reply.error "OK".toList).wire ++ NUL :: []) {} 0
        ((Reply.error "OK".toList).wire.length : Int) =
      some (FAIL, { status := OK, msg := "OK".toList }) ∧
    Command.parse 1 ((Reply.integer (-42)).wire ++ NUL :: []) {} 0
        ((Reply.integer (-42)).wire.length : Int) =
      some (OK, { status := -42, msg := decimalInt (-42) }) ∧
    ∃ redis2,
      ping 1 { memsz := 8, timeout := 30, buffer := List.replicate 9 'z',
               sock := { sends := [{ num := 14 }],
                         recvs := [RecvResult.bytes "+OK\r\n".toList] } } =
        some (OK, redis2) ∧ redis2.msg = "OK".toList ∧ redis2.code = OK :=
  line_replies_decoded "OK".toList [] {} 0 (-42)
    { memsz := 8, timeout := 30, buffer := List.replicate 9 'z',
      sock := { sends := [{ num := 14 }], recvs := [RecvResult.bytes "+OK\r\n".toList] } }
    14 { sends := [], recvs := [RecvResult.bytes "+OK\r\n".toList],
         wire := "*1\r\n$4\r\nping\r\n".toList } []
    (by decide) (by decide) (by decide) (by decide) (by decide) (by decide) rfl (by decide)

/-- Decoding the null bulk reply `$-1\r\n`. -/
theorem parse_null_bulk (stale : Bytes) (c : Command) (fuel : Nat) (len : Int) :
    Command.parse (fuel + 1) ("$-1\r\n".toList ++ NUL :: stale) c 0 len = some (NOTFOUND, c) := by
  have hat : atoi ('-' :: '1' :: '\r' :: '\n' :: NUL :: stale) = -1 := by
    have := atoi_neg_decimal 1 ('\r' :: '\n' :: NUL :: stale) (by norm_num) (by simp)
    simpa [decimal] using this
  simp [Command.parse, Command.parseNode, rd, cstr, strstr, findCRLF, NUL, NOTFOUND] at hat ⊢
  simp only [hat]
  simp

/-- C4. Decoding the bulk reply `$-1\r\n` returns NOTFOUND and leaves the
result sequence as it was; and when the request of `get` is written and the
transport answers `$-1\r\n`, `get(key, val)` returns NOTFOUND and `val` is
exactly what it was before the call, whatever it was. -/
theorem null_bulk_not_found (stale : Bytes) (c : Command) (fuel : Nat)
    (redis : RedisConnect) (key val : Bytes) (w : Int) (sock1 : Socket) (rest : List RecvResult)
    (hw : redis.sock.write (Command.toString { vec := ["get".toList, key] })
      ((Command.toString { vec := ["get".toList, key] }).length : Int) = some (w, sock1))
    (hw0 : 0 ≤ w) (hr : redis.sock.recvs = RecvResult.bytes "$-1\r\n".toList :: rest)
    (hcap : 5 ≤ redis.memsz) :
    Command.parse (fuel + 1) ("$-1\r\n".toList ++ NUL :: stale) c 0 5 = some (NOTFOUND, c) ∧
    ∃ redis2, get (fuel + 1) redis key val = some (NOTFOUND, val, redis2) ∧
      redis2.code = NOTFOUND := by
  refine ⟨parse_null_bulk stale c fuel 5, ?_⟩
  have hp := parse_null_bulk (redis.buffer.drop ("$-1\r\n".toList.length + 1))
    { vec := ["get".toList, key] } fuel (("$-1\r\n".toList.length : Nat) : Int)
  obtain ⟨cmd2, redis2, hg, h1, _, _, _, _⟩ :=
    Command.getResult_single fuel { vec := ["get".toList, key] } redis redis.timeout w sock1
      "$-1\r\n".toList rest NOTFOUND _ hw hw0 hr (by decide) (by simpa using hcap) hp (by decide)
  refine ⟨redis2, ?_, h1⟩
  have he : executeVec (fuel + 1) redis [] ["get".toList, key] =
      some (redis2.code, (if redis2.code > 0 then cmd2.res else []), redis2) := by
    show (match Command.getResult (fuel + 1) { vec := ["get".toList, key] } redis redis.timeout with
      | none => none
      | some (_, cmd, redis) => some (redis.code, (if redis.code > 0 then cmd.res else []), redis)) = _
    rw [hg]
  unfold get
  rw [he]
  simp [h1, NOTFOUND]

/-- C4, at a connection whose transport takes the request in one `send` and
answers `$-1\r\n`, with `val` holding `old` before the call. -/
theorem null_bulk_not_found_witness :
    Command.parse 1 ("$-1\r\n".toList ++ NUL :: []) { res := ["x".toList] } 0 5 =
      some (NOTFOUND, { res := ["x".toList] }) ∧
    ∃ redis2,
      get 1 { memsz := 8, timeout := 30, buffer := List.replicate 9 'z',
              sock := { sends := [{ num := 20 }],
                        recvs := [RecvResult.bytes "$-1\r\n".toList] } } "k".toList "old".toList =
        some (NOTFOUND, "old".toList, redis2) ∧ redis2.code = NOTFOUND :=
  null_bulk_not_found [] { res := ["x".toList] } 0
    { memsz := 8, timeout := 30, buffer := List.replicate 9 'z',
      sock := { sends := [{ num := 20 }], recvs := [RecvResult.bytes "$-1\r\n".toList] } }
    "k".toList "old".toList 20
    { sends := [], recvs := [RecvResult.bytes "$-1\r\n".toList],
      wire := "*2\r\n$3\r\nget\r\n$1\r\nk\r\n".toList } []
    (by decide) (by decide) rfl (by decide)

/-- C5. The code at the input of the claim: with a fresh zeroed buffer and
the reply delivered as the chunks `*2\r\n$3\r\nfoo\r\n` and `$3\r\nbar\r\n`,
`keys` returns 3 and the strings `foo`, `foo`, `bar`; with the same reply
delivered in a single read it returns 2 and `foo`, `bar`. -/
theorem keys_two_chunks_duplicates :
    (keys 2 { memsz := 32, timeout := 3000, buffer := List.replicate 33 NUL,
              sock := { sends := [{ num := 21 }],
                        recvs := [RecvResult.bytes "*2\r\n$3\r\nfoo\r\n".toList,
                                  RecvResult.bytes "$3\r\nbar\r\n".toList] } }
        [] "*".toList).map (fun r => (r.1, r.2.1)) =
      some (3, ["foo".toList, "foo".toList, "bar".toList]) ∧
    (keys 2 { memsz := 32, timeout := 3000, buffer := List.replicate 33 NUL,
              sock := { sends := [{ num := 21 }],
                        recvs := [RecvResult.bytes "*2\r\n$3\r\nfoo\r\n$3\r\nbar\r\n".toList] } }
        [] "*".toList).map (fun r => (r.1, r.2.1)) =
      some (2, ["foo".toList, "bar".toList]) := by
  decide

/-- C7. The code at the header `$-2\r\n`: `parse` returns OK, with nothing
appended to the result sequence. -/
theorem parse_bulk_minus_two :
    Command.parse 1 ("$-2\r\n".toList ++ [NUL]) {} 0 5 = some (OK, {}) := by
  decide

/-- C8, as stated, fails: the buffer `x`, whose first byte is no type tag and
which holds no `"\r\n"`, decodes to TIMEOUT, and the bulk reply
`$abc\r\n\r\n`, whose length field is no decimal integer, decodes to OK with
one empty result string. -/
theorem malformed_not_dataerr :
    Command.parse 1 ("x".toList ++ [NUL]) {} 0 1 = some (TIMEOUT, {}) ∧
    Command.parse 1 ("$abc\r\n\r\n".toList ++ [NUL]) {} 0 8 = some (OK, { res := [[]] }) := by
  decide

/-- C8 (amended). For every buffer whose first byte is none of `+`, `-`, `:`,
`$`, `*`: `parse` returns DATAERR when the C string that follows the first byte
holds a `"\r\n"`, and TIMEOUT when it holds none; the command is left as it
was. -/
theorem unknown_tag_dataerr_after_line (mem : Bytes) (c : Command) (fuel : Nat) (len : Int)
    (h1 : rd mem 0 ≠ '+') (h2 : rd mem 0 ≠ '-') (h3 : rd mem 0 ≠ ':') (h4 : rd mem 0 ≠ '$')
    (h5 : rd mem 0 ≠ '*') :
    Command.parse (fuel + 1) mem c 0 len =
      some (if (strstr mem 1).isSome then DATAERR else TIMEOUT, c) := by
  simp only [Command.parse, if_neg h4, zero_add, h1, h2, h3, h5, or_self, if_false]
  cases strstr mem 1 <;> simp

/-- C8 (amended), at the buffers `x\r\n` and `x`. -/
theorem unknown_tag_dataerr_after_line_witness :
    Command.parse 1 ("x\r\n".toList ++ [NUL]) {} 0 3 = some (DATAERR, {}) ∧
    Command.parse 1 ("x".toList ++ [NUL]) {} 0 1 = some (TIMEOUT, {}) :=
  ⟨unknown_tag_dataerr_after_line ("x\r\n".toList ++ [NUL]) {} 0 3
      (by decide) (by decide) (by decide) (by decide) (by decide),
   unknown_tag_dataerr_after_line ("x".toList ++ [NUL]) {} 0 1
      (by decide) (by decide) (by decide) (by decide) (by decide)⟩

/-! ## Decoding incomplete replies -/

theorem no_crlf_snoc_cr (t : Bytes) (h : ¬ CRLF <:+: t) : ¬ CRLF <:+: t ++ ['\r'] := by
  rintro ⟨a, b, hab⟩
  rcases List.eq_nil_or_concat b with hb | ⟨b1, x, hb⟩
  · subst hb
    have := congrArg List.reverse hab
    simp [CRLF] at this
  · subst hb
    have h2 : a ++ CRLF ++ b1 ++ [x] = t ++ ['\r'] := by
      simpa [List.append_assoc] using hab
    have h3 := List.append_inj_left' h2 rfl
    exact h ⟨a, b1, h3⟩

/-- A strict prefix of a line holds no `"\r\n"` when the text of the line
holds none. -/
theorem cut_line_no_crlf (t q : Bytes) (h : ¬ CRLF <:+: t) (hq : q <+: t ++ CRLF)
    (hne : q ≠ t ++ CRLF) : ¬ CRLF <:+: q := by
  have hlen : q.length < (t ++ CRLF).length := by
    rcases Nat.lt_or_ge q.length (t ++ CRLF).length with h1 | h1
    · exact h1
    · exact absurd (List.IsPrefix.eq_of_length_le hq h1) hne
  have hq2 : q <+: t ++ ['\r'] := by
    have h1 : t ++ ['\r'] <+: t ++ CRLF := ⟨['\n'], by simp [CRLF]⟩
    apply List.prefix_of_prefix_length_le hq h1
    simp [CRLF] at hlen ⊢
    omega
  intro hh
  exact no_crlf_snoc_cr t h (hh.trans hq2.isInfix)

/-- A prefix of `a ++ b` lies inside `a` or holds all of `a`. -/
theorem cut_append_cases (q a b : Bytes) (h : q <+: a ++ b) :
    (q <+: a ∧ q ≠ a) ∨ ∃ q2, q = a ++ q2 ∧ q2 <+: b := by
  rcases Nat.lt_or_ge q.length a.length with h1 | h1
  · left
    refine ⟨List.prefix_of_prefix_length_le h (List.prefix_append a b) (le_of_lt h1), ?_⟩
    intro hqa
    rw [hqa] at h1
    exact absurd h1 (lt_irrefl _)
  · right
    obtain ⟨q2, hq2⟩ := List.prefix_of_prefix_length_le (List.prefix_append a b) h h1
    refine ⟨q2, hq2.symm, ?_⟩
    rw [← hq2] at h
    exact (List.prefix_append_right_inj a).mp h

theorem findCRLF_replicate_nul (k : Nat) : findCRLF (List.replicate k NUL) = none := by
  cases k with
  | zero => rfl
  | succ k => simp [List.replicate, findCRLF]

theorem cut_length_lt (q a : Bytes) (hq : q <+: a) (hne : q ≠ a) : q.length < a.length := by
  rcases Nat.lt_or_ge q.length a.length with h1 | h1
  · exact h1
  · exact absurd (List.IsPrefix.eq_of_length_le hq h1) hne

namespace Command

/-- On a strict prefix of a bulk string, followed by the terminator and nothing
readable, `parseNode` returns the pointer it was given and leaves the command as
it was. -/
theorem parseNode_cut (pre q s : Bytes) (k : Nat) (c : Command)
    (h31 : s.length < 2 ^ 31) (hq : q <+: bulkWire s) (hne : q ≠ bulkWire s) :
    parseNode (pre ++ q ++ List.replicate (k + 1) NUL) c (pre.length : Int) (q.length : Int) =
      (some (pre.length : Int), c) := by
  cases q with
  | nil =>
    have hc : cstr (pre ++ [] ++ List.replicate (k + 1) NUL) ((pre.length : Int) + 1) =
        List.replicate k NUL := by
      apply cstr_eq _ (pre ++ [NUL])
      · simp [List.replicate]
      · simp
    simp only [parseNode, strstr, hc, findCRLF_replicate_nul, Option.map_none']
  | cons x q1 =>
    unfold bulkWire at hq hne
    obtain ⟨hx, hq1⟩ := List.cons_prefix_cons.mp hq
    subst hx
    have hne1 : q1 ≠ decimal s.length ++ CRLF ++ s ++ CRLF := fun h => hne (by rw [h])
    rw [List.append_assoc] at hq1 hne1
    obtain ⟨hnul, hcr⟩ := decimal_no_crlf s.length
    rcases cut_append_cases q1 _ _ hq1 with ⟨hin, hin2⟩ | ⟨q2, hq2, hq2p⟩
    · have hno := cut_line_no_crlf _ _ hcr hin hin2
      have hc : cstr (pre ++ '$' :: q1 ++ List.replicate (k + 1) NUL) ((pre.length : Int) + 1) =
          q1 ++ NUL :: List.replicate k NUL := by
        apply cstr_eq _ (pre ++ ['$'])
        · simp [List.replicate]
        · simp
      simp only [parseNode, strstr, hc, findCRLF_none _ _ hno, Option.map_none']
    · have hne2 : q2 ≠ s ++ CRLF := fun h => hne1 (by rw [hq2, h])
      have hlt := cut_length_lt _ _ hq2p hne2
      have hc : cstr (pre ++ '$' :: q1 ++ List.replicate (k + 1) NUL) ((pre.length : Int) + 1) =
          decimal s.length ++ CRLF ++ (q2 ++ List.replicate (k + 1) NUL) := by
        apply cstr_eq _ (pre ++ ['$'])
        · simp [hq2]
        · simp
      have hfind : findCRLF (decimal s.length ++ CRLF ++ (q2 ++ List.replicate (k + 1) NUL)) =
          some (decimal s.length).length := findCRLF_some _ _ hnul hcr
      have hatoi : atoi (decimal s.length ++ CRLF ++ (q2 ++ List.replicate (k + 1) NUL)) =
          (s.length : Int) := by
        rw [List.append_assoc]
        apply atoi_decimal _ _ h31
        intro c hc
        simp [CRLF] at hc
        subst hc
        decide
      simp only [parseNode, strstr, hc, hfind, Option.map_some', hatoi]
      have h0 : ¬ ((s.length : Int) < 0) := by omega
      rw [if_neg h0]
      have h1 : (pre.length : Int) + (('$' :: q1).length : Int) <
          (pre.length : Int) + 1 + ((decimal s.length).length : Int) + 2 + (s.length : Int) + 2 := by
        simp only [hq2, List.length_cons, List.length_append, CRLF, List.length_nil] at hlt ⊢
        push_cast
        omega
      rw [if_pos h1]

end Command

theorem rd_append (pre r : Bytes) : rd (pre ++ r) (pre.length : Int) = r.headD NUL := by
  simp [rd, cstr_append]

theorem bulkWire_cut_head (q s : Bytes) (hq : q <+: bulkWire s) : q.headD NUL ≠ '*' := by
  cases q with
  | nil => decide
  | cons x q =>
    unfold bulkWire at hq
    obtain ⟨hx, _⟩ := List.cons_prefix_cons.mp hq
    subst hx
    simp

namespace Command

/-- The element loop on an array body that stops short of its end: the loop
reaches the element that is not all there and returns TIMEOUT. -/
theorem parseLoop_cut (self : Command → Int → Int → Option (Int × Command)) (k : Nat) :
    ∀ (items : List Bytes) (pre q : Bytes) (c : Command),
      (∀ s ∈ items, s.length < 2 ^ 31) →
      q <+: (items.map bulkWire).flatten → q ≠ (items.map bulkWire).flatten →
      ∃ c1, parseLoop self (pre ++ q ++ List.replicate (k + 1) NUL)
        ((pre.length : Int) + (q.length : Int)) items.length c (pre.length : Int) =
          some (TIMEOUT, c1) := by
  intro items
  induction items with
  | nil =>
    intro pre q c _ hq hne
    simp only [List.map_nil, List.flatten_nil] at hq hne
    exact absurd (List.prefix_nil.mp hq) hne
  | cons s rest ih =>
    intro pre q c h31 hq hne
    have hs : s.length < 2 ^ 31 := h31 s (by simp)
    have hrest : ∀ s ∈ rest, s.length < 2 ^ 31 := fun s hs => h31 s (by simp [hs])
    simp only [List.map_cons, List.flatten_cons] at hq hne
    have hlen : (pre.length : Int) + (q.length : Int) - (pre.length : Int) = (q.length : Int) := by
      omega
    rcases cut_append_cases q _ _ hq with ⟨hin, hin2⟩ | ⟨q2, hq2, hq2p⟩
    · have hrd : rd (pre ++ q ++ List.replicate (k + 1) NUL) (pre.length : Int) ≠ '*' := by
        rw [List.append_assoc, rd_append]
        cases q with
        | nil => simp [List.replicate]; decide
        | cons x q => simpa using bulkWire_cut_head _ _ hin
      refine ⟨c, ?_⟩
      simp only [List.length_cons, parseLoop, if_neg hrd, hlen,
        parseNode_cut pre q s k c hs hin hin2, if_true]
    · have hne2 : q2 ≠ (rest.map bulkWire).flatten := fun h => hne (by rw [hq2, h])
      have hmem : pre ++ q ++ List.replicate (k + 1) NUL =
          pre ++ bulkWire s ++ (q2 ++ List.replicate (k + 1) NUL) := by
        simp [hq2]
      have hrd : rd (pre ++ q ++ List.replicate (k + 1) NUL) (pre.length : Int) ≠ '*' := by
        rw [hmem, List.append_assoc, rd_append]
        simp [bulkWire]
      have hfit : ((bulkWire s).length : Int) ≤ (q.length : Int) := by
        rw [hq2]; simp
      have hnode := parseNode_bulk pre s (q2 ++ List.replicate (k + 1) NUL) c (q.length : Int) hs hfit
      rw [← hmem] at hnode
      have hpos : (pre.length : Int) + ((bulkWire s).length : Int) ≠ (pre.length : Int) := by
        rw [bulkWire_length]; push_cast; omega
      obtain ⟨c1, hc1⟩ := ih (pre ++ bulkWire s) q2 { c with res := c.res ++ [s] } hrest hq2p hne2
      have hmem2 : pre ++ bulkWire s ++ q2 ++ List.replicate (k + 1) NUL =
          pre ++ q ++ List.replicate (k + 1) NUL := by
        simp [hq2]
      have htail : (((pre ++ bulkWire s).length : Nat) : Int) + (q2.length : Int) =
          (pre.length : Int) + (q.length : Int) := by
        rw [hq2]; simp; omega
      have hptr : (((pre ++ bulkWire s).length : Nat) : Int) =
          (pre.length : Int) + ((bulkWire s).length : Int) := by
        simp
      rw [hmem2, htail, hptr] at hc1
      refine ⟨c1, ?_⟩
      simp only [List.length_cons, parseLoop, if_neg hrd, hlen, hnode, if_neg hpos, hc1]

end Command

theorem array_body_bounds (items : List Bytes) :
    items.length ≤ ((items.map bulkWire).flatten).length ∧
    ∀ s ∈ items, s.length ≤ ((items.map bulkWire).flatten).length := by
  induction items with
  | nil => simp
  | cons a items ih =>
    have := bulkWire_length a
    simp only [List.map_cons, List.flatten_cons, List.length_append, List.length_cons]
    constructor
    · omega
    · intro s hs
      simp only [List.mem_cons] at hs
      rcases hs with hs | hs
      · subst hs; omega
      · have := ih.2 s hs; omega

namespace Command

/-- A buffer that holds a tag other than `$` and then no `"\r\n"` before the
terminator decodes to TIMEOUT. -/
theorem parse_line_cut (tag : Char) (q r : Bytes) (c : Command) (fuel : Nat) (len : Int)
    (htag : tag ≠ '$') (hq : ¬ CRLF <:+: q) :
    parse (fuel + 1) (tag :: q ++ NUL :: r) c 0 len = some (TIMEOUT, c) := by
  have hrd : rd (tag :: q ++ NUL :: r) 0 = tag := by simp [rd, cstr]
  have hc : cstr (tag :: q ++ NUL :: r) (0 + 1) = q ++ NUL :: r := by
    apply cstr_eq _ [tag]
    · simp
    · simp
  simp only [parse, hrd, if_neg htag, strstr, hc, findCRLF_none q r hq, Option.map_none']

end Command

/-- C6. For every well-formed reply (status, error, integer, bulk string, or
array of bulk strings) whose length fits an `int`, and every non-empty strict
prefix `P` of its wire form, `parse` applied to `P`, NUL-terminated and with
nothing readable after the terminator, returns the incomplete signal TIMEOUT. -/
theorem cut_reply_incomplete (R : Reply) (P : Bytes) (k : Nat) (c : Command) (fuel : Nat)
    (hwf : R.wellFormed) (h31 : R.wire.length < 2 ^ 31)
    (hP : P <+: R.wire) (hne : P ≠ []) (hstrict : P ≠ R.wire) :
    ∃ c1, Command.parse (fuel + 1) (P ++ List.replicate (k + 1) NUL) c 0 (P.length : Int) =
      some (TIMEOUT, c1) := by
  cases P with
  | nil => exact absurd rfl hne
  | cons x q =>
    have line : ∀ (tag : Char) (t : Bytes), tag ≠ '$' → ¬ CRLF <:+: t →
        x :: q <+: tag :: (t ++ CRLF) → x :: q ≠ tag :: (t ++ CRLF) →
        ∃ c1, Command.parse (fuel + 1) (x :: q ++ List.replicate (k + 1) NUL) c 0
          ((x :: q).length : Int) = some (TIMEOUT, c1) := by
      intro tag t htag ht hp hs
      obtain ⟨hx, hq⟩ := List.cons_prefix_cons.mp hp
      subst hx
      have hq2 : q ≠ t ++ CRLF := fun h => hs (by rw [h])
      exact ⟨c, Command.parse_line_cut x q _ c fuel _ htag (cut_line_no_crlf t q ht hq hq2)⟩
    cases R with
    | status t => exact line '+' t (by decide) hwf hP hstrict
    | error t => exact line '-' t (by decide) hwf hP hstrict
    | integer n => exact line ':' (decimalInt n) (by decide) (Command.decimalInt_no_crlf n).2 hP hstrict
    | bulk s =>
      simp only [Reply.wire] at hP hstrict h31
      have hs : s.length < 2 ^ 31 := by
        rw [bulkWire_length] at h31; omega
      have hnode := Command.parseNode_cut [] (x :: q) s k c hs hP hstrict
      simp only [List.nil_append, List.length_nil, Nat.cast_zero] at hnode
      have hx : x = '$' := (List.cons_prefix_cons.mp hP).1
      have hrd : rd (x :: q ++ List.replicate (k + 1) NUL) 0 = '$' := by
        simp [rd, cstr, hx]
      exact ⟨c, by simp only [Command.parse, hrd, if_true, hnode, sub_self]⟩
    | array items =>
      simp only [Reply.wire] at hP hstrict h31
      obtain ⟨hx, hq⟩ := List.cons_prefix_cons.mp hP
      subst hx
      have hqne : q ≠ decimal items.length ++ CRLF ++ (items.map bulkWire).flatten :=
        fun h => hstrict (by rw [h])
      obtain ⟨hnul, hcr⟩ := decimal_no_crlf items.length
      obtain ⟨hb1, hb2⟩ := array_body_bounds items
      simp only [List.length_cons, List.length_append] at h31
      rcases cut_append_cases q _ _ hq with ⟨hin, hin2⟩ | ⟨q2, hq2, hq2p⟩
      · exact ⟨c, Command.parse_line_cut '*' q _ c fuel _ (by decide)
          (cut_line_no_crlf _ q hcr hin hin2)⟩
      · have hq2ne : q2 ≠ (items.map bulkWire).flatten := fun h => hqne (by rw [hq2, h])
        have hrd : rd ('*' :: q ++ List.replicate (k + 1) NUL) 0 = '*' := by simp [rd, cstr]
        have hc : cstr ('*' :: q ++ List.replicate (k + 1) NUL) (0 + 1) =
            decimal items.length ++ CRLF ++ (q2 ++ List.replicate (k + 1) NUL) := by
          apply cstr_eq _ ['*']
          · simp [hq2]
          · simp
        have hfind := findCRLF_some (decimal items.length) (q2 ++ List.replicate (k + 1) NUL) hnul hcr
        have hatoi : atoi (decimal items.length ++ CRLF ++ (q2 ++ List.replicate (k + 1) NUL)) =
            (items.length : Int) := by
          rw [List.append_assoc]
          apply atoi_decimal _ _ (by omega)
          intro c hc
          simp [CRLF] at hc
          subst hc
          decide
        obtain ⟨c1, hc1⟩ := Command.parseLoop_cut (Command.parse fuel
            ('*' :: q ++ List.replicate (k + 1) NUL)) k items
            ('*' :: (decimal items.length ++ CRLF)) q2 { c with vec := [] }
            (fun s hs => by have := hb2 s hs; omega) hq2p hq2ne
        have hmem : '*' :: (decimal items.length ++ CRLF) ++ q2 ++ List.replicate (k + 1) NUL =
            '*' :: q ++ List.replicate (k + 1) NUL := by
          simp [hq2]
        have htail : ((('*' :: (decimal items.length ++ CRLF)).length : Nat) : Int) +
            (q2.length : Int) = 0 + ((('*' :: q).length : Nat) : Int) := by
          simp [hq2]; omega
        have hptr : ((('*' :: (decimal items.length ++ CRLF)).length : Nat) : Int) =
            0 + 1 + ((decimal items.length).length : Int) + 2 := by
          simp [CRLF]; omega
        rw [hmem, htail, hptr] at hc1
        refine ⟨c1, ?_⟩
        simp only [Command.parse, hrd, strstr, hc, hfind, Option.map_some', hatoi,
          Int.toNat_ofNat, hc1]
        simp

/-- C6, at the reply `*2\r\n$3\r\nfoo\r\n$3\r\nbar\r\n` cut after its
first element. -/
theorem cut_reply_incomplete_witness :
    ∃ c1, Command.parse 1 ("*2\r\n$3\r\nfoo\r\n".toList ++ List.replicate (0 + 1) NUL) {} 0
      (("*2\r\n$3\r\nfoo\r\n".toList.length : Nat) : Int) = some (TIMEOUT, c1) :=
  cut_reply_incomplete (Reply.array ["foo".toList, "bar".toList])
    "*2\r\n$3\r\nfoo\r\n".toList 0 {} 0 trivial (by decide) (by decide) (by decide) (by decide)

/-! ## The read loop and its timeout -/

namespace Command

theorem doWorkLoop_full (fuel : Nat) (cmd : Command) (redis : RedisConnect) (T delay readed : Int)
    (h : ¬ readed < redis.memsz) :
    doWorkLoop (fuel + 1) cmd redis T delay readed = some (PARAMERR, cmd, redis) := by
  simp only [doWorkLoop, if_neg h]

theorem doWorkLoop_noscript (fuel : Nat) (cmd : Command) (redis : RedisConnect)
    (T delay readed : Int) (hr : redis.sock.recvs = []) (h : readed < redis.memsz) :
    doWorkLoop (fuel + 1) cmd redis T delay readed = none := by
  simp only [doWorkLoop, if_pos h, Socket.read, hr]

/-- One iteration of the read loop in which `recv` yields no bytes: the poll
quantum is added to the accumulator, and the loop returns TIMEOUT when the
accumulator exceeds the timeout. -/
theorem doWorkLoop_empty (fuel : Nat) (cmd : Command) (redis : RedisConnect)
    (T delay readed : Int) (rest : List RecvResult)
    (hr : redis.sock.recvs = RecvResult.err true :: rest) (h : readed < redis.memsz) :
    doWorkLoop (fuel + 1) cmd redis T delay readed =
      if wrap32 (delay + redis.SOCKET_TIMEOUT) > T then
        some (TIMEOUT, cmd, { redis with sock := { redis.sock with recvs := rest } })
      else
        doWorkLoop fuel cmd { redis with sock := { redis.sock with recvs := rest } } T
          (wrap32 (delay + redis.SOCKET_TIMEOUT)) readed := by
  simp only [doWorkLoop, if_pos h, Socket.read, hr, if_true, lt_self_iff_false, if_false]

theorem doWorkLoop_fail (fuel : Nat) (cmd : Command) (redis : RedisConnect)
    (T delay readed : Int) (rest : List RecvResult)
    (hr : redis.sock.recvs = RecvResult.err false :: rest) (h : readed < redis.memsz) :
    doWorkLoop (fuel + 1) cmd redis T delay readed =
      some (NETERR, cmd, { redis with sock := { redis.sock with recvs := rest } }) := by
  simp only [doWorkLoop, if_pos h, Socket.read, hr, Bool.false_eq_true, if_false]
  simp [NETERR]

/-- One iteration of the read loop in which the kernel holds the bytes `bs`:
the loop ends, or goes on with the accumulator at 0. -/
theorem doWorkLoop_bytes (fuel : Nat) (cmd : Command) (redis : RedisConnect)
    (T delay readed : Int) (bs : Bytes) (rest : List RecvResult)
    (hr : redis.sock.recvs = RecvResult.bytes bs :: rest) (h : readed < redis.memsz) :
    ∃ recvs1, (recvs1 = rest ∨ ∃ left, recvs1 = RecvResult.bytes left :: rest) ∧
      ((∃ code cmd1 redis1, code ≠ TIMEOUT ∧
          doWorkLoop (fuel + 1) cmd redis T delay readed = some (code, cmd1, redis1)) ∨
        doWorkLoop (fuel + 1) cmd redis T delay readed = none ∨
        ∃ cmd1 buffer1 readed1,
          doWorkLoop (fuel + 1) cmd redis T delay readed =
            doWorkLoop fuel cmd1
              { redis with sock := { redis.sock with recvs := recvs1 }, buffer := buffer1 }
              T 0 readed1) := by
  refine ⟨if List.drop (redis.memsz - readed).toNat bs = [] then rest
    else RecvResult.bytes (List.drop (redis.memsz - readed).toNat bs) :: rest, ?_, ?_⟩
  · by_cases hd : List.drop (redis.memsz - readed).toNat bs = []
    · left; rw [if_pos hd]
    · right; exact ⟨_, by rw [if_neg hd]⟩
  · simp only [doWorkLoop, if_pos h, Socket.read, hr]
    by_cases hg : ((List.take (redis.memsz - readed).toNat bs).length : Int) > 0
    · have h1 : ¬ (((List.take (redis.memsz - readed).toNat bs).length : Int) < 0) := by omega
      have h2 : ¬ (((List.take (redis.memsz - readed).toNat bs).length : Int) = 0) := by omega
      simp only [if_pos hg, if_neg h1, if_neg h2]
      cases hp : parse (fuel + 1)
          (poke redis.buffer readed.toNat (List.take (redis.memsz - readed).toNat bs ++ [NUL])) cmd 0
          (readed + ((List.take (redis.memsz - readed).toNat bs).length : Int)) with
      | none => right; left; rfl
      | some r =>
        obtain ⟨code, cmd1⟩ := r
        by_cases hc : code = TIMEOUT
        · right; right
          exact ⟨cmd1, _, _, by simp only [if_pos hc]; rfl⟩
        · left
          exact ⟨code, cmd1, _, hc, by simp only [if_neg hc]; rfl⟩
    · left
      simp only [if_neg hg]
      exact ⟨NETCLOSE, cmd, _, by decide, rfl⟩

end Command

/-- With a positive quantum `Q` and a timeout `T ≥ 0`, `j` quanta stay within
the timeout exactly when `j` is below `T / Q + 1`. -/
theorem quanta_within (Q T : Int) (j : Nat) (hQ : 0 < Q) (hT : 0 ≤ T) :
    j < (T / Q).toNat + 1 ↔ (j : Int) * Q ≤ T := by
  have hd : 0 ≤ T / Q := Int.ediv_nonneg hT (le_of_lt hQ)
  have hc : (((T / Q).toNat : Nat) : Int) = T / Q := Int.toNat_of_nonneg hd
  rw [← Int.le_ediv_iff_mul_le hQ]
  omega

namespace Command

/-- The read loop returns TIMEOUT only at the end of a run of `T / Q + 1`
consecutive empty reads: `j` empty reads have gone before this point of the
loop, and the reads from then on are the script of `redis`. -/
theorem timeout_needs_run (Q T : Int) (hQ : 0 < Q) (hT : 0 ≤ T) (hov : T + Q < 2 ^ 31) :
    ∀ (fuel : Nat) (cmd : Command) (redis : RedisConnect) (j : Nat) (readed : Int)
      (cmd1 : Command) (redis1 : RedisConnect),
      redis.SOCKET_TIMEOUT = Q → (j : Int) * Q ≤ T →
      doWorkLoop fuel cmd redis T ((j : Int) * Q) readed = some (TIMEOUT, cmd1, redis1) →
      ∃ pre, List.replicate j (RecvResult.err true) ++ redis.sock.recvs =
        pre ++ List.replicate ((T / Q).toNat + 1) (RecvResult.err true) ++ redis1.sock.recvs := by
  intro fuel
  induction fuel with
  | zero =>
    intro cmd redis j readed cmd1 redis1 _ _ h
    simp [doWorkLoop] at h
  | succ fuel ih =>
    intro cmd redis j readed cmd1 redis1 hQeq hj h
    by_cases hroom : readed < redis.memsz
    · cases hrecv : redis.sock.recvs with
      | nil =>
        rw [doWorkLoop_noscript fuel cmd redis T _ readed hrecv hroom] at h
        cases h
      | cons r rest =>
        cases r with
        | bytes bs =>
          obtain ⟨recvs1, hrc, hcases⟩ :=
            doWorkLoop_bytes fuel cmd redis T ((j : Int) * Q) readed bs rest hrecv hroom
          rcases hcases with ⟨code, cmd2, redis2, hne, heq⟩ | hnone | ⟨cmd2, buf2, readed2, heq⟩
          · rw [heq] at h
            simp only [Option.some.injEq, Prod.mk.injEq] at h
            exact absurd h.1 hne
          · rw [hnone] at h
            cases h
          · rw [heq] at h
            have h0 : (0 : Int) = ((0 : Nat) : Int) * Q := by simp
            rw [h0] at h
            obtain ⟨pre, hpre⟩ := ih cmd2
              { redis with sock := { redis.sock with recvs := recvs1 }, buffer := buf2 }
              0 readed2 cmd1 redis1 hQeq (by simpa using hT) h
            simp only [List.replicate_zero, List.nil_append] at hpre
            rcases hrc with hrc | ⟨left, hrc⟩
            · refine ⟨List.replicate j (RecvResult.err true) ++ RecvResult.bytes bs :: pre, ?_⟩
              rw [hrc] at hpre
              rw [hpre]
              simp
            · rw [hrc] at hpre
              cases pre with
              | nil =>
                simp only [List.nil_append, List.replicate_succ, List.cons_append,
                  List.cons.injEq] at hpre
                cases hpre.1
              | cons x pre =>
                simp only [List.cons_append, List.cons.injEq] at hpre
                refine ⟨List.replicate j (RecvResult.err true) ++ RecvResult.bytes bs :: pre, ?_⟩
                rw [hpre.2]
                simp
        | err b =>
          cases b with
          | false =>
            rw [doWorkLoop_fail fuel cmd redis T _ readed rest hrecv hroom] at h
            simp only [Option.some.injEq, Prod.mk.injEq] at h
            exact absurd h.1 (by decide)
          | true =>
            rw [doWorkLoop_empty fuel cmd redis T _ readed rest hrecv hroom] at h
            have hw : wrap32 ((j : Int) * Q + redis.SOCKET_TIMEOUT) = ((j + 1 : Nat) : Int) * Q := by
              rw [hQeq, wrap32_id]
              · push_cast; ring
              · have : 0 ≤ (j : Int) * Q := Int.mul_nonneg (Int.ofNat_nonneg j) (le_of_lt hQ)
                omega
              · omega
            rw [hw] at h
            by_cases hgt : ((j + 1 : Nat) : Int) * Q > T
            · rw [if_pos hgt] at h
              simp only [Option.some.injEq, Prod.mk.injEq] at h
              have hk : (T / Q).toNat + 1 = j + 1 := by
                have h1 := (quanta_within Q T j hQ hT).mpr hj
                have h2 : ¬ (j + 1 < (T / Q).toNat + 1) := fun hh =>
                  absurd ((quanta_within Q T (j + 1) hQ hT).mp hh) (not_le.mpr hgt)
                omega
              refine ⟨[], ?_⟩
              rw [hk, ← h.2.2]
              simp [List.replicate_succ']
            · rw [if_neg hgt] at h
              obtain ⟨pre, hpre⟩ := ih cmd
                { redis with sock := { redis.sock with recvs := rest } }
                (j + 1) readed cmd1 redis1 hQeq (not_lt.mp hgt) h
              refine ⟨pre, ?_⟩
              rw [← hpre]
              simp [List.replicate_succ']
    · rw [doWorkLoop_full fuel cmd redis T _ readed hroom] at h
      simp only [Option.some.injEq, Prod.mk.injEq] at h
      exact absurd h.1 (by decide)

/-- A run of empty reads that brings the count of consecutive empty reads from
`j` to `T / Q + 1` ends the loop with TIMEOUT at its last read. -/
theorem run_times_out (Q T : Int) (hQ : 0 < Q) (hT : 0 ≤ T) (hov : T + Q < 2 ^ 31) :
    ∀ (m j fuel : Nat) (cmd : Command) (redis : RedisConnect) (readed : Int)
      (rest : List RecvResult),
      redis.SOCKET_TIMEOUT = Q → readed < redis.memsz → j + (m + 1) = (T / Q).toNat + 1 →
      redis.sock.recvs = List.replicate (m + 1) (RecvResult.err true) ++ rest →
      doWorkLoop (fuel + (m + 1)) cmd redis T ((j : Int) * Q) readed =
        some (TIMEOUT, cmd, { redis with sock := { redis.sock with recvs := rest } }) := by
  intro m
  induction m with
  | zero =>
    intro j fuel cmd redis readed rest hQeq hroom hk hr
    have hj : (j : Int) * Q ≤ T := (quanta_within Q T j hQ hT).mp (by omega)
    have hw : wrap32 ((j : Int) * Q + redis.SOCKET_TIMEOUT) = ((j + 1 : Nat) : Int) * Q := by
      rw [hQeq, wrap32_id]
      · push_cast; ring
      · have : 0 ≤ (j : Int) * Q := Int.mul_nonneg (Int.ofNat_nonneg j) (le_of_lt hQ)
        omega
      · omega
    have hgt : ((j + 1 : Nat) : Int) * Q > T := by
      have h2 : ¬ (j + 1 < (T / Q).toNat + 1) := by omega
      exact not_le.mp (fun hh => h2 ((quanta_within Q T (j + 1) hQ hT).mpr hh))
    rw [doWorkLoop_empty fuel cmd redis T _ readed rest (by simpa using hr) hroom, hw, if_pos hgt]
  | succ m ih =>
    intro j fuel cmd redis readed rest hQeq hroom hk hr
    have hj : (j : Int) * Q ≤ T := (quanta_within Q T j hQ hT).mp (by omega)
    have hw : wrap32 ((j : Int) * Q + redis.SOCKET_TIMEOUT) = ((j + 1 : Nat) : Int) * Q := by
      rw [hQeq, wrap32_id]
      · push_cast; ring
      · have : 0 ≤ (j : Int) * Q := Int.mul_nonneg (Int.ofNat_nonneg j) (le_of_lt hQ)
        omega
      · omega
    have hle : ¬ (((j + 1 : Nat) : Int) * Q > T) :=
      not_lt.mpr ((quanta_within Q T (j + 1) hQ hT).mp (by omega))
    have hr2 : redis.sock.recvs = RecvResult.err true ::
        (List.replicate (m + 1) (RecvResult.err true) ++ rest) := by
      rw [hr]; rfl
    have hfuel : fuel + (m + 1 + 1) = (fuel + (m + 1)) + 1 := by omega
    rw [hfuel, doWorkLoop_empty (fuel + (m + 1)) cmd redis T _ readed _ hr2 hroom, hw, if_neg hle]
    exact ih (j + 1) fuel cmd
      { redis with
        sock := { redis.sock with
                  recvs := (List.replicate (m + 1) (RecvResult.err true) ++ rest) } }
      readed rest hQeq hroom (by omega) rfl

/-- C9. In the read loop of `getResult` (after the write), with command timeout
`T ≥ 0` and poll quantum `Q = SOCKET_TIMEOUT > 0` (and `T + Q` within `int`):
a read that yields no bytes adds `Q` to the accumulator and the loop returns
TIMEOUT when the accumulator then exceeds `T`; a read that yields bytes which
leave the accumulated reply incomplete continues the loop with the accumulator
at 0; starting from an accumulator of 0, a run of `T / Q + 1` consecutive empty
reads makes the loop return TIMEOUT at its last read; and whenever the loop
returns TIMEOUT, the last `T / Q + 1` reads it made were all empty. -/
theorem read_loop_timeout (cmd : Command) (redis : RedisConnect) (T readed : Int) (fuel : Nat)
    (hQ : 0 < redis.SOCKET_TIMEOUT) (hT : 0 ≤ T) (hov : T + redis.SOCKET_TIMEOUT < 2 ^ 31)
    (hroom : readed < redis.memsz) :
    (∀ (delay : Int) (rest : List RecvResult), 0 ≤ delay → delay ≤ T →
      redis.sock.recvs = RecvResult.err true :: rest →
      doWorkLoop (fuel + 1) cmd redis T delay readed =
        if delay + redis.SOCKET_TIMEOUT > T then
          some (TIMEOUT, cmd, { redis with sock := { redis.sock with recvs := rest } })
        else
          doWorkLoop fuel cmd { redis with sock := { redis.sock with recvs := rest } } T
            (delay + redis.SOCKET_TIMEOUT) readed) ∧
    (∀ (delay : Int) (bs : Bytes) (rest : List RecvResult) (cmd1 : Command),
      redis.sock.recvs = RecvResult.bytes bs :: rest → bs ≠ [] →
      readed + (bs.length : Int) ≤ redis.memsz →
      cmd.parse (fuel + 1) (poke redis.buffer readed.toNat (bs ++ [NUL])) 0
        (readed + (bs.length : Int)) = some (TIMEOUT, cmd1) →
      doWorkLoop (fuel + 1) cmd redis T delay readed =
        doWorkLoop fuel cmd1
          { redis with sock := { redis.sock with recvs := rest },
                       buffer := poke redis.buffer readed.toNat (bs ++ [NUL]) } T 0
          (readed + (bs.length : Int))) ∧
    (∀ (rest : List RecvResult),
      redis.sock.recvs =
        List.replicate ((T / redis.SOCKET_TIMEOUT).toNat + 1) (RecvResult.err true) ++ rest →
      doWorkLoop (fuel + ((T / redis.SOCKET_TIMEOUT).toNat + 1)) cmd redis T 0 readed =
        some (TIMEOUT, cmd, { redis with sock := { redis.sock with recvs := rest } })) ∧
    (∀ (cmd1 : Command) (redis1 : RedisConnect),
      doWorkLoop fuel cmd redis T 0 readed = some (TIMEOUT, cmd1, redis1) →
      ∃ pre, redis.sock.recvs =
        pre ++ List.replicate ((T / redis.SOCKET_TIMEOUT).toNat + 1) (RecvResult.err true) ++
          redis1.sock.recvs) := by
  refine ⟨?_, ?_, ?_, ?_⟩
  · intro delay rest hd0 hdT hr
    rw [doWorkLoop_empty fuel cmd redis T delay readed rest hr hroom,
      wrap32_id _ (by omega) (by omega)]
  · intro delay bs rest cmd1 hr hne hcap hp
    rw [doWorkLoop_read fuel cmd redis T delay readed bs rest hr hne hcap, hp]
    simp
  · intro rest hr
    have h0 : (0 : Int) = ((0 : Nat) : Int) * redis.SOCKET_TIMEOUT := by simp
    rw [h0]
    exact run_times_out redis.SOCKET_TIMEOUT T hQ hT hov (T / redis.SOCKET_TIMEOUT).toNat 0 fuel
      cmd redis readed rest rfl hroom (by omega) hr
  · intro cmd1 redis1 h
    have h0 : (0 : Int) = ((0 : Nat) : Int) * redis.SOCKET_TIMEOUT := by simp
    rw [h0] at h
    obtain ⟨pre, hpre⟩ := timeout_needs_run redis.SOCKET_TIMEOUT T hQ hT hov fuel cmd redis 0
      readed cmd1 redis1 rfl (by simpa using hT) h
    exact ⟨pre, by simpa using hpre⟩

/-- C9, at timeout 30 and quantum 10: four consecutive empty reads end the loop
with TIMEOUT. -/
theorem read_loop_timeout_witness :
    doWorkLoop (0 + (((30 : Int) / 10).toNat + 1)) {}
        { memsz := 32, timeout := 30, buffer := List.replicate 33 NUL,
          sock := { recvs := List.replicate 4 (RecvResult.err true) } } 30 0 0 =
      some (TIMEOUT, {},
        { memsz := 32, timeout := 30, buffer := List.replicate 33 NUL, sock := { recvs := [] } }) :=
  (read_loop_timeout {}
    { memsz := 32, timeout := 30, buffer := List.replicate 33 NUL,
      sock := { recvs := List.replicate 4 (RecvResult.err true) } } 30 0 0
    (by decide) (by decide) (by decide) (by decide)).2.2.1 [] rfl

end Command

/-- The scenario of C9 evaluated: after the first chunk `*2\r\n$3\r\nfoo\r\n`,
with timeout 30 and quantum 10, four empty reads make `keys` return TIMEOUT,
and three empty reads followed by the second chunk do not. -/
theorem keys_first_chunk_then_silence :
    (keys 6 { memsz := 32, timeout := 30, buffer := List.replicate 33 NUL,
              sock := { sends := [{ num := 21 }],
                        recvs := RecvResult.bytes "*2\r\n$3\r\nfoo\r\n".toList ::
                          List.replicate 4 (RecvResult.err true) } }
        [] "*".toList).map (fun r => r.1) = some TIMEOUT ∧
    (keys 6 { memsz := 32, timeout := 30, buffer := List.replicate 33 NUL,
              sock := { sends := [{ num := 21 }],
                        recvs := RecvResult.bytes "*2\r\n$3\r\nfoo\r\n".toList ::
                          (List.replicate 3 (RecvResult.err true) ++
                            [RecvResult.bytes "$3\r\nbar\r\n".toList]) } }
        [] "*".toList).map (fun r => r.1) = some 3 := by
  decide

end RedisConnect

/-! ## The pool bound -/

namespace ResPool

theorem scanLoop_length (timeout now : Int) (ext : List Nat) :
    ∀ (n i : Nat) (vec : List Data) (tmp : Option Nat) (idx : Int),
      (scanLoop timeout now ext n i vec tmp idx).entries.length = vec.length := by
  intro n
  induction n with
  | zero => intro i vec tmp idx; rfl
  | succ n ih =>
    intro i vec tmp idx
    unfold scanLoop
    cases hget : vec.get? i with
    | none => rfl
    | some item =>
      simp only []
      split
      · cases hd : item.data with
        | none => simp only []; exact ih _ _ _ _
        | some r =>
          simp only []
          split
          · rfl
          · rw [ih]; simp
      · exact ih _ _ _ _

/-- One acquisition attempt keeps `maxlen` and keeps the number of entries
within it. -/
theorem grasp_bound (p : ResPool) (w : World) (M : Int)
    (h : p.maxlen = M ∧ (p.vec.length : Int) ≤ M) :
    (grasp p w).2.1.maxlen = M ∧ ((grasp p w).2.1.vec.length : Int) ≤ M := by
  obtain ⟨hM, hlen⟩ := h
  have hl := scanLoop_length p.timeout (w.clock w.ticks)
    (w.held w.scans) p.vec.length 0 p.vec none (-1)
  unfold grasp
  simp only [World.time, World.holders, World.func]
  cases hs : scanLoop p.timeout (w.clock w.ticks) (w.held w.scans) p.vec.length 0 p.vec none (-1) with
  | hit vec i =>
    rw [hs] at hl
    simp only [Scan.entries] at hl
    simp only []
    cases hget : vec.get? i with
    | none => simp only []; exact ⟨hM, by rw [hl]; exact hlen⟩
    | some item =>
      simp only [List.length_set]
      exact ⟨hM, by rw [hl]; exact hlen⟩
  | miss vec idx =>
    rw [hs] at hl
    simp only [Scan.entries] at hl
    simp only []
    have keep : p.maxlen = M ∧ ((vec.length : Nat) : Int) ≤ M := ⟨hM, by rw [hl]; exact hlen⟩
    by_cases h1 : idx < 0
    · simp only [if_pos h1]
      by_cases h2 : (p.vec.length : Int) ≥ p.maxlen
      · simp only [if_pos h2]; exact keep
      · simp only [if_neg h2]
        by_cases h3 : w.made w.calls = none
        · simp only [if_pos h3]; exact keep
        · simp only [if_neg h3]
          by_cases h4 : (vec.length : Int) < toSizeT p.maxlen
          · simp only [if_pos h4, List.length_append, List.length_singleton]
            refine ⟨hM, ?_⟩
            push_cast
            rw [hl]
            omega
          · simp only [if_neg h4]; exact keep
    · simp only [if_neg h1]
      by_cases h3 : w.made w.calls = none
      · simp only [if_pos h3]; exact keep
      · simp only [if_neg h3]
        cases hget : vec.get? idx.toNat with
        | none => simp only []; exact keep
        | some item => simp only [List.length_set]; exact keep

/-- The retry loop keeps `maxlen` and keeps the number of entries within it. -/
theorem retry_bound (endtime M : Int) :
    ∀ (fuel : Nat) (p : ResPool) (w : World), p.maxlen = M ∧ (p.vec.length : Int) ≤ M →
      (retry endtime fuel p w).2.1.maxlen = M ∧
        ((retry endtime fuel p w).2.1.vec.length : Int) ≤ M := by
  intro fuel
  induction fuel with
  | zero => intro p w h; exact h
  | succ fuel ih =>
    intro p w h
    have hg := grasp_bound p w M h
    unfold retry
    rcases hgr : grasp p w with ⟨data, p1, w1⟩
    rw [hgr] at hg
    simp only [World.time]
    by_cases h1 : data.isSome = true
    · simp only [if_pos h1]; exact hg
    · simp only [if_neg h1]
      by_cases h2 : endtime < w1.clock w1.ticks
      · simp only [if_pos h2]; exact hg
      · simp only [if_neg h2]; exact ih _ _ hg

/-- A call of `get` keeps `maxlen` and keeps the number of entries within it. -/
theorem get_bound (fuel : Nat) (p : ResPool) (w : World) (M : Int)
    (h : p.maxlen = M ∧ (p.vec.length : Int) ≤ M) :
    (get fuel p w).2.1.maxlen = M ∧ ((get fuel p w).2.1.vec.length : Int) ≤ M := by
  unfold get
  by_cases h0 : p.timeout ≤ 0
  · simp only [if_pos h0, World.func]; exact h
  · simp only [if_neg h0]
    have hg := grasp_bound p w M h
    rcases hgr : grasp p w with ⟨data, p1, w1⟩
    rw [hgr] at hg
    simp only [World.time]
    by_cases h1 : data.isSome = true
    · simp only [if_pos h1]; exact hg
    · simp only [if_neg h1]; exact retry_bound _ M fuel _ _ hg

theorem disableLoop_length (data : Option Nat) (vec : List Data) :
    (disableLoop data vec).length = vec.length := by
  induction vec with
  | nil => rfl
  | cons item rest ih =>
    unfold disableLoop
    split
    · rfl
    · simp [ih]

/-- Every sequence of calls keeps `maxlen` and keeps the number of entries
within it. -/
theorem run_bound (fuel : Nat) (M : Int) :
    ∀ (calls : List Call) (p : ResPool) (w : World), p.maxlen = M ∧ (p.vec.length : Int) ≤ M →
      (run fuel calls p w).1.maxlen = M ∧ ((run fuel calls p w).1.vec.length : Int) ≤ M := by
  intro calls
  induction calls with
  | nil => intro p w h; exact h
  | cons c cs ih =>
    intro p w h
    cases c with
    | get =>
      unfold run
      exact ih _ _ (get_bound fuel p w M h)
    | disable d =>
      unfold run
      apply ih
      simp only [disable, disableLoop_length]
      exact h

/-- C10. For a pool constructed with maximum population `M ≥ 0` and any
freshness window, after every finite sequence of `get` and `disable` calls,
whatever the factory returns, the clock reads and the callers hold, the number
of entries stored in the pool is at most `M`.  Each `get` is followed for any
number `fuel` of rounds of its retry loop. -/
theorem pool_bound (M timeout : Int) (fuel : Nat) (calls : List Call) (w : World) (hM : 0 ≤ M) :
    ((run fuel calls (ResPool.new M timeout) w).1.vec.length : Int) ≤ M :=
  (run_bound fuel M calls (ResPool.new M timeout) w ⟨rfl, by simpa [ResPool.new] using hM⟩).2

/-- C10, at a pool of at most one entry asked three times for a resource while
the first is still held. -/
theorem pool_bound_witness :
    (((run 1 [Call.get, Call.get, Call.disable (some 0), Call.get] (ResPool.new 1 60)
        { clock := fun n => (n : Int), made := fun n => some n,
          held := fun _ => [0] }).1.vec.length : Nat) : Int) ≤ 1 :=
  pool_bound 1 60 1 [Call.get, Call.get, Call.disable (some 0), Call.get]
    { clock := fun n => (n : Int), made := fun n => some n, held := fun _ => [0] } (by decide)

/-- The run of the witness evaluated: the single slot is filled by the first
`get`, the second `get` finds it held and the pool full, and after `disable`
the third `get` refills the same slot. -/
theorem pool_run_example :
    (run 1 [Call.get, Call.get, Call.disable (some 0), Call.get] (ResPool.new 1 60)
        { clock := fun n => (n : Int), made := fun n => some n,
          held := fun _ => [0] }).1.vec = [{ num := 0, utime := 7, data := some 1 }] := by
  decide

end ResPool

/-! ## Configuration changes of the pool -/

namespace ResPool

/-- C13, as stated, fails: on a pool of one entry, `setLength(5)` and
`setTimeout(60)` keep the entry. -/
theorem setters_keep_entries :
    (setLength { maxlen := 8, timeout := 60, vec := [{ num := 0, utime := 0, data := some 0 }] }
      5).vec ≠ [] ∧
    (setTimeout { maxlen := 8, timeout := 60, vec := [{ num := 0, utime := 0, data := some 0 }] }
      60).vec ≠ [] := by
  decide

/-- C13 (amended). For every pool state and every argument: `setCreator(f)`
leaves the entry list empty; `setLength(n)` empties it when it holds more than
`n` entries (`n` converted to `size_t`) and otherwise leaves it as it was;
`setTimeout(t)` empties it when `t <= 0` and otherwise leaves it as it was. -/
theorem setters_entries (p : ResPool) (w : World) (n t : Int) (f : Nat → Option Nat) :
    (setCreator p w f).1.vec = [] ∧
    (setLength p n).vec = (if (p.vec.length : Int) > toSizeT n then [] else p.vec) ∧
    (setTimeout p t).vec = (if t ≤ 0 then [] else p.vec) := by
  refine ⟨rfl, ?_, ?_⟩
  · unfold setLength
    simp only []
    split <;> rfl
  · unfold setTimeout
    simp only []
    split <;> rfl

end ResPool

/-! ## Nested arrays -/

namespace RedisConnect

/-- C16. The code at the input of the claim: decoding
`*2\r\n*1\r\n$1\r\na\r\n$1\r\nb\r\n` returns 1 and the result sequence
holds `a` alone; the element `b` that follows the nested array is not parsed.
When the nested array comes last, both strings are decoded. -/
theorem parse_nested_array_stops :
    Command.parse 2 ("*2\r\n*1\r\n$1\r\na\r\n$1\r\nb\r\n".toList ++ [NUL]) {} 0 22 =
      some (1, { res := ["a".toList] }) ∧
    Command.parse 2 ("*2\r\n$1\r\nb\r\n*1\r\n$1\r\na\r\n".toList ++ [NUL]) {} 0 22 =
      some (2, { res := ["b".toList, "a".toList] }) := by
  decide

end RedisConnect

/-! ## What a round trip puts on the wire -/

namespace RedisConnect

/-- When `Socket::write` returns a non-negative value, every byte of the request
from `writed` on has gone onto the wire, in order. -/
theorem writeLoop_wire (str : Bytes) :
    ∀ (sends : List SendResult) (wire : Bytes) (times writed n : Int)
      (rest : List SendResult) (wire1 : Bytes), 0 ≤ writed →
      Socket.writeLoop str (str.length : Int) sends wire times writed = some (n, rest, wire1) →
      0 ≤ n → wire1 = wire ++ str.drop writed.toNat := by
  intro sends
  induction sends with
  | nil =>
    intro wire times writed n rest wire1 hw h hn
    unfold Socket.writeLoop at h
    split at h
    · cases h
    · rename_i hlt
      simp only [Option.some.injEq, Prod.mk.injEq] at h
      have : str.drop writed.toNat = [] := by
        apply List.drop_of_length_le; omega
      rw [this, ← h.2.2]; simp
  | cons r sends ih =>
    intro wire times writed n rest wire1 hw h hn
    unfold Socket.writeLoop at h
    split at h
    · split at h
      · rename_i hnum
        have hstep : (wire ++ List.take r.num.toNat (List.drop writed.toNat str)) ++
            str.drop (writed + r.num).toNat = wire ++ str.drop writed.toNat := by
          have h1 : (writed + r.num).toNat = writed.toNat + r.num.toNat := by omega
          rw [h1, ← List.drop_drop, List.append_assoc, List.take_append_drop]
        split at h
        · rw [← hstep]
          exact ih _ _ _ _ _ _ (by omega) h hn
        · split at h
          · simp only [Option.some.injEq, Prod.mk.injEq] at h
            rw [← h.1] at hn
            exact absurd hn (by decide)
          · rw [← hstep]
            exact ih _ _ _ _ _ _ (by omega) h hn
      · split at h
        · split at h
          · simp only [Option.some.injEq, Prod.mk.injEq] at h
            rw [← h.1] at hn
            exact absurd hn (by decide)
          · exact ih _ _ _ _ _ _ hw h hn
        · simp only [Option.some.injEq, Prod.mk.injEq] at h
          rw [← h.1] at hn
          exact absurd hn (by decide)
    · rename_i hlt
      simp only [Option.some.injEq, Prod.mk.injEq] at h
      have : str.drop writed.toNat = [] := by
        apply List.drop_of_length_le; omega
      rw [this, ← h.2.2]; simp

theorem write_wire (s s1 : Socket) (str : Bytes) (n : Int)
    (h : s.write str (str.length : Int) = some (n, s1)) (hn : 0 ≤ n) :
    s1.wire = s.wire ++ str := by
  unfold Socket.write at h
  cases hl : Socket.writeLoop str (str.length : Int) s.sends s.wire 0 0 with
  | none => simp [hl] at h
  | some r =>
    obtain ⟨m, rest, wire1⟩ := r
    simp only [hl, Option.map_some', Option.some.injEq, Prod.mk.injEq] at h
    have := writeLoop_wire str s.sends s.wire 0 0 m rest wire1 (le_refl _) hl (by rw [h.1]; exact hn)
    rw [← h.2]
    simpa using this

theorem read_wire (s s1 : Socket) (count len : Int) (got : Bytes)
    (h : s.read count = some (len, got, s1)) : s1.wire = s.wire := by
  unfold Socket.read at h
  split at h
  · cases h
  · simp only []  at h
    split at h <;>
      (simp only [Option.some.injEq, Prod.mk.injEq] at h; rw [← h.2.2])
  · simp only [] at h
    split at h <;>
      (simp only [Option.some.injEq, Prod.mk.injEq] at h; rw [← h.2.2])

namespace Command

/-- The read loop puts nothing on the wire. -/
theorem doWorkLoop_wire : ∀ (fuel : Nat) (cmd : Command) (redis : RedisConnect)
    (T delay readed code : Int) (cmd1 : Command) (redis1 : RedisConnect),
    doWorkLoop fuel cmd redis T delay readed = some (code, cmd1, redis1) →
    redis1.sock.wire = redis.sock.wire := by
  intro fuel
  induction fuel with
  | zero => intro cmd redis T delay readed code cmd1 redis1 h; simp [doWorkLoop] at h
  | succ fuel ih =>
    intro cmd redis T delay readed code cmd1 redis1 h
    unfold doWorkLoop at h
    split at h
    · cases hrd : redis.sock.read (redis.memsz - readed) with
      | none => simp [hrd] at h
      | some r =>
        obtain ⟨len, got, sock⟩ := r
        have hw := read_wire _ _ _ _ _ hrd
        simp only [hrd] at h
        split at h
        · simp only [Option.some.injEq, Prod.mk.injEq] at h
          rw [← h.2.2]; exact hw
        · split at h
          · split at h
            · simp only [Option.some.injEq, Prod.mk.injEq] at h
              rw [← h.2.2]; exact hw
            · rw [ih _ _ _ _ _ _ _ _ h]; exact hw
          · split at h
            · cases h
            · split at h
              · rw [ih _ _ _ _ _ _ _ _ h]; exact hw
              · simp only [Option.some.injEq, Prod.mk.injEq] at h
                rw [← h.2.2]; exact hw
    · simp only [Option.some.injEq, Prod.mk.injEq] at h
      rw [← h.2.2]

/-- After a round trip whose write succeeded, the wire holds what it held
before followed by the encoded command. -/
theorem getResult_wire (fuel : Nat) (cmd : Command) (redis : RedisConnect) (T n code : Int)
    (sock1 : Socket) (cmd1 : Command) (redis1 : RedisConnect)
    (hw : redis.sock.write cmd.toString (cmd.toString.length : Int) = some (n, sock1))
    (hn : 0 ≤ n) (h : getResult fuel cmd redis T = some (code, cmd1, redis1)) :
    redis1.sock.wire = redis.sock.wire ++ cmd.toString := by
  have hts : ({ cmd with status := 0, msg := [] } : Command).toString = cmd.toString := rfl
  have hn2 : ¬ (n < 0) := by omega
  unfold getResult at h
  simp only [doWork, hts, hw, if_neg hn2] at h
  cases hl : doWorkLoop fuel { cmd with status := 0, msg := [] } { redis with sock := sock1 } T 0 0 with
  | none => simp [hl] at h
  | some r =>
    obtain ⟨c, cmd2, redis2⟩ := r
    have hwire := doWorkLoop_wire _ _ _ _ _ _ _ _ _ hl
    simp only [hl, Option.some.injEq, Prod.mk.injEq] at h
    rw [← h.2.2]
    simp only []
    rw [hwire]
    exact write_wire _ _ _ _ hw hn

end Command

end RedisConnect

/-! ## The lock protocol: `unlock` -/

namespace RedisConnect

/-- The command that `eval(lua, key, arg)` builds: `eval`, the script, the key
count 1, the key and the argument. -/
theorem eval_one_key (fuel : Nat) (redis : RedisConnect) (lua key arg : Bytes) :
    eval fuel redis lua key [arg] =
      match Command.getResult fuel { vec := ["eval".toList, lua, "1".toList, key, arg] } redis
          redis.timeout with
      | none => none
      | some (_, _, redis1) => some (redis1.code, redis1) := by
  have h1 : wrap32 (([key] : List Bytes).length : Int) = 1 := by
    simp only [List.length_singleton]; decide
  have h2 : decimalInt 1 = "1".toList := by decide
  unfold eval evalKeys evalVec
  simp only [h1, h2, Command.add]
  simp only [gt_iff_lt, zero_lt_one, if_true, sub_self, Int.toNat_zero, List.take_zero,
    List.foldl_nil, List.getLast?_singleton, Option.toList_some, List.singleton_append,
    List.foldl_cons, Command.add, List.nil_append, List.cons_append, List.append_nil]
  cases Command.getResult fuel { vec := ["eval".toList, lua, "1".toList, key, arg] } redis
      redis.timeout with
  | none => rfl
  | some r => rfl

/-- `unlock` is one round trip of the five-argument `eval` command, and its
result is the test `code > 0 && status == OK` on the connection after it. -/
theorem unlock_round_trip (fuel : Nat) (redis : RedisConnect) (lockId key : Bytes) :
    unlock fuel redis lockId key =
      match Command.getResult fuel
          { vec := ["eval".toList, unlockScript, "1".toList, key, lockId] } redis redis.timeout with
      | none => none
      | some (_, _, redis1) => some (decide (redis1.code > 0 ∧ redis1.status = OK), redis1) := by
  unfold unlock
  rw [eval_one_key]
  cases Command.getResult fuel
      { vec := ["eval".toList, unlockScript, "1".toList, key, lockId] } redis redis.timeout with
  | none => rfl
  | some r => rfl

theorem getResult_code (fuel : Nat) (cmd : Command) (redis : RedisConnect) (T code : Int)
    (cmd1 : Command) (redis1 : RedisConnect)
    (h : Command.getResult fuel cmd redis T = some (code, cmd1, redis1)) : redis1.code = code := by
  unfold Command.getResult at h
  simp only [] at h
  split at h
  · cases h
  · simp only [Option.some.injEq, Prod.mk.injEq] at h
    rw [← h.2.2]
    exact h.1

/-- C14. `unlock(key)` makes one round trip of the command `eval`, the
compare-and-delete script, `1`, `key`, the lock identifier (after a successful
write the wire holds exactly that command, encoded, after what it held before);
it returns true if and only if the round trip code is positive and the decoded
status equals 1; for the reply `:1\r\n` it returns true, for `:0\r\n` false,
and for every negative round trip code false. -/
theorem unlock_compare_and_delete (fuel : Nat) (redis : RedisConnect) (lockId key : Bytes)
    (n : Int) (sock1 : Socket)
    (hw : redis.sock.write
        (Command.toString { vec := ["eval".toList, unlockScript, "1".toList, key, lockId] })
        ((Command.toString
          { vec := ["eval".toList, unlockScript, "1".toList, key, lockId] }).length : Int) =
      some (n, sock1))
    (hn : 0 ≤ n) (hcap : 4 ≤ redis.memsz) :
    (∀ (b : Bool) (redis1 : RedisConnect), unlock fuel redis lockId key = some (b, redis1) →
      (∃ cmd1, Command.getResult fuel
          { vec := ["eval".toList, unlockScript, "1".toList, key, lockId] } redis redis.timeout =
        some (redis1.code, cmd1, redis1)) ∧
      redis1.sock.wire = redis.sock.wire ++
        Command.toString { vec := ["eval".toList, unlockScript, "1".toList, key, lockId] } ∧
      (b = true ↔ redis1.code > 0 ∧ redis1.status = 1) ∧
      (redis1.code < 0 → b = false)) ∧
    (∀ rest : List RecvResult, redis.sock.recvs = RecvResult.bytes ":1\r\n".toList :: rest →
      ∃ redis1, unlock (fuel + 1) redis lockId key = some (true, redis1)) ∧
    (∀ rest : List RecvResult, redis.sock.recvs = RecvResult.bytes ":0\r\n".toList :: rest →
      ∃ redis1, unlock (fuel + 1) redis lockId key = some (false, redis1)) := by
  refine ⟨?_, ?_, ?_⟩
  · intro b redis1 h
    rw [unlock_round_trip] at h
    cases hg : Command.getResult fuel
        { vec := ["eval".toList, unlockScript, "1".toList, key, lockId] } redis redis.timeout with
    | none => rw [hg] at h; cases h
    | some r =>
      obtain ⟨code, cmd1, redis2⟩ := r
      rw [hg] at h
      simp only [Option.some.injEq, Prod.mk.injEq] at h
      obtain ⟨hb, hr⟩ := h
      subst hr
      have hcode := getResult_code _ _ _ _ _ _ _ hg
      refine ⟨⟨cmd1, by rw [hcode]⟩, Command.getResult_wire _ _ _ _ _ _ _ _ _ hw hn hg, ?_, ?_⟩
      · rw [← hb]
        simp [OK]
      · intro hneg
        rw [← hb]
        simp only [decide_eq_false_iff_not, not_and]
        intro hpos
        omega
  · intro rest hr
    have hp := Command.parse_integer 1 (redis.buffer.drop (":1\r\n".toList.length + 1))
      { vec := ["eval".toList, unlockScript, "1".toList, key, lockId] } fuel
      ((":1\r\n".toList.length : Nat) : Int) (by decide) (by decide)
    have hwire : (Reply.integer 1).wire = ":1\r\n".toList := by decide
    rw [hwire] at hp
    obtain ⟨cmd2, redis2, hg, h1, h2, _, _, _⟩ :=
      Command.getResult_single fuel { vec := ["eval".toList, unlockScript, "1".toList, key, lockId] }
        redis redis.timeout n sock1 ":1\r\n".toList rest OK _ hw hn hr (by decide)
        (by simpa using hcap) hp (by decide)
    refine ⟨redis2, ?_⟩
    rw [unlock_round_trip, hg]
    simp only [h1, h2]
    rfl
  · intro rest hr
    have hp := Command.parse_integer 0 (redis.buffer.drop (":0\r\n".toList.length + 1))
      { vec := ["eval".toList, unlockScript, "1".toList, key, lockId] } fuel
      ((":0\r\n".toList.length : Nat) : Int) (by decide) (by decide)
    have hwire : (Reply.integer 0).wire = ":0\r\n".toList := by decide
    rw [hwire] at hp
    obtain ⟨cmd2, redis2, hg, h1, h2, _, _, _⟩ :=
      Command.getResult_single fuel { vec := ["eval".toList, unlockScript, "1".toList, key, lockId] }
        redis redis.timeout n sock1 ":0\r\n".toList rest OK _ hw hn hr (by decide)
        (by simpa using hcap) hp (by decide)
    refine ⟨redis2, ?_⟩
    rw [unlock_round_trip, hg]
    simp only [h1, h2]
    rfl

set_option maxRecDepth 20000 in
/-- C14, at a connection whose transport takes the request in one `send` and
answers `:1\r\n`. -/
theorem unlock_compare_and_delete_witness :
    ∃ redis1,
      unlock (0 + 1)
        { memsz := 8, timeout := 30, buffer := List.replicate 9 NUL,
          sock := { sends := [{ num := 200 }], recvs := [RecvResult.bytes ":1\r\n".toList] } }
        "id".toList "k".toList = some (true, redis1) :=
  (unlock_compare_and_delete 0
    { memsz := 8, timeout := 30, buffer := List.replicate 9 NUL,
      sock := { sends := [{ num := 200 }], recvs := [RecvResult.bytes ":1\r\n".toList] } }
    "id".toList "k".toList 200
    { sends := [], recvs := [RecvResult.bytes ":1\r\n".toList],
      wire := Command.toString
        { vec := ["eval".toList, unlockScript, "1".toList, "k".toList, "id".toList] } }
    (by decide) (by decide) (by decide)).2.1 [] rfl

set_option maxRecDepth 20000 in
/-- The scenarios of C14 evaluated: the result of `unlock`, with the status and
code of the connection after it, for the replies `:1\r\n`, `:0\r\n`, an error
line, and a transport that closes the connection. -/
theorem unlock_examples :
    (unlock 1
        { memsz := 8, timeout := 30, buffer := List.replicate 9 NUL,
          sock := { sends := [{ num := 200 }], recvs := [RecvResult.bytes ":1\r\n".toList] } }
        "id".toList "k".toList).map (fun r => (r.1, r.2.status, r.2.code)) = some (true, 1, 1) ∧
    (unlock 1
        { memsz := 8, timeout := 30, buffer := List.replicate 9 NUL,
          sock := { sends := [{ num := 200 }], recvs := [RecvResult.bytes ":0\r\n".toList] } }
        "id".toList "k".toList).map (fun r => (r.1, r.2.status, r.2.code)) = some (false, 0, 1) ∧
    (unlock 1
        { memsz := 8, timeout := 30, buffer := List.replicate 9 NUL,
          sock := { sends := [{ num := 200 }], recvs := [RecvResult.bytes "-ERR\r\n".toList] } }
        "id".toList "k".toList).map (fun r => (r.1, r.2.status, r.2.code)) = some (false, 1, -1) ∧
    (unlock 1
        { memsz := 8, timeout := 30, buffer := List.replicate 9 NUL,
          sock := { sends := [{ num := 200 }], recvs := [RecvResult.bytes []] } }
        "id".toList "k".toList).map (fun r => (r.1, r.2.status, r.2.code)) =
      some (false, 0, -10) := by
  decide

/-! ## The lock protocol: `lock` -/

/-- One round of the loop of `lock` in which the round trip returns. -/
theorem lockLoop_step (fuel : Nat) (lockId key : Bytes) (timeout delay : Int) (rounds : Nat)
    (i : Int) (redis redis1 : RedisConnect) (events : List LockEvent) (c : Int)
    (hi : i < delay)
    (he : execute fuel redis
      ["set".toList, key, lockId, "nx".toList, "ex".toList, decimalInt timeout] = some (c, redis1)) :
    lockLoop fuel lockId key timeout delay (rounds + 1) i redis events =
      if c ≥ 0 then (some true, events ++ [LockEvent.attempt c], redis1)
      else
        lockLoop fuel lockId key timeout delay rounds (wrap32 (i + 10)) redis1
          (events ++ [LockEvent.attempt c, LockEvent.sleep 10]) := by
  simp only [lockLoop, if_pos hi, he]

/-- The loop of `lock` from the test number `k` on (`i = 10 * k`), against a
deadline `delay = 10 * D`: the events it adds are failed attempts, each with its
wait, ended by a successful attempt when the result is true; the loop makes no
attempt at or after the deadline. -/
theorem lockLoop_events (fuel : Nat) (lockId key : Bytes) (timeout D : Int)
    (hD : 10 * D < 2 ^ 31) :
    ∀ (rounds k : Nat) (redis : RedisConnect) (events : List LockEvent),
      ∃ codes : List Int, (∀ c ∈ codes, c < 0) ∧
        (codes ≠ [] → ((k + codes.length : Nat) : Int) ≤ D) ∧
        (((lockLoop fuel lockId key timeout (10 * D) rounds (10 * (k : Int)) redis events).1 =
              some true ∧
            ∃ c, 0 ≤ c ∧
              (lockLoop fuel lockId key timeout (10 * D) rounds (10 * (k : Int)) redis events).2.1 =
                events ++ failedAttempts codes ++ [LockEvent.attempt c] ∧
              ((k + codes.length : Nat) : Int) < D) ∨
          ((lockLoop fuel lockId key timeout (10 * D) rounds (10 * (k : Int)) redis events).1 =
              some false ∧
            (lockLoop fuel lockId key timeout (10 * D) rounds (10 * (k : Int)) redis events).2.1 =
              events ++ failedAttempts codes ∧
            D ≤ ((k + codes.length : Nat) : Int)) ∨
          ((lockLoop fuel lockId key timeout (10 * D) rounds (10 * (k : Int)) redis events).1 =
              none ∧
            (lockLoop fuel lockId key timeout (10 * D) rounds (10 * (k : Int)) redis events).2.1 =
              events ++ failedAttempts codes ∧
            (codes.length = rounds ∨
              (((k + codes.length : Nat) : Int) < D ∧
                execute fuel
                  (lockLoop fuel lockId key timeout (10 * D) rounds (10 * (k : Int)) redis
                    events).2.2
                  ["set".toList, key, lockId, "nx".toList, "ex".toList, decimalInt timeout] =
                  none)))) := by
  intro rounds
  induction rounds with
  | zero =>
    intro k redis events
    refine ⟨[], by simp, by simp, Or.inr (Or.inr ?_)⟩
    simp [lockLoop, failedAttempts]
  | succ rounds ih =>
    intro k redis events
    by_cases hi : 10 * (k : Int) < 10 * D
    · cases he : execute fuel redis
          ["set".toList, key, lockId, "nx".toList, "ex".toList, decimalInt timeout] with
      | none =>
        refine ⟨[], by simp, by simp, Or.inr (Or.inr ?_)⟩
        simp only [lockLoop, if_pos hi, he, failedAttempts, List.append_nil, List.length_nil,
          Nat.add_zero, true_and]
        right
        exact ⟨by omega, trivial⟩
      | some r =>
        obtain ⟨c, redis1⟩ := r
        rw [lockLoop_step fuel lockId key timeout (10 * D) rounds _ redis redis1 events c hi he]
        by_cases hc : c ≥ 0
        · refine ⟨[], by simp, by simp, Or.inl ?_⟩
          simp only [if_pos hc, failedAttempts, List.append_nil, List.length_nil, Nat.add_zero,
            true_and]
          exact ⟨c, hc, rfl, by omega⟩
        · have hw : wrap32 (10 * (k : Int) + 10) = 10 * ((k + 1 : Nat) : Int) := by
            rw [wrap32_id _ (by omega) (by omega)]
            push_cast; ring
          rw [if_neg hc, hw]
          obtain ⟨codes, hneg, hbound, hcases⟩ := ih (k + 1) redis1
            (events ++ [LockEvent.attempt c, LockEvent.sleep 10])
          have hev : ∀ tl : List LockEvent,
              events ++ [LockEvent.attempt c, LockEvent.sleep 10] ++ failedAttempts codes ++ tl =
                events ++ failedAttempts (c :: codes) ++ tl := by
            intro tl; simp [failedAttempts]
          have hev0 : events ++ [LockEvent.attempt c, LockEvent.sleep 10] ++ failedAttempts codes =
              events ++ failedAttempts (c :: codes) := by
            simp [failedAttempts]
          have hlen : k + (c :: codes).length = k + 1 + codes.length := by
            simp only [List.length_cons]; omega
          refine ⟨c :: codes, ?_, ?_, ?_⟩
          · intro x hx
            simp only [List.mem_cons] at hx
            rcases hx with hx | hx
            · rw [hx]; omega
            · exact hneg x hx
          · intro _
            rw [hlen]
            by_cases hnil : codes = []
            · subst hnil
              simp only [List.length_nil, Nat.add_zero]
              push_cast
              omega
            · exact hbound hnil
          · rw [hlen]
            rcases hcases with ⟨h1, c2, hc2, h2, h3⟩ | ⟨h1, h2, h3⟩ | ⟨h1, h2, h3⟩
            · exact Or.inl ⟨h1, c2, hc2, by rw [h2, hev], h3⟩
            · exact Or.inr (Or.inl ⟨h1, by rw [h2, hev0], h3⟩)
            · refine Or.inr (Or.inr ⟨h1, by rw [h2, hev0], ?_⟩)
              rcases h3 with h3 | h3
              · left; simp only [List.length_cons]; omega
              · right; exact h3
    · refine ⟨[], by simp, by simp, Or.inr (Or.inl ?_)⟩
      simp only [lockLoop, if_neg hi, failedAttempts, List.append_nil, List.length_nil,
        Nat.add_zero, true_and]
      omega

/-- A round trip answered with the null bulk reply returns NOTFOUND, and one
answered with an error line returns FAIL. -/
theorem execute_failure_replies (fuel : Nat) (redis : RedisConnect) (args : List Bytes)
    (n : Int) (sock1 : Socket) (rest : List RecvResult) (t : Bytes)
    (hw : redis.sock.write (Command.toString { vec := args })
      ((Command.toString { vec := args }).length : Int) = some (n, sock1))
    (hn : 0 ≤ n) :
    (redis.sock.recvs = RecvResult.bytes "$-1\r\n".toList :: rest → 5 ≤ redis.memsz →
      ∃ redis1, execute (fuel + 1) redis args = some (NOTFOUND, redis1)) ∧
    (redis.sock.recvs = RecvResult.bytes (Reply.error t).wire :: rest →
      ((Reply.error t).wire.length : Int) ≤ redis.memsz → NUL ∉ t → ¬ CRLF <:+: t →
      ∃ redis1, execute (fuel + 1) redis args = some (FAIL, redis1)) := by
  constructor
  · intro hr hcap
    have hp := parse_null_bulk (redis.buffer.drop ("$-1\r\n".toList.length + 1))
      { vec := args } fuel (("$-1\r\n".toList.length : Nat) : Int)
    obtain ⟨cmd2, redis2, hg, _⟩ :=
      Command.getResult_single fuel { vec := args } redis redis.timeout n sock1
        "$-1\r\n".toList rest NOTFOUND _ hw hn hr (by decide) (by simpa using hcap) hp (by decide)
    refine ⟨redis2, ?_⟩
    show Option.map (fun r => (r.1, r.2.2))
      (Command.getResult (fuel + 1) { vec := args } redis redis.timeout) = _
    rw [hg]
    rfl
  · intro hr hcap hnul hcr
    have hp := Command.parse_error t (redis.buffer.drop ((Reply.error t).wire.length + 1))
      { vec := args } fuel (((Reply.error t).wire.length : Nat) : Int) hnul hcr
    obtain ⟨cmd2, redis2, hg, _⟩ :=
      Command.getResult_single fuel { vec := args } redis redis.timeout n sock1
        (Reply.error t).wire rest FAIL _ hw hn hr (by simp [Reply.wire]) hcap hp (by decide)
    refine ⟨redis2, ?_⟩
    show Option.map (fun r => (r.1, r.2.2))
      (Command.getResult (fuel + 1) { vec := args } redis redis.timeout) = _
    rw [hg]
    rfl

/-! What one round of `lock` does on the transport. -/

/-- `recv` leaves the outcomes of the `send` calls to come as they are. -/
theorem read_sends (s s1 : Socket) (count len : Int) (got : Bytes)
    (h : s.read count = some (len, got, s1)) : s1.sends = s.sends := by
  unfold Socket.read at h
  split at h
  · cases h
  · simp only []  at h
    split at h <;>
      (simp only [Option.some.injEq, Prod.mk.injEq] at h; rw [← h.2.2])
  · simp only [] at h
    split at h <;>
      (simp only [Option.some.injEq, Prod.mk.injEq] at h; rw [← h.2.2])

/-- The read loop leaves the outcomes of the `send` calls to come as they are. -/
theorem Command.doWorkLoop_sends : ∀ (fuel : Nat) (cmd : Command) (redis : RedisConnect)
    (T delay readed code : Int) (cmd1 : Command) (redis1 : RedisConnect),
    Command.doWorkLoop fuel cmd redis T delay readed = some (code, cmd1, redis1) →
    redis1.sock.sends = redis.sock.sends := by
  intro fuel
  induction fuel with
  | zero => intro cmd redis T delay readed code cmd1 redis1 h; simp [Command.doWorkLoop] at h
  | succ fuel ih =>
    intro cmd redis T delay readed code cmd1 redis1 h
    unfold Command.doWorkLoop at h
    split at h
    · cases hrd : redis.sock.read (redis.memsz - readed) with
      | none => simp [hrd] at h
      | some r =>
        obtain ⟨len, got, sock⟩ := r
        have hw := read_sends _ _ _ _ _ hrd
        simp only [hrd] at h
        split at h
        · simp only [Option.some.injEq, Prod.mk.injEq] at h
          rw [← h.2.2]; exact hw
        · split at h
          · split at h
            · simp only [Option.some.injEq, Prod.mk.injEq] at h
              rw [← h.2.2]; exact hw
            · rw [ih _ _ _ _ _ _ _ _ h]; exact hw
          · split at h
            · cases h
            · split at h
              · rw [ih _ _ _ _ _ _ _ _ h]; exact hw
              · simp only [Option.some.injEq, Prod.mk.injEq] at h
                rw [← h.2.2]; exact hw
    · simp only [Option.some.injEq, Prod.mk.injEq] at h
      rw [← h.2.2]

/-- After a round trip whose write succeeded, the outcomes of the `send` calls
to come are those the write left. -/
theorem Command.getResult_sends (fuel : Nat) (cmd : Command) (redis : RedisConnect)
    (T n code : Int) (sock1 : Socket) (cmd1 : Command) (redis1 : RedisConnect)
    (hw : redis.sock.write cmd.toString (cmd.toString.length : Int) = some (n, sock1))
    (hn : 0 ≤ n) (h : Command.getResult fuel cmd redis T = some (code, cmd1, redis1)) :
    redis1.sock.sends = sock1.sends := by
  have hts : ({ cmd with status := 0, msg := [] } : Command).toString = cmd.toString := rfl
  have hn2 : ¬ (n < 0) := by omega
  unfold Command.getResult at h
  simp only [Command.doWork, hts, hw, if_neg hn2] at h
  cases hl : Command.doWorkLoop fuel { cmd with status := 0, msg := [] }
      { redis with sock := sock1 } T 0 0 with
  | none => simp [hl] at h
  | some r =>
    obtain ⟨c, cmd2, redis2⟩ := r
    have hsends := Command.doWorkLoop_sends _ _ _ _ _ _ _ _ _ hl
    simp only [hl, Option.some.injEq, Prod.mk.injEq] at h
    rw [← h.2.2]
    simp only []
    rw [hsends]

/-- The write loop with nothing left to write returns at once. -/
theorem writeLoop_done (str : Bytes) (count : Int) (sends : List SendResult) (wire : Bytes)
    (times writed : Int) (h : ¬ writed < count) :
    Socket.writeLoop str count sends wire times writed = some (writed, sends, wire) := by
  cases sends with
  | nil => simp only [Socket.writeLoop, if_neg h]
  | cons r rest => simp only [Socket.writeLoop, if_neg h]

/-- A `send` that accepts the whole request: the write returns after it. -/
theorem writeLoop_whole (str : Bytes) (r : SendResult) (rest : List SendResult) (wire : Bytes)
    (hr : (str.length : Int) ≤ r.num) (hpos : 0 < str.length) :
    Socket.writeLoop str (str.length : Int) (r :: rest) wire 0 0 =
      some (r.num, rest, wire ++ str) := by
  have h1 : (0 : Int) < (str.length : Int) := by omega
  have h2 : r.num > 0 := by omega
  have htake : List.take r.num.toNat (List.drop (0 : Int).toNat str) = str := by
    simp only [Int.toNat_zero, List.drop_zero]
    apply List.take_of_length_le
    omega
  have hdone : ¬ ((0 : Int) + r.num < (str.length : Int)) := by omega
  unfold Socket.writeLoop
  rw [if_pos h1, if_pos h2]
  simp only [htake]
  by_cases h8 : r.num > 8
  · rw [if_pos h8, writeLoop_done _ _ _ _ _ _ hdone]
    simp
  · have h100 : ¬ ((0 : Int) + 1 > 100) := by decide
    rw [if_neg h8, if_neg h100, writeLoop_done _ _ _ _ _ _ hdone]
    simp

/-- When every `send` to come accepts a whole request, a write that returns has
succeeded, and every `send` still to come accepts a whole request. -/
theorem write_whole (s s1 : Socket) (str : Bytes) (n : Int)
    (hs : ∀ r ∈ s.sends, (str.length : Int) ≤ r.num)
    (h : s.write str (str.length : Int) = some (n, s1)) :
    0 ≤ n ∧ ∀ r ∈ s1.sends, (str.length : Int) ≤ r.num := by
  unfold Socket.write at h
  by_cases hpos : 0 < str.length
  · cases hsends : s.sends with
    | nil =>
      have h1 : (0 : Int) < (str.length : Int) := by omega
      simp [hsends, Socket.writeLoop, h1] at h
    | cons r rest =>
      have hr : (str.length : Int) ≤ r.num := hs r (by rw [hsends]; exact List.mem_cons_self _ _)
      rw [hsends, writeLoop_whole str r rest s.wire hr hpos] at h
      simp only [Option.map_some', Option.some.injEq, Prod.mk.injEq] at h
      obtain ⟨h1, h2⟩ := h
      refine ⟨by omega, ?_⟩
      intro x hx
      rw [← h2] at hx
      exact hs x (by rw [hsends]; exact List.mem_cons_of_mem _ hx)
  · have hdone : ¬ ((0 : Int) < (str.length : Int)) := by omega
    rw [writeLoop_done _ _ _ _ _ _ hdone] at h
    simp only [Option.map_some', Option.some.injEq, Prod.mk.injEq] at h
    obtain ⟨h1, h2⟩ := h
    refine ⟨by omega, ?_⟩
    intro x hx
    rw [← h2] at hx
    exact hs x hx

/-- When every `send` to come accepts a whole request, a round trip that returns
has put the encoded command on the wire, after what the wire held, and every
`send` still to come accepts a whole request. -/
theorem execute_whole (fuel : Nat) (r r1 : RedisConnect) (args : List Bytes) (c : Int)
    (hs : ∀ x ∈ r.sock.sends, ((Command.toString { vec := args }).length : Int) ≤ x.num)
    (he : execute fuel r args = some (c, r1)) :
    r1.sock.wire = r.sock.wire ++ Command.toString { vec := args } ∧
      ∀ x ∈ r1.sock.sends, ((Command.toString { vec := args }).length : Int) ≤ x.num := by
  have he : Option.map (fun x : Int × Command × RedisConnect => (x.1, x.2.2))
      (Command.getResult fuel { vec := args } r r.timeout) = some (c, r1) := he
  cases hg : Command.getResult fuel { vec := args } r r.timeout with
  | none => rw [hg] at he; cases he
  | some res =>
    obtain ⟨code, cmd1, redis1⟩ := res
    rw [hg] at he
    simp only [Option.map_some', Option.some.injEq, Prod.mk.injEq] at he
    obtain ⟨_, he2⟩ := he
    subst he2
    cases hw : r.sock.write (Command.toString { vec := args })
        ((Command.toString { vec := args }).length : Int) with
    | none =>
      have hts : ({ ({ vec := args } : Command) with status := 0, msg := [] } : Command).toString =
          Command.toString { vec := args } := rfl
      simp [Command.getResult, Command.doWork, hts, hw] at hg
    | some res =>
      obtain ⟨n, sock1⟩ := res
      obtain ⟨hn, hs1⟩ := write_whole r.sock sock1 _ n hs hw
      refine ⟨Command.getResult_wire fuel _ r r.timeout n code sock1 cmd1 redis1 hw hn hg, ?_⟩
      rw [Command.getResult_sends fuel _ r r.timeout n code sock1 cmd1 redis1 hw hn hg]
      exact hs1

theorem attempts_append (xs ys : List LockEvent) :
    attempts (xs ++ ys) = attempts xs + attempts ys := by
  induction xs with
  | nil => simp [attempts]
  | cons e es ih =>
    cases e with
    | attempt c =>
      show attempts (es ++ ys) + 1 = attempts es + 1 + attempts ys
      omega
    | sleep ms =>
      show attempts (es ++ ys) = attempts es + attempts ys
      exact ih

theorem attempts_failedAttempts (codes : List Int) :
    attempts (failedAttempts codes) = codes.length := by
  induction codes with
  | nil => rfl
  | cons c cs ih => simp only [failedAttempts, attempts, ih, List.length_cons]

/-- The wire after the loop of `lock`, when every `send` to come accepts a whole
request: each attempt the loop adds to the events has put the encoded command
on the wire, and nothing else is put there. -/
theorem lockLoop_wire (fuel : Nat) (lockId key : Bytes) (timeout delay : Int) :
    ∀ (rounds : Nat) (i : Int) (r : RedisConnect) (events : List LockEvent),
      (∀ x ∈ r.sock.sends,
        ((Command.toString
          { vec := ["set".toList, key, lockId, "nx".toList, "ex".toList,
                    decimalInt timeout] }).length : Int) ≤ x.num) →
      ∃ added,
        (lockLoop fuel lockId key timeout delay rounds i r events).2.1 = events ++ added ∧
        (lockLoop fuel lockId key timeout delay rounds i r events).2.2.sock.wire =
          r.sock.wire ++ (List.replicate (attempts added)
            (Command.toString
              { vec := ["set".toList, key, lockId, "nx".toList, "ex".toList,
                        decimalInt timeout] })).flatten := by
  intro rounds
  induction rounds with
  | zero =>
    intro i r events _
    exact ⟨[], by simp [lockLoop], by simp [lockLoop, attempts]⟩
  | succ rounds ih =>
    intro i r events hs
    by_cases hi : i < delay
    · cases he : execute fuel r
          ["set".toList, key, lockId, "nx".toList, "ex".toList, decimalInt timeout] with
      | none =>
        refine ⟨[], ?_, ?_⟩
        · simp only [lockLoop, if_pos hi, he, List.append_nil]
        · simp only [lockLoop, if_pos hi, he, attempts, List.replicate_zero, List.flatten_nil,
            List.append_nil]
      | some res =>
        obtain ⟨c, r1⟩ := res
        obtain ⟨hwire, hs1⟩ := execute_whole fuel r r1 _ c hs he
        rw [lockLoop_step fuel lockId key timeout delay rounds i r r1 events c hi he]
        by_cases hc : c ≥ 0
        · rw [if_pos hc]
          refine ⟨[LockEvent.attempt c], rfl, ?_⟩
          simp only [attempts, List.replicate_succ, List.replicate_zero, List.flatten_cons,
            List.flatten_nil, List.append_nil, zero_add]
          exact hwire
        · rw [if_neg hc]
          obtain ⟨added, h1, h2⟩ := ih (wrap32 (i + 10)) r1
            (events ++ [LockEvent.attempt c, LockEvent.sleep 10]) hs1
          refine ⟨[LockEvent.attempt c, LockEvent.sleep 10] ++ added, ?_, ?_⟩
          · rw [h1, List.append_assoc]
          · rw [h2, hwire, attempts_append]
            have ha : attempts [LockEvent.attempt c, LockEvent.sleep 10] = 1 := rfl
            rw [ha, Nat.add_comm, List.replicate_succ, List.flatten_cons, List.append_assoc]
    · refine ⟨[], ?_, ?_⟩
      · simp only [lockLoop, if_neg hi, List.append_nil]
      · simp only [lockLoop, if_neg hi, attempts, List.replicate_zero, List.flatten_nil,
          List.append_nil]

/-- A round trip whose request is written and whose reply arrives whole in the
first `recv` and is settled by the decoder: the code is the decoder's, the
reply is consumed, and the socket is otherwise as the write left it. -/
theorem execute_reply (fuel : Nat) (r : RedisConnect) (args : List Bytes) (n : Int)
    (sock1 : Socket) (bs : Bytes) (rest : List RecvResult) (code : Int) (cmd1 : Command)
    (hw : r.sock.write (Command.toString { vec := args })
      ((Command.toString { vec := args }).length : Int) = some (n, sock1))
    (hn : 0 ≤ n) (hr : r.sock.recvs = RecvResult.bytes bs :: rest) (hne : bs ≠ [])
    (hcap : (bs.length : Int) ≤ r.memsz)
    (hp : Command.parse (fuel + 1) (bs ++ NUL :: r.buffer.drop (bs.length + 1))
      { vec := args } 0 (bs.length : Int) = some (code, cmd1))
    (hcode : code ≠ TIMEOUT) :
    ∃ r1, execute (fuel + 1) r args = some (code, r1) ∧ r1.sock = { sock1 with recvs := rest } := by
  have hr1 : sock1.recvs = RecvResult.bytes bs :: rest := by
    rw [Command.write_recvs _ _ _ _ _ hw, hr]
  have hts : ({ ({ vec := args } : Command) with status := 0, msg := [] } : Command).toString =
      Command.toString { vec := args } := rfl
  have hpoke : poke r.buffer 0 (bs ++ [NUL]) = bs ++ NUL :: r.buffer.drop (bs.length + 1) := by
    simp [poke]
  have hloop := Command.doWorkLoop_read fuel { ({ vec := args } : Command) with status := 0, msg := [] }
    { r with sock := sock1 } r.timeout 0 0 bs rest hr1 hne (by simpa using hcap)
  simp only [Int.toNat_zero, hpoke, zero_add] at hloop
  rw [show ({ ({ vec := args } : Command) with status := 0, msg := [] } : Command) =
    { vec := args } from rfl] at hloop
  simp only [hp, if_neg hcode] at hloop
  have hn2 : ¬ (n < 0) := by omega
  simp only [execute, Command.getResult, Command.doWork, hts, hw, if_neg hn2]
  rw [show ({ ({ vec := args } : Command) with status := 0, msg := [] } : Command) =
    { vec := args } from rfl, hloop]
  exact ⟨_, rfl, rfl⟩

/-- A round trip whose request is written and is answered by silence for the
whole command timeout returns TIMEOUT. -/
theorem execute_silence (fuel : Nat) (r : RedisConnect) (args : List Bytes) (n : Int)
    (sock1 : Socket) (rest : List RecvResult)
    (hw : r.sock.write (Command.toString { vec := args })
      ((Command.toString { vec := args }).length : Int) = some (n, sock1))
    (hn : 0 ≤ n) (hQ : 0 < r.SOCKET_TIMEOUT) (hT : 0 ≤ r.timeout)
    (hov : r.timeout + r.SOCKET_TIMEOUT < 2 ^ 31) (hroom : 0 < r.memsz)
    (hr : r.sock.recvs =
      List.replicate ((r.timeout / r.SOCKET_TIMEOUT).toNat + 1) (RecvResult.err true) ++ rest) :
    ∃ r1, execute (fuel + ((r.timeout / r.SOCKET_TIMEOUT).toNat + 1)) r args = some (TIMEOUT, r1) ∧
      r1.sock = { sock1 with recvs := rest } := by
  have hr1 : sock1.recvs =
      List.replicate ((r.timeout / r.SOCKET_TIMEOUT).toNat + 1) (RecvResult.err true) ++ rest := by
    rw [Command.write_recvs _ _ _ _ _ hw, hr]
  have hts : ({ ({ vec := args } : Command) with status := 0, msg := [] } : Command).toString =
      Command.toString { vec := args } := rfl
  have hloop := Command.run_times_out r.SOCKET_TIMEOUT r.timeout hQ hT hov
    (r.timeout / r.SOCKET_TIMEOUT).toNat 0 fuel { vec := args } { r with sock := sock1 } 0 rest
    rfl hroom (by omega) hr1
  simp only [Nat.cast_zero, zero_mul] at hloop
  have hn2 : ¬ (n < 0) := by omega
  simp only [execute, Command.getResult, Command.doWork, hts, hw, if_neg hn2]
  rw [show ({ ({ vec := args } : Command) with status := 0, msg := [] } : Command) =
    { vec := args } from rfl, hloop]
  exact ⟨_, rfl, rfl⟩

/-- A round trip whose request is written and whose `recv` fails returns
NETERR. -/
theorem execute_read_error (fuel : Nat) (r : RedisConnect) (args : List Bytes) (n : Int)
    (sock1 : Socket) (rest : List RecvResult)
    (hw : r.sock.write (Command.toString { vec := args })
      ((Command.toString { vec := args }).length : Int) = some (n, sock1))
    (hn : 0 ≤ n) (hroom : 0 < r.memsz) (hr : r.sock.recvs = RecvResult.err false :: rest) :
    ∃ r1, execute (fuel + 1) r args = some (NETERR, r1) ∧
      r1.sock = { sock1 with recvs := rest } := by
  have hr1 : sock1.recvs = RecvResult.err false :: rest := by
    rw [Command.write_recvs _ _ _ _ _ hw, hr]
  have hts : ({ ({ vec := args } : Command) with status := 0, msg := [] } : Command).toString =
      Command.toString { vec := args } := rfl
  have hloop := Command.doWorkLoop_fail fuel { vec := args } { r with sock := sock1 } r.timeout 0 0
    rest hr1 hroom
  have hn2 : ¬ (n < 0) := by omega
  simp only [execute, Command.getResult, Command.doWork, hts, hw, if_neg hn2]
  rw [show ({ ({ vec := args } : Command) with status := 0, msg := [] } : Command) =
    { vec := args } from rfl, hloop]
  exact ⟨_, rfl, rfl⟩

/-- A round trip whose write fails returns NETERR without a read. -/
theorem execute_write_error (fuel : Nat) (r : RedisConnect) (args : List Bytes) (n : Int)
    (sock1 : Socket)
    (hw : r.sock.write (Command.toString { vec := args })
      ((Command.toString { vec := args }).length : Int) = some (n, sock1))
    (hn : n < 0) :
    execute fuel r args =
      some (NETERR, { r with sock := sock1, code := NETERR, status := 0,
                             msg := Command.errorText NETERR }) := by
  have hts : ({ ({ vec := args } : Command) with status := 0, msg := [] } : Command).toString =
      Command.toString { vec := args } := rfl
  simp only [execute, Command.getResult, Command.doWork, hts, hw, if_pos hn]
  rfl

/-- C15. For a timeout whose product by 1000 fits an `int`, with `enc` the
encoded command `set`, `key`, the lock identifier, `nx`, `ex`, the decimal
timeout.  `lock(key, timeout)` is the loop from `i = 0` against the deadline
`timeout * 1000`; with `timeout <= 0` it returns false with no attempt and the
connection untouched, nothing being sent.  A round (at `i = 10 k` before the
deadline) is one round trip of that command, which ends the call with true when
the code is not negative and is followed by the wait of 10 ms and the round at
`i = 10 (k + 1)` when it is negative.  When the write of the round succeeds,
`enc` is on the wire after what the wire held, and the answer decides: `+OK`
ends the call with true, and the null bulk reply, an error line, a failed
`recv` and silence for the whole command timeout give the failed attempts
NOTFOUND, FAIL, NETERR and TIMEOUT, each followed by the wait and the next
round, the answer consumed.  When the write fails, the attempt fails with
NETERR.  The events of a call are failed attempts, each followed by the wait of
10 ms, ended by one successful attempt exactly when the result is true; the
attempts number at most `timeout * 100`, and exactly that many when the result
is false; the call returns whenever each of its round trips does; and when each
`send` accepts a whole request, the wire after the call holds what it held
before, followed by one copy of `enc` for each attempt and nothing else. -/
theorem lock_attempts (rounds fuel : Nat) (redis : RedisConnect) (lockId key : Bytes)
    (timeout : Int) (enc : Bytes)
    (hlo : -(2 ^ 31) ≤ timeout * 1000) (hhi : timeout * 1000 < 2 ^ 31)
    (henc : enc = Command.toString
      { vec := ["set".toList, key, lockId, "nx".toList, "ex".toList, decimalInt timeout] }) :
    lock rounds fuel redis lockId key timeout =
      lockLoop fuel lockId key timeout (timeout * 1000) rounds 0 redis [] ∧
    (timeout ≤ 0 → lock (rounds + 1) fuel redis lockId key timeout = (some false, [], redis)) ∧
    (∀ (k : Nat) (events : List LockEvent) (r r1 : RedisConnect) (c : Int),
      10 * (k : Int) < timeout * 1000 →
      execute fuel r
        ["set".toList, key, lockId, "nx".toList, "ex".toList, decimalInt timeout] =
          some (c, r1) →
      lockLoop fuel lockId key timeout (timeout * 1000) (rounds + 1) (10 * (k : Int)) r events =
        if c ≥ 0 then (some true, events ++ [LockEvent.attempt c], r1)
        else
          lockLoop fuel lockId key timeout (timeout * 1000) rounds (10 * ((k + 1 : Nat) : Int)) r1
            (events ++ [LockEvent.attempt c, LockEvent.sleep 10])) ∧
    (∀ (k : Nat) (events : List LockEvent) (r : RedisConnect) (n : Int) (sock1 : Socket)
        (rest : List RecvResult),
      10 * (k : Int) < timeout * 1000 →
      r.sock.write enc (enc.length : Int) = some (n, sock1) → 0 ≤ n →
      sock1.wire = r.sock.wire ++ enc ∧
      (r.sock.recvs = RecvResult.bytes "+OK\r\n".toList :: rest → 5 ≤ r.memsz →
        ∃ r1, r1.sock = { sock1 with recvs := rest } ∧
          lockLoop (fuel + 1) lockId key timeout (timeout * 1000) (rounds + 1) (10 * (k : Int))
              r events =
            (some true, events ++ [LockEvent.attempt OK], r1)) ∧
      (r.sock.recvs = RecvResult.bytes "$-1\r\n".toList :: rest → 5 ≤ r.memsz →
        ∃ r1, r1.sock = { sock1 with recvs := rest } ∧
          lockLoop (fuel + 1) lockId key timeout (timeout * 1000) (rounds + 1) (10 * (k : Int))
              r events =
            lockLoop (fuel + 1) lockId key timeout (timeout * 1000) rounds
              (10 * ((k + 1 : Nat) : Int)) r1
              (events ++ [LockEvent.attempt NOTFOUND, LockEvent.sleep 10])) ∧
      (∀ t : Bytes, r.sock.recvs = RecvResult.bytes (Reply.error t).wire :: rest →
        ((Reply.error t).wire.length : Int) ≤ r.memsz → NUL ∉ t → ¬ CRLF <:+: t →
        ∃ r1, r1.sock = { sock1 with recvs := rest } ∧
          lockLoop (fuel + 1) lockId key timeout (timeout * 1000) (rounds + 1) (10 * (k : Int))
              r events =
            lockLoop (fuel + 1) lockId key timeout (timeout * 1000) rounds
              (10 * ((k + 1 : Nat) : Int)) r1
              (events ++ [LockEvent.attempt FAIL, LockEvent.sleep 10])) ∧
      (r.sock.recvs = RecvResult.err false :: rest → 0 < r.memsz →
        ∃ r1, r1.sock = { sock1 with recvs := rest } ∧
          lockLoop (fuel + 1) lockId key timeout (timeout * 1000) (rounds + 1) (10 * (k : Int))
              r events =
            lockLoop (fuel + 1) lockId key timeout (timeout * 1000) rounds
              (10 * ((k + 1 : Nat) : Int)) r1
              (events ++ [LockEvent.attempt NETERR, LockEvent.sleep 10])) ∧
      (r.sock.recvs =
          List.replicate ((r.timeout / r.SOCKET_TIMEOUT).toNat + 1) (RecvResult.err true) ++
            rest →
        0 < r.SOCKET_TIMEOUT → 0 ≤ r.timeout → r.timeout + r.SOCKET_TIMEOUT < 2 ^ 31 →
        0 < r.memsz →
        ∃ r1, r1.sock = { sock1 with recvs := rest } ∧
          lockLoop (fuel + ((r.timeout / r.SOCKET_TIMEOUT).toNat + 1)) lockId key timeout
              (timeout * 1000) (rounds + 1) (10 * (k : Int)) r events =
            lockLoop (fuel + ((r.timeout / r.SOCKET_TIMEOUT).toNat + 1)) lockId key timeout
              (timeout * 1000) rounds (10 * ((k + 1 : Nat) : Int)) r1
              (events ++ [LockEvent.attempt TIMEOUT, LockEvent.sleep 10]))) ∧
    (∀ (k : Nat) (events : List LockEvent) (r : RedisConnect) (n : Int) (sock1 : Socket),
      10 * (k : Int) < timeout * 1000 →
      r.sock.write enc (enc.length : Int) = some (n, sock1) → n < 0 →
      lockLoop fuel lockId key timeout (timeout * 1000) (rounds + 1) (10 * (k : Int)) r events =
        lockLoop fuel lockId key timeout (timeout * 1000) rounds (10 * ((k + 1 : Nat) : Int))
          { r with sock := sock1, code := NETERR, status := 0, msg := Command.errorText NETERR }
          (events ++ [LockEvent.attempt NETERR, LockEvent.sleep 10])) ∧
    (∃ codes : List Int, (∀ c ∈ codes, c < 0) ∧
      (((lock rounds fuel redis lockId key timeout).1 = some true ∧
          ∃ c, 0 ≤ c ∧
            (lock rounds fuel redis lockId key timeout).2.1 =
              failedAttempts codes ++ [LockEvent.attempt c] ∧
            (codes.length : Int) + 1 ≤ timeout * 100) ∨
        ((lock rounds fuel redis lockId key timeout).1 = some false ∧
          (lock rounds fuel redis lockId key timeout).2.1 = failedAttempts codes ∧
          (codes.length : Int) = max 0 (timeout * 100)) ∨
        ((lock rounds fuel redis lockId key timeout).1 = none ∧
          (lock rounds fuel redis lockId key timeout).2.1 = failedAttempts codes ∧
          (codes.length : Int) ≤ max 0 (timeout * 100) ∧
          (codes.length = rounds ∨
            execute fuel (lock rounds fuel redis lockId key timeout).2.2
              ["set".toList, key, lockId, "nx".toList, "ex".toList, decimalInt timeout] =
              none)))) ∧
    (max 0 (timeout * 100) < (rounds : Int) →
      (lock rounds fuel redis lockId key timeout).1 = none →
      execute fuel (lock rounds fuel redis lockId key timeout).2.2
        ["set".toList, key, lockId, "nx".toList, "ex".toList, decimalInt timeout] = none) ∧
    ((attempts (lock rounds fuel redis lockId key timeout).2.1 : Int) ≤ max 0 (timeout * 100)) ∧
    ((∀ x ∈ redis.sock.sends, (enc.length : Int) ≤ x.num) →
      (lock rounds fuel redis lockId key timeout).2.2.sock.wire =
        redis.sock.wire ++
          (List.replicate (attempts (lock rounds fuel redis lockId key timeout).2.1)
            enc).flatten) := by
  rw [henc]
  have hdelay : wrap32 (timeout * 1000) = timeout * 1000 := wrap32_id _ hlo hhi
  have hD : timeout * 1000 = 10 * (timeout * 100) := by ring
  have hspec := lockLoop_events fuel lockId key timeout (timeout * 100) (by omega) rounds 0 redis []
  simp only [Nat.cast_zero, mul_zero, Nat.zero_add, List.nil_append, ← hD] at hspec
  have hlock : ∀ (r f : Nat), lock r f redis lockId key timeout =
      lockLoop f lockId key timeout (timeout * 1000) r 0 redis [] := by
    intro r f
    unfold lock
    simp only [hdelay]
  have hshape : ∃ codes : List Int, (∀ c ∈ codes, c < 0) ∧
      (((lock rounds fuel redis lockId key timeout).1 = some true ∧
          ∃ c, 0 ≤ c ∧
            (lock rounds fuel redis lockId key timeout).2.1 =
              failedAttempts codes ++ [LockEvent.attempt c] ∧
            (codes.length : Int) + 1 ≤ timeout * 100) ∨
        ((lock rounds fuel redis lockId key timeout).1 = some false ∧
          (lock rounds fuel redis lockId key timeout).2.1 = failedAttempts codes ∧
          (codes.length : Int) = max 0 (timeout * 100)) ∨
        ((lock rounds fuel redis lockId key timeout).1 = none ∧
          (lock rounds fuel redis lockId key timeout).2.1 = failedAttempts codes ∧
          (codes.length : Int) ≤ max 0 (timeout * 100) ∧
          (codes.length = rounds ∨
            execute fuel (lock rounds fuel redis lockId key timeout).2.2
              ["set".toList, key, lockId, "nx".toList, "ex".toList, decimalInt timeout] =
              none))) := by
    rw [hlock]
    obtain ⟨codes, hneg, hbound, hcases⟩ := hspec
    have hb : (codes.length : Int) ≤ max 0 (timeout * 100) := by
      by_cases hnil : codes = []
      · subst hnil; simp
      · have := hbound hnil
        omega
    refine ⟨codes, hneg, ?_⟩
    rcases hcases with ⟨h1, c, hc, h2, h3⟩ | ⟨h1, h2, h3⟩ | ⟨h1, h2, h3⟩
    · exact Or.inl ⟨h1, c, hc, h2, by omega⟩
    · refine Or.inr (Or.inl ⟨h1, h2, ?_⟩)
      by_cases hnil : codes = []
      · subst hnil
        simp only [List.length_nil, Nat.cast_zero] at h3 ⊢
        omega
      · have := hbound hnil
        omega
    · refine Or.inr (Or.inr ⟨h1, h2, hb, ?_⟩)
      rcases h3 with h3 | h3
      · exact Or.inl h3
      · exact Or.inr h3.2
  have hround : ∀ (f k : Nat) (events : List LockEvent) (r r1 : RedisConnect) (c : Int),
      10 * (k : Int) < timeout * 1000 →
      execute f r
        ["set".toList, key, lockId, "nx".toList, "ex".toList, decimalInt timeout] =
          some (c, r1) →
      lockLoop f lockId key timeout (timeout * 1000) (rounds + 1) (10 * (k : Int)) r events =
        if c ≥ 0 then (some true, events ++ [LockEvent.attempt c], r1)
        else
          lockLoop f lockId key timeout (timeout * 1000) rounds (10 * ((k + 1 : Nat) : Int)) r1
            (events ++ [LockEvent.attempt c, LockEvent.sleep 10]) := by
    intro f k events r r1 c hi he
    have hw : wrap32 (10 * (k : Int) + 10) = 10 * ((k + 1 : Nat) : Int) := by
      rw [wrap32_id _ (by omega) (by omega)]
      push_cast; ring
    rw [lockLoop_step f lockId key timeout _ rounds _ r r1 events c hi he, hw]
  have hfail : ∀ (f k : Nat) (events : List LockEvent) (r r1 : RedisConnect) (c : Int),
      10 * (k : Int) < timeout * 1000 → c < 0 →
      execute f r
        ["set".toList, key, lockId, "nx".toList, "ex".toList, decimalInt timeout] =
          some (c, r1) →
      lockLoop f lockId key timeout (timeout * 1000) (rounds + 1) (10 * (k : Int)) r events =
        lockLoop f lockId key timeout (timeout * 1000) rounds (10 * ((k + 1 : Nat) : Int)) r1
          (events ++ [LockEvent.attempt c, LockEvent.sleep 10]) := by
    intro f k events r r1 c hi hc he
    rw [hround f k events r r1 c hi he, if_neg (by omega)]
  refine ⟨hlock rounds fuel, ?_, ?_, ?_, ?_, hshape, ?_, ?_, ?_⟩
  · intro ht
    have hi : ¬ ((0 : Int) < timeout * 1000) := by omega
    rw [hlock]
    simp only [lockLoop, if_neg hi]
  · intro k events r r1 c hi he
    exact hround fuel k events r r1 c hi he
  · intro k events r n sock1 rest hi hw hn
    refine ⟨write_wire _ _ _ _ hw hn, ?_, ?_, ?_, ?_, ?_⟩
    · intro hr hcap
      have hp := Command.parse_status "OK".toList (r.buffer.drop ("+OK\r\n".toList.length + 1))
        { vec := ["set".toList, key, lockId, "nx".toList, "ex".toList, decimalInt timeout] } fuel
        (("+OK\r\n".toList.length : Nat) : Int) (by decide) (by decide)
      have hwire : (Reply.status "OK".toList).wire = "+OK\r\n".toList := by decide
      rw [hwire] at hp
      obtain ⟨r1, he, hsock⟩ := execute_reply fuel r _ n sock1 "+OK\r\n".toList rest OK _ hw hn hr
        (by decide) (by simpa using hcap) hp (by decide)
      refine ⟨r1, hsock, ?_⟩
      rw [hround (fuel + 1) k events r r1 OK hi he, if_pos (by decide)]
    · intro hr hcap
      have hp := parse_null_bulk (r.buffer.drop ("$-1\r\n".toList.length + 1))
        { vec := ["set".toList, key, lockId, "nx".toList, "ex".toList, decimalInt timeout] } fuel
        (("$-1\r\n".toList.length : Nat) : Int)
      obtain ⟨r1, he, hsock⟩ := execute_reply fuel r _ n sock1 "$-1\r\n".toList rest NOTFOUND _
        hw hn hr (by decide) (by simpa using hcap) hp (by decide)
      exact ⟨r1, hsock, hfail (fuel + 1) k events r r1 NOTFOUND hi (by decide) he⟩
    · intro t hr hcap hnul hcr
      have hp := Command.parse_error t (r.buffer.drop ((Reply.error t).wire.length + 1))
        { vec := ["set".toList, key, lockId, "nx".toList, "ex".toList, decimalInt timeout] } fuel
        (((Reply.error t).wire.length : Nat) : Int) hnul hcr
      obtain ⟨r1, he, hsock⟩ := execute_reply fuel r _ n sock1 (Reply.error t).wire rest FAIL _
        hw hn hr (by simp [Reply.wire]) hcap hp (by decide)
      exact ⟨r1, hsock, hfail (fuel + 1) k events r r1 FAIL hi (by decide) he⟩
    · intro hr hroom
      obtain ⟨r1, he, hsock⟩ := execute_read_error fuel r _ n sock1 rest hw hn hroom hr
      exact ⟨r1, hsock, hfail (fuel + 1) k events r r1 NETERR hi (by decide) he⟩
    · intro hr hQ hT hov hroom
      obtain ⟨r1, he, hsock⟩ := execute_silence fuel r _ n sock1 rest hw hn hQ hT hov hroom hr
      exact ⟨r1, hsock, hfail _ k events r r1 TIMEOUT hi (by decide) he⟩
  · intro k events r n sock1 hi hw hn
    exact hfail fuel k events r _ NETERR hi (by decide)
      (execute_write_error fuel r _ n sock1 hw hn)
  · intro hr hnone
    obtain ⟨codes, _, hcases⟩ := hshape
    rcases hcases with ⟨h1, _⟩ | ⟨h1, _⟩ | ⟨_, _, hb, h3⟩
    · rw [h1] at hnone; cases hnone
    · rw [h1] at hnone; cases hnone
    · rcases h3 with h3 | h3
      · omega
      · exact h3
  · obtain ⟨codes, _, hcases⟩ := hshape
    rcases hcases with ⟨_, c, _, h2, h3⟩ | ⟨_, h2, h3⟩ | ⟨_, h2, h3, _⟩
    · rw [h2, attempts_append, attempts_failedAttempts]
      have ha : attempts [LockEvent.attempt c] = 1 := rfl
      rw [ha]
      push_cast
      have := le_max_right 0 (timeout * 100)
      omega
    · rw [h2, attempts_failedAttempts]
      omega
    · rw [h2, attempts_failedAttempts]
      exact h3
  · intro hs
    obtain ⟨added, h1, h2⟩ := lockLoop_wire fuel lockId key timeout (timeout * 1000) rounds 0 redis
      [] hs
    rw [hlock]
    rw [List.nil_append] at h1
    rw [h2, h1]

set_option maxRecDepth 20000 in
/-- C15, at a timeout of 1 second and a connection whose transport takes each
request in one `send` and answers the first attempt with the null bulk reply
and the second with `+OK`: the first round fails with NOTFOUND, its answer
consumed and its request on the wire, and the loop goes on after the wait; the
wire after the call holds one copy of the request for each attempt. -/
theorem lock_attempts_witness :
    (∃ r1 : RedisConnect,
      r1.sock =
        { sends := [{ num := 100 }], recvs := [RecvResult.bytes "+OK\r\n".toList],
          wire := Command.toString
            { vec := ["set".toList, "k".toList, "id".toList, "nx".toList, "ex".toList,
                      decimalInt 1] } } ∧
      lockLoop (1 + 1) "id".toList "k".toList 1 (1 * 1000) (2 + 1) (10 * ((0 : Nat) : Int))
          { memsz := 8, timeout := 30, buffer := List.replicate 9 NUL,
            sock := { sends := [{ num := 100 }, { num := 100 }],
                      recvs := [RecvResult.bytes "$-1\r\n".toList,
                                RecvResult.bytes "+OK\r\n".toList] } } [] =
        lockLoop (1 + 1) "id".toList "k".toList 1 (1 * 1000) 2 (10 * ((0 + 1 : Nat) : Int)) r1
          ([] ++ [LockEvent.attempt NOTFOUND, LockEvent.sleep 10])) ∧
    (lock 2 1
        { memsz := 8, timeout := 30, buffer := List.replicate 9 NUL,
          sock := { sends := [{ num := 100 }, { num := 100 }],
                    recvs := [RecvResult.bytes "$-1\r\n".toList,
                              RecvResult.bytes "+OK\r\n".toList] } }
        "id".toList "k".toList 1).2.2.sock.wire =
      ([] : Bytes) ++
        (List.replicate
          (attempts
            (lock 2 1
              { memsz := 8, timeout := 30, buffer := List.replicate 9 NUL,
                sock := { sends := [{ num := 100 }, { num := 100 }],
                          recvs := [RecvResult.bytes "$-1\r\n".toList,
                                    RecvResult.bytes "+OK\r\n".toList] } }
              "id".toList "k".toList 1).2.1)
          (Command.toString
            { vec := ["set".toList, "k".toList, "id".toList, "nx".toList, "ex".toList,
                      decimalInt 1] })).flatten :=
  have h := lock_attempts 2 1
    { memsz := 8, timeout := 30, buffer := List.replicate 9 NUL,
      sock := { sends := [{ num := 100 }, { num := 100 }],
                recvs := [RecvResult.bytes "$-1\r\n".toList,
                          RecvResult.bytes "+OK\r\n".toList] } }
    "id".toList "k".toList 1
    (Command.toString
      { vec := ["set".toList, "k".toList, "id".toList, "nx".toList, "ex".toList,
                decimalInt 1] })
    (by decide) (by decide) rfl
  ⟨(h.2.2.2.1 0 []
      { memsz := 8, timeout := 30, buffer := List.replicate 9 NUL,
        sock := { sends := [{ num := 100 }, { num := 100 }],
                  recvs := [RecvResult.bytes "$-1\r\n".toList,
                            RecvResult.bytes "+OK\r\n".toList] } }
      100
      { sends := [{ num := 100 }],
        recvs := [RecvResult.bytes "$-1\r\n".toList, RecvResult.bytes "+OK\r\n".toList],
        wire := Command.toString
          { vec := ["set".toList, "k".toList, "id".toList, "nx".toList, "ex".toList,
                    decimalInt 1] } }
      [RecvResult.bytes "+OK\r\n".toList] (by decide) (by decide) (by decide)).2.2.1 rfl
      (by decide),
    h.2.2.2.2.2.2.2.2 (by decide)⟩

set_option maxRecDepth 20000 in
/-- The call of the witness evaluated: it returns true at the second attempt,
and the wire holds the request twice. -/
theorem lock_wire_example :
    (lock 2 1
        { memsz := 8, timeout := 30, buffer := List.replicate 9 NUL,
          sock := { sends := [{ num := 100 }, { num := 100 }],
                    recvs := [RecvResult.bytes "$-1\r\n".toList,
                              RecvResult.bytes "+OK\r\n".toList] } }
        "id".toList "k".toList 1).1 = some true ∧
    (lock 2 1
        { memsz := 8, timeout := 30, buffer := List.replicate 9 NUL,
          sock := { sends := [{ num := 100 }, { num := 100 }],
                    recvs := [RecvResult.bytes "$-1\r\n".toList,
                              RecvResult.bytes "+OK\r\n".toList] } }
        "id".toList "k".toList 1).2.1 =
      [LockEvent.attempt NOTFOUND, LockEvent.sleep 10, LockEvent.attempt OK] ∧
    (lock 2 1
        { memsz := 8, timeout := 30, buffer := List.replicate 9 NUL,
          sock := { sends := [{ num := 100 }, { num := 100 }],
                    recvs := [RecvResult.bytes "$-1\r\n".toList,
                              RecvResult.bytes "+OK\r\n".toList] } }
        "id".toList "k".toList 1).2.2.sock.wire =
      ("*6\r\n$3\r\nset\r\n$1\r\nk\r\n$2\r\nid\r\n$2\r\nnx\r\n$2\r\nex\r\n$1\r\n1\r\n" ++
        "*6\r\n$3\r\nset\r\n$1\r\nk\r\n$2\r\nid\r\n$2\r\nnx\r\n$2\r\nex\r\n$1\r\n1\r\n").toList := by
  decide


set_option maxRecDepth 20000 in
/-- The scenarios of C15 evaluated, at a timeout of 1 second and a command
timeout of 30 ms: attempts answered by the null bulk reply, by an error line, by
silence, and by a network error fail, each is followed by the wait of 10 ms,
and the attempt answered `+OK\r\n` ends the call with true; the request of each
attempt is on the wire.  With a timeout of 0 nothing is sent. -/
theorem lock_examples :
    (lock 6 6
        { memsz := 16, timeout := 30, buffer := List.replicate 17 NUL,
          sock := { sends := List.replicate 5 { num := 100 },
                    recvs := [RecvResult.bytes "$-1\r\n".toList,
                              RecvResult.bytes "-ERR x\r\n".toList,
                              RecvResult.err true, RecvResult.err true, RecvResult.err true,
                              RecvResult.err true, RecvResult.err false,
                              RecvResult.bytes "+OK\r\n".toList] } }
        "id".toList "k".toList 1).1 = some true ∧
    (lock 6 6
        { memsz := 16, timeout := 30, buffer := List.replicate 17 NUL,
          sock := { sends := List.replicate 5 { num := 100 },
                    recvs := [RecvResult.bytes "$-1\r\n".toList,
                              RecvResult.bytes "-ERR x\r\n".toList,
                              RecvResult.err true, RecvResult.err true, RecvResult.err true,
                              RecvResult.err true, RecvResult.err false,
                              RecvResult.bytes "+OK\r\n".toList] } }
        "id".toList "k".toList 1).2.1 =
      [LockEvent.attempt NOTFOUND, LockEvent.sleep 10, LockEvent.attempt FAIL, LockEvent.sleep 10,
       LockEvent.attempt TIMEOUT, LockEvent.sleep 10, LockEvent.attempt NETERR,
       LockEvent.sleep 10, LockEvent.attempt OK] ∧
    (lock 6 6
        { memsz := 16, timeout := 30, buffer := List.replicate 17 NUL,
          sock := { sends := [{ num := 100 }],
                    recvs := [RecvResult.bytes "+OK\r\n".toList] } }
        "id".toList "k".toList 1).2.2.sock.wire =
      "*6\r\n$3\r\nset\r\n$1\r\nk\r\n$2\r\nid\r\n$2\r\nnx\r\n$2\r\nex\r\n$1\r\n1\r\n".toList ∧
    lock 6 6
        { memsz := 16, timeout := 30, buffer := List.replicate 17 NUL,
          sock := { sends := [{ num := 100 }],
                    recvs := [RecvResult.bytes "+OK\r\n".toList] } }
        "id".toList "k".toList 0 =
      (some false, [],
        { memsz := 16, timeout := 30, buffer := List.replicate 17 NUL,
          sock := { sends := [{ num := 100 }],
                    recvs := [RecvResult.bytes "+OK\r\n".toList] } }) := by
  decide

end RedisConnect


/-! ## The scan of an acquisition attempt -/

namespace ResPool

/-- Replacing an entry by one that a predicate cannot tell from it keeps the
count of the predicate. -/
theorem countP_set_same {α : Type} (P : α → Bool) (b : α) :
    ∀ (l : List α) (i : Nat) (a : α), l.get? i = some a → P a = P b →
      (l.set i b).countP P = l.countP P := by
  intro l
  induction l with
  | nil => intro i a h; simp at h
  | cons x xs ih =>
    intro i a h hP
    cases i with
    | zero =>
      simp only [List.get?_cons_zero, Option.some.injEq] at h
      subst h
      simp only [List.set_cons_zero, List.countP_cons, hP]
    | succ i =>
      simp only [List.get?_cons_succ] at h
      simp only [List.set_cons_succ, List.countP_cons, ih i a h hP]

/-- Two places that satisfy a predicate make its count at least two. -/
theorem two_le_countP {α : Type} (P : α → Bool) :
    ∀ (l : List α) (i j : Nat) (a b : α), i < j → l.get? i = some a → l.get? j = some b →
      P a = true → P b = true → 2 ≤ l.countP P := by
  intro l
  induction l with
  | nil => intro i j a b _ h; simp at h
  | cons x xs ih =>
    intro i j a b hij ha hb hPa hPb
    cases j with
    | zero => omega
    | succ j =>
      simp only [List.get?_cons_succ] at hb
      cases i with
      | zero =>
        simp only [List.get?_cons_zero, Option.some.injEq] at ha
        subst ha
        have hpos : 0 < xs.countP P := List.countP_pos_iff.mpr ⟨b, List.get?_mem hb, hPb⟩
        simp only [List.countP_cons, hPa, if_true]
        omega
      | succ i =>
        simp only [List.get?_cons_succ] at ha
        have := ih i j a b (by omega) ha hb hPa hPb
        simp only [List.countP_cons]
        omega

/-- Writing at one index leaves the other indices as they were. -/
theorem get?_set_other {α : Type} (l : List α) (i j : Nat) (a : α) (h : i ≠ j) :
    (l.set i a).get? j = l.get? j := by
  simp only [List.get?_eq_getElem?]
  exact List.getElem?_set_ne h

/-- Writing at an index within the list is read back there. -/
theorem get?_set_here {α : Type} (l : List α) (i : Nat) (a b : α) (h : l.get? i = some b) :
    (l.set i a).get? i = some a := by
  have hlt : i < l.length := by
    by_contra hc
    rw [List.get?_eq_none.mpr (by omega)] at h
    cases h
  simp only [List.get?_eq_getElem?]
  exact List.getElem?_set_self hlt

/-- One place that satisfies a predicate makes its count at least one. -/
theorem one_le_countP {α : Type} (P : α → Bool) (l : List α) (i : Nat) (a : α)
    (ha : l.get? i = some a) (hPa : P a = true) : 1 ≤ l.countP P :=
  List.countP_pos_iff.mpr ⟨a, List.get?_mem ha, hPa⟩

/-! The iterations of the scan, one equation for each path through the loop
body. -/

theorem scanLoop_end (timeout now : Int) (ext : List Nat) (n i : Nat) (vec : List Data)
    (tmp : Option Nat) (idx : Int) (h : vec.get? i = none) :
    scanLoop timeout now ext (n + 1) i vec tmp idx = Scan.miss vec idx := by
  unfold scanLoop
  simp only [h]

theorem scanLoop_take (timeout now : Int) (ext : List Nat) (n i : Nat) (vec : List Data)
    (tmp : Option Nat) (idx : Int) (item : Data) (r : Nat) (h : vec.get? i = some item)
    (hd : item.data = some r) (hu : useCount vec tmp ext r = 1)
    (hf : item.num < 100 ∧ item.utime + timeout > now) :
    scanLoop timeout now ext (n + 1) i vec tmp idx = Scan.hit vec i := by
  have hc : item.data = none ∨
      item.data.any (fun r => decide (useCount vec tmp ext r = 1)) = true := by
    right; simp [hd, hu]
  unfold scanLoop
  simp only [h]
  rw [if_pos hc]
  simp only [hd]
  rw [if_pos hf]

theorem scanLoop_kill (timeout now : Int) (ext : List Nat) (n i : Nat) (vec : List Data)
    (tmp : Option Nat) (idx : Int) (item : Data) (r : Nat) (h : vec.get? i = some item)
    (hd : item.data = some r) (hu : useCount vec tmp ext r = 1)
    (hf : ¬ (item.num < 100 ∧ item.utime + timeout > now)) :
    scanLoop timeout now ext (n + 1) i vec tmp idx =
      scanLoop timeout now ext n (i + 1) (vec.set i { item with data := none }) (some r)
        (i : Int) := by
  have hc : item.data = none ∨
      item.data.any (fun r => decide (useCount vec tmp ext r = 1)) = true := by
    right; simp [hd, hu]
  conv => lhs; unfold scanLoop
  simp only [h]
  rw [if_pos hc]
  simp only [hd]
  rw [if_neg hf]

theorem scanLoop_empty (timeout now : Int) (ext : List Nat) (n i : Nat) (vec : List Data)
    (tmp : Option Nat) (idx : Int) (item : Data) (h : vec.get? i = some item)
    (hd : item.data = none) :
    scanLoop timeout now ext (n + 1) i vec tmp idx =
      scanLoop timeout now ext n (i + 1) vec none (i : Int) := by
  have hc : item.data = none ∨
      item.data.any (fun r => decide (useCount vec tmp ext r = 1)) = true := Or.inl hd
  conv => lhs; unfold scanLoop
  simp only [h]
  rw [if_pos hc]
  simp only [hd]

theorem scanLoop_skip (timeout now : Int) (ext : List Nat) (n i : Nat) (vec : List Data)
    (tmp : Option Nat) (idx : Int) (item : Data) (r : Nat) (h : vec.get? i = some item)
    (hd : item.data = some r) (hu : useCount vec tmp ext r ≠ 1) :
    scanLoop timeout now ext (n + 1) i vec tmp idx =
      scanLoop timeout now ext n (i + 1) vec tmp idx := by
  have hc : ¬ (item.data = none ∨
      item.data.any (fun r => decide (useCount vec tmp ext r = 1)) = true) := by
    simp [hd, hu]
  conv => lhs; unfold scanLoop
  simp only [h]
  rw [if_neg hc]

/-! Which entries are reusable. -/

theorem reusable_empty (vec : List Data) (ext : List Nat) (timeout now : Int) (item : Data)
    (hd : item.data = none) : reusable vec ext timeout now item = false := by
  simp [reusable, hd]

theorem reusable_stale (vec : List Data) (ext : List Nat) (timeout now : Int) (item : Data)
    (hf : ¬ (item.num < 100 ∧ item.utime + timeout > now)) :
    reusable vec ext timeout now item = false := by
  unfold reusable
  by_cases h1 : item.num < 100
  · have h2 : ¬ item.utime + timeout > now := fun h => hf ⟨h1, h⟩
    simp [h2]
  · simp [h1]

theorem reusable_shared (vec : List Data) (ext : List Nat) (timeout now : Int) (item : Data)
    (r : Nat) (hd : item.data = some r) (hu : useCount vec none ext r ≠ 1) :
    reusable vec ext timeout now item = false := by
  simp [reusable, hd, hu]

theorem reusable_sole (vec : List Data) (ext : List Nat) (timeout now : Int) (item : Data)
    (r : Nat) (hd : item.data = some r) (hu : useCount vec none ext r = 1)
    (hf : item.num < 100 ∧ item.utime + timeout > now) :
    reusable vec ext timeout now item = true := by
  simp [reusable, hd, hu, hf.1, hf.2]

/-- What `reusable` says of an entry, spelled out. -/
theorem reusable_iff (vec : List Data) (ext : List Nat) (timeout now : Int) (item : Data) :
    reusable vec ext timeout now item = true ↔
      (∃ r, item.data = some r ∧ useCount vec none ext r = 1) ∧ item.num < 100 ∧
        item.utime + timeout > now := by
  unfold reusable
  cases hd : item.data with
  | none => simp
  | some r => simp [and_assoc]

/-- While the scan has only emptied entries that it alone could see, the use
count of a resource still ahead is what it was when the scan began. -/
theorem useCount_scan (vec0 cur : List Data) (tmp : Option Nat) (ext : List Nat) (r : Nat)
    (hc : cur.countP (fun d => decide (d.data = some r)) =
      vec0.countP (fun d => decide (d.data = some r)))
    (ht : tmp ≠ some r) : useCount cur tmp ext r = useCount vec0 none ext r := by
  unfold useCount
  rw [hc, if_neg ht]
  simp

/-- The scan keeps its invariant when it empties entry `i`, whose handle it
alone owned. -/
theorem scan_kill_inv (vec0 cur : List Data) (i : Nat) (tmp : Option Nat) (ext : List Nat)
    (item : Data) (q : Nat)
    (h1 : cur.length = vec0.length)
    (h2 : ∀ j, i ≤ j → cur.get? j = vec0.get? j)
    (h3 : ∀ j d r, i ≤ j → vec0.get? j = some d → d.data = some r →
      cur.countP (fun d => decide (d.data = some r)) =
        vec0.countP (fun d => decide (d.data = some r)) ∧ tmp ≠ some r)
    (hget : cur.get? i = some item) (hq : item.data = some q)
    (hu : useCount cur tmp ext q = 1) :
    (cur.set i { item with data := none }).length = vec0.length ∧
    (∀ j, i + 1 ≤ j → (cur.set i { item with data := none }).get? j = vec0.get? j) ∧
    (∀ j d r, i + 1 ≤ j → vec0.get? j = some d → d.data = some r →
      (cur.set i { item with data := none }).countP (fun d => decide (d.data = some r)) =
        vec0.countP (fun d => decide (d.data = some r)) ∧ some q ≠ some r) := by
  have h0 : vec0.get? i = some item := by rw [← h2 i (le_refl i)]; exact hget
  refine ⟨by rw [List.length_set]; exact h1, ?_, ?_⟩
  · intro j hj
    rw [get?_set_other cur i j _ (by omega)]
    exact h2 j (by omega)
  · intro j d r hj hd hr
    have hold := h3 j d r (by omega) hd hr
    have hqr : q ≠ r := by
      intro e
      subst e
      have htwo : 2 ≤ vec0.countP (fun d => decide (d.data = some q)) :=
        two_le_countP _ vec0 i j item d (by omega) h0 hd (by simp [hq]) (by simp [hr])
      have hone : cur.countP (fun d => decide (d.data = some q)) ≤ 1 := by
        unfold useCount at hu
        omega
      rw [hold.1] at hone
      omega
    refine ⟨?_, fun e => hqr (Option.some.inj e)⟩
    rw [countP_set_same _ _ cur i item hget]
    · exact hold.1
    · have : ¬ (some q = some r) := fun e => hqr (Option.some.inj e)
      simp [hq, this]

/-- What the scan from index `i` says carries over to the scan from index `i`
with one more iteration ahead, through an entry `i` that is not reusable. -/
theorem scan_step (vec0 : List Data) (ext : List Nat) (timeout now : Int) (s : Scan)
    (i n : Nat) (item : Data) (hitem : vec0.get? i = some item)
    (hnr : reusable vec0 ext timeout now item = false)
    (h : (∀ cur' k, s = Scan.hit cur' k →
        i + 1 ≤ k ∧ (∃ item, vec0.get? k = some item ∧ cur'.get? k = some item ∧
          reusable vec0 ext timeout now item = true) ∧
        ∀ j d, i + 1 ≤ j → j < k → vec0.get? j = some d →
          reusable vec0 ext timeout now d = false) ∧
      (∀ cur' idx', s = Scan.miss cur' idx' → vec0.length ≤ i + 1 + n →
        ∀ j d, i + 1 ≤ j → vec0.get? j = some d →
          reusable vec0 ext timeout now d = false)) :
    (∀ cur' k, s = Scan.hit cur' k →
        i ≤ k ∧ (∃ item, vec0.get? k = some item ∧ cur'.get? k = some item ∧
          reusable vec0 ext timeout now item = true) ∧
        ∀ j d, i ≤ j → j < k → vec0.get? j = some d →
          reusable vec0 ext timeout now d = false) ∧
    (∀ cur' idx', s = Scan.miss cur' idx' → vec0.length ≤ i + (n + 1) →
        ∀ j d, i ≤ j → vec0.get? j = some d →
          reusable vec0 ext timeout now d = false) := by
  obtain ⟨hh, hm⟩ := h
  refine ⟨?_, ?_⟩
  · intro cur' k hs
    obtain ⟨a, b, c⟩ := hh cur' k hs
    refine ⟨by omega, b, ?_⟩
    intro j d hj hjk hd
    by_cases e : j = i
    · subst e
      rw [hitem] at hd
      cases hd
      exact hnr
    · exact c j d (by omega) hjk hd
  · intro cur' idx' hs hn j d hj hd
    by_cases e : j = i
    · subst e
      rw [hitem] at hd
      cases hd
      exact hnr
    · exact hm cur' idx' hs (by omega) j d (by omega) hd

/-- The scan of `grasp`, related to the entries `vec0` it began with: when it
stops at an entry, that entry is reusable and none before it is; when it runs
to the end, no entry is reusable. -/
theorem scanLoop_spec (timeout now : Int) (ext : List Nat) (vec0 : List Data) :
    ∀ (n i : Nat) (cur : List Data) (tmp : Option Nat) (idx : Int),
      cur.length = vec0.length →
      (∀ j, i ≤ j → cur.get? j = vec0.get? j) →
      (∀ j d r, i ≤ j → vec0.get? j = some d → d.data = some r →
        cur.countP (fun d => decide (d.data = some r)) =
          vec0.countP (fun d => decide (d.data = some r)) ∧ tmp ≠ some r) →
      (∀ cur' k, scanLoop timeout now ext n i cur tmp idx = Scan.hit cur' k →
        i ≤ k ∧ (∃ item, vec0.get? k = some item ∧ cur'.get? k = some item ∧
          reusable vec0 ext timeout now item = true) ∧
        ∀ j d, i ≤ j → j < k → vec0.get? j = some d →
          reusable vec0 ext timeout now d = false) ∧
      (∀ cur' idx', scanLoop timeout now ext n i cur tmp idx = Scan.miss cur' idx' →
        vec0.length ≤ i + n →
        ∀ j d, i ≤ j → vec0.get? j = some d →
          reusable vec0 ext timeout now d = false) := by
  intro n
  induction n with
  | zero =>
    intro i cur tmp idx h1 h2 h3
    refine ⟨?_, ?_⟩
    · intro cur' k h
      simp [scanLoop] at h
    · intro cur' idx' _ hn j d hj hd
      have hnone : vec0.get? j = none := List.get?_eq_none.mpr (by omega)
      rw [hnone] at hd
      cases hd
  | succ n ih =>
    intro i cur tmp idx h1 h2 h3
    cases hget : cur.get? i with
    | none =>
      rw [scanLoop_end timeout now ext n i cur tmp idx hget]
      refine ⟨?_, ?_⟩
      · intro cur' k h
        cases h
      · intro cur' idx' _ _ j d hj hd
        have hlen : cur.length ≤ i := List.get?_eq_none.mp hget
        have hnone : vec0.get? j = none := List.get?_eq_none.mpr (by omega)
        rw [hnone] at hd
        cases hd
    | some item =>
      have h0 : vec0.get? i = some item := by rw [← h2 i (le_refl i)]; exact hget
      cases hd : item.data with
      | none =>
        rw [scanLoop_empty timeout now ext n i cur tmp idx item hget hd]
        apply scan_step vec0 ext timeout now _ i n item h0
          (reusable_empty vec0 ext timeout now item hd)
        apply ih (i + 1) cur none (i : Int) h1 (fun j hj => h2 j (by omega))
        intro j d r hj hdj hr
        exact ⟨(h3 j d r (by omega) hdj hr).1, by simp⟩
      | some q =>
        have hcount := h3 i item q (le_refl i) h0 hd
        have huse : useCount cur tmp ext q = useCount vec0 none ext q :=
          useCount_scan vec0 cur tmp ext q hcount.1 hcount.2
        by_cases hu : useCount cur tmp ext q = 1
        · by_cases hf : item.num < 100 ∧ item.utime + timeout > now
          · rw [scanLoop_take timeout now ext n i cur tmp idx item q hget hd hu hf]
            refine ⟨?_, ?_⟩
            · intro cur' k h
              cases h
              refine ⟨le_refl i, ⟨item, h0, hget, ?_⟩, ?_⟩
              · exact reusable_sole vec0 ext timeout now item q hd (by rw [← huse]; exact hu) hf
              · intro j d hj hjk
                omega
            · intro cur' idx' h
              cases h
          · rw [scanLoop_kill timeout now ext n i cur tmp idx item q hget hd hu hf]
            apply scan_step vec0 ext timeout now _ i n item h0
              (reusable_stale vec0 ext timeout now item hf)
            obtain ⟨k1, k2, k3⟩ := scan_kill_inv vec0 cur i tmp ext item q h1 h2 h3 hget hd hu
            exact ih (i + 1) _ (some q) (i : Int) k1 k2 k3
        · rw [scanLoop_skip timeout now ext n i cur tmp idx item q hget hd hu]
          apply scan_step vec0 ext timeout now _ i n item h0
            (reusable_shared vec0 ext timeout now item q hd (by rw [← huse]; exact hu))
          apply ih (i + 1) cur tmp idx h1 (fun j hj => h2 j (by omega))
          intro j d r hj hdj hr
          exact h3 j d r (by omega) hdj hr

/-! One acquisition attempt, by the way its scan ends. -/

theorem grasp_hit (p : ResPool) (w : World) (cur : List Data) (k : Nat) (item : Data)
    (hs : scanLoop p.timeout (w.clock w.ticks) (w.held w.scans) p.vec.length 0 p.vec none (-1) =
      Scan.hit cur k)
    (hk : cur.get? k = some item) :
    grasp p w = (item.data, { p with vec := cur.set k (item.get (w.clock (w.ticks + 1))) },
      { w with ticks := w.ticks + 1 + 1, scans := w.scans + 1 }) := by
  unfold grasp
  simp only [World.time, World.holders, hs, hk]

/-- An attempt whose scan runs to the end returns nothing from the entries: it
returns empty or it has called the factory. -/
theorem grasp_miss (p : ResPool) (w : World) (cur : List Data) (idx : Int)
    (hs : scanLoop p.timeout (w.clock w.ticks) (w.held w.scans) p.vec.length 0 p.vec none (-1) =
      Scan.miss cur idx) :
    (grasp p w).1 = none ∨
      ((grasp p w).1 = w.made w.calls ∧ (grasp p w).2.2.calls = w.calls + 1) := by
  unfold grasp
  simp only [World.time, World.holders, World.func, hs]
  by_cases h1 : idx < 0
  · simp only [if_pos h1]
    by_cases h2 : (p.vec.length : Int) ≥ p.maxlen
    · simp only [if_pos h2]; exact Or.inl trivial
    · simp only [if_neg h2]
      by_cases h3 : w.made w.calls = none
      · simp only [if_pos h3]; exact Or.inr ⟨trivial, trivial⟩
      · simp only [if_neg h3]
        by_cases h4 : (cur.length : Int) < toSizeT p.maxlen
        · simp only [if_pos h4]; exact Or.inr ⟨trivial, trivial⟩
        · simp only [if_neg h4]; exact Or.inr ⟨trivial, trivial⟩
  · simp only [if_neg h1]
    by_cases h3 : w.made w.calls = none
    · simp only [if_pos h3]; exact Or.inr ⟨trivial, trivial⟩
    · simp only [if_neg h3]
      cases hget : cur.get? idx.toNat with
      | none => simp only []; exact Or.inr ⟨trivial, trivial⟩
      | some item => simp only []; exact Or.inr ⟨trivial, trivial⟩

/-- With a positive window, `get` is its first attempt when that attempt
returns a resource. -/
theorem get_first_attempt (fuel : Nat) (p : ResPool) (w : World) (hW : 0 < p.timeout)
    (hsome : (grasp p w).1.isSome = true) :
    get fuel p w = (some (grasp p w).1, (grasp p w).2.1, (grasp p w).2.2) := by
  unfold get
  rw [if_neg (by omega)]
  rcases hgr : grasp p w with ⟨data, p1, w1⟩
  rw [hgr] at hsome
  simp only [] at hsome
  simp only [if_pos hsome]

end ResPool

/-! ## Reuse eligibility -/

namespace ResPool

/-- C12, as stated, fails in its last-touched time: on a pool of one fresh
entry, an attempt that reads the clock at 100 and reuses the entry leaves it
stamped with the next reading of the clock, 105. -/
theorem reuse_stamps_second_reading :
    (grasp { maxlen := 8, timeout := 60, vec := [{ num := 0, utime := 100, data := some 0 }] }
      { clock := fun n => if n = 0 then 100 else 105, made := fun _ => none,
        held := fun _ => [] }).1 = some 0 ∧
    (grasp { maxlen := 8, timeout := 60, vec := [{ num := 0, utime := 100, data := some 0 }] }
      { clock := fun n => if n = 0 then 100 else 105, made := fun _ => none,
        held := fun _ => [] }).2.1.vec = [{ num := 1, utime := 105, data := some 0 }] ∧
    (World.time
      { clock := fun n => if n = 0 then 100 else 105, made := fun _ => none,
        held := fun _ => [] }).1 = 100 := by
  decide

/-- C12 (amended). With a positive freshness window, take one acquisition
attempt that reads the clock as `now` while callers hold the handles `ext`.
If entry `i` is reusable (its handle is owned by this entry alone, its reuse
counter is below 100 and its last-touched time `t` has `t + W > now`) and no
entry before it is, the attempt returns the resource of entry `i` without
calling the factory, adds exactly 1 to the reuse counter of that entry and
sets its last-touched time to the next reading of the clock, and `get` returns
that resource.  If the attempt returns a resource without calling the factory,
it is the resource of the first reusable entry, which no caller holds. -/
theorem grasp_reuse (p : ResPool) (w : World) (fuel : Nat) (hW : 0 < p.timeout) :
    (∀ i item, p.vec.get? i = some item →
        reusable p.vec (w.held w.scans) p.timeout (w.clock w.ticks) item = true →
        (∀ j d, j < i → p.vec.get? j = some d →
          reusable p.vec (w.held w.scans) p.timeout (w.clock w.ticks) d = false) →
        (grasp p w).1 = item.data ∧ (grasp p w).2.2.calls = w.calls ∧
        (grasp p w).2.1.vec.get? i =
          some { item with num := item.num + 1, utime := w.clock (w.ticks + 1) } ∧
        get fuel p w = (some item.data, (grasp p w).2.1, (grasp p w).2.2)) ∧
    (∀ r, (grasp p w).1 = some r → (grasp p w).2.2.calls = w.calls →
        ∃ i item, p.vec.get? i = some item ∧ item.data = some r ∧
          useCount p.vec none (w.held w.scans) r = 1 ∧ item.num < 100 ∧
          item.utime + p.timeout > w.clock w.ticks ∧
          (∀ j d, j < i → p.vec.get? j = some d →
            reusable p.vec (w.held w.scans) p.timeout (w.clock w.ticks) d = false) ∧
          r ∉ w.held w.scans) := by
  have hspec := scanLoop_spec p.timeout (w.clock w.ticks) (w.held w.scans) p.vec
    p.vec.length 0 p.vec none (-1) rfl (fun _ _ => rfl)
    (fun j d r _ _ _ => ⟨rfl, by simp⟩)
  obtain ⟨hhit, hmiss⟩ := hspec
  refine ⟨?_, ?_⟩
  · intro i item hi hre hfirst
    cases hs : scanLoop p.timeout (w.clock w.ticks) (w.held w.scans) p.vec.length 0 p.vec
        none (-1) with
    | miss cur idx =>
      have hfalse := hmiss cur idx hs (by omega) i item (Nat.zero_le i) hi
      rw [hre] at hfalse
      cases hfalse
    | hit cur k =>
      obtain ⟨_, ⟨item', hk0, hk, hre'⟩, hbefore⟩ := hhit cur k hs
      have hki : k = i := by
        rcases Nat.lt_trichotomy k i with hlt | heq | hgt
        · have hfalse := hfirst k item' hlt hk0
          rw [hre'] at hfalse
          cases hfalse
        · exact heq
        · have hfalse := hbefore i item (Nat.zero_le i) hgt hi
          rw [hre] at hfalse
          cases hfalse
      subst hki
      rw [hi] at hk0
      cases hk0
      have hg := grasp_hit p w cur k item hs hk
      have hdata : (grasp p w).1 = item.data := by rw [hg]
      obtain ⟨⟨r, hr, _⟩, _, _⟩ := (reusable_iff _ _ _ _ item).mp hre
      refine ⟨hdata, by rw [hg], ?_, ?_⟩
      · rw [hg]
        exact get?_set_here cur k _ item hk
      · rw [get_first_attempt fuel p w hW (by rw [hdata, hr]; rfl), hdata]
  · intro r hret hcalls
    cases hs : scanLoop p.timeout (w.clock w.ticks) (w.held w.scans) p.vec.length 0 p.vec
        none (-1) with
    | miss cur idx =>
      rcases grasp_miss p w cur idx hs with hnone | ⟨_, hc⟩
      · rw [hnone] at hret
        cases hret
      · omega
    | hit cur k =>
      obtain ⟨_, ⟨item, hk0, hk, hre⟩, hbefore⟩ := hhit cur k hs
      have hg := grasp_hit p w cur k item hs hk
      have hdata : item.data = some r := by
        rw [hg] at hret
        exact hret
      obtain ⟨⟨r', hr', hu⟩, hnum, hfresh⟩ := (reusable_iff _ _ _ _ item).mp hre
      rw [hdata] at hr'
      cases hr'
      refine ⟨k, item, hk0, hdata, hu, hnum, hfresh, ?_, ?_⟩
      · intro j d hj hd
        exact hbefore j d (Nat.zero_le j) hj hd
      · have hone : 1 ≤ p.vec.countP (fun d => decide (d.data = some r)) :=
          one_le_countP _ p.vec k item hk0 (by simp [hdata])
        have hzero : (w.held w.scans).count r = 0 := by
          unfold useCount at hu
          simp only [if_neg (show ¬ ((none : Option Nat) = some r) by simp)] at hu
          omega
        exact List.count_eq_zero.mp hzero

/-- C12 (amended), at a pool of four entries read at clock 100: the first has
used up its counter, the second is held by a caller, the third and the fourth
are reusable.  The attempt returns the resource of the third and stamps it with
the next reading, 105. -/
theorem grasp_reuse_witness :
    (0 : Int) < 60 ∧
    (grasp { maxlen := 8, timeout := 60,
             vec := [{ num := 100, utime := 100, data := some 0 },
                     { num := 0, utime := 100, data := some 1 },
                     { num := 3, utime := 100, data := some 2 },
                     { num := 0, utime := 100, data := some 3 }] }
      { clock := fun n => if n = 0 then 100 else 105, made := fun _ => none,
        held := fun _ => [1] }).1 = some 2 ∧
    (grasp { maxlen := 8, timeout := 60,
             vec := [{ num := 100, utime := 100, data := some 0 },
                     { num := 0, utime := 100, data := some 1 },
                     { num := 3, utime := 100, data := some 2 },
                     { num := 0, utime := 100, data := some 3 }] }
      { clock := fun n => if n = 0 then 100 else 105, made := fun _ => none,
        held := fun _ => [1] }).2.1.vec.get? 2 = some { num := 4, utime := 105, data := some 2 } :=
  have h := (grasp_reuse
    { maxlen := 8, timeout := 60,
      vec := [{ num := 100, utime := 100, data := some 0 },
              { num := 0, utime := 100, data := some 1 },
              { num := 3, utime := 100, data := some 2 },
              { num := 0, utime := 100, data := some 3 }] }
    { clock := fun n => if n = 0 then 100 else 105, made := fun _ => none,
      held := fun _ => [1] } 1 (by decide)).1 2 { num := 3, utime := 100, data := some 2 }
    rfl (by decide)
    (by
      intro j d hj hd
      rcases j with _ | _ | j
      · cases hd; decide
      · cases hd; decide
      · omega)
  ⟨by decide, h.1, h.2.2.1⟩

/-- The attempt of the witness evaluated: the first entry, expired by its
counter, is emptied on the way. -/
theorem grasp_reuse_example :
    (grasp { maxlen := 8, timeout := 60,
             vec := [{ num := 100, utime := 100, data := some 0 },
                     { num := 0, utime := 100, data := some 1 },
                     { num := 3, utime := 100, data := some 2 },
                     { num := 0, utime := 100, data := some 3 }] }
      { clock := fun n => if n = 0 then 100 else 105, made := fun _ => none,
        held := fun _ => [1] }).2.1.vec =
      [{ num := 100, utime := 100, data := none },
       { num := 0, utime := 100, data := some 1 },
       { num := 4, utime := 105, data := some 2 },
       { num := 0, utime := 100, data := some 3 }] := by
  decide

end ResPool

/-! ## Recycling of disabled entries -/

namespace ResPool

/-- The scan puts no resource into an entry. -/
theorem scanLoop_no_entry (timeout now : Int) (ext : List Nat) (r : Nat) :
    ∀ (n i : Nat) (vec : List Data) (tmp : Option Nat) (idx : Int),
      (∀ d ∈ vec, d.data ≠ some r) →
      ∀ d ∈ (scanLoop timeout now ext n i vec tmp idx).entries, d.data ≠ some r := by
  intro n
  induction n with
  | zero => intro i vec tmp idx h; exact h
  | succ n ih =>
    intro i vec tmp idx h
    cases hget : vec.get? i with
    | none =>
      rw [scanLoop_end timeout now ext n i vec tmp idx hget]
      exact h
    | some item =>
      cases hd : item.data with
      | none =>
        rw [scanLoop_empty timeout now ext n i vec tmp idx item hget hd]
        exact ih _ _ _ _ h
      | some q =>
        by_cases hu : useCount vec tmp ext q = 1
        · by_cases hf : item.num < 100 ∧ item.utime + timeout > now
          · rw [scanLoop_take timeout now ext n i vec tmp idx item q hget hd hu hf]
            exact h
          · rw [scanLoop_kill timeout now ext n i vec tmp idx item q hget hd hu hf]
            apply ih
            intro d hmem
            rcases List.mem_or_eq_of_mem_set hmem with h1 | h1
            · exact h d h1
            · rw [h1]
              simp
        · rw [scanLoop_skip timeout now ext n i vec tmp idx item q hget hd hu]
          exact ih _ _ _ _ h

/-- When the scan runs to its end with a slot chosen, the slot is an entry
whose handle is empty. -/
theorem scanLoop_slot_dead (timeout now : Int) (ext : List Nat) :
    ∀ (n i : Nat) (vec : List Data) (tmp : Option Nat) (idx : Int),
      (idx < 0 ∨ ∃ d, vec.get? idx.toNat = some d ∧ d.data = none ∧ idx.toNat < i) →
      ∀ vec' idx', scanLoop timeout now ext n i vec tmp idx = Scan.miss vec' idx' →
        idx' < 0 ∨ ∃ d, vec'.get? idx'.toNat = some d ∧ d.data = none := by
  intro n
  induction n with
  | zero =>
    intro i vec tmp idx h vec' idx' hs
    simp only [scanLoop, Scan.miss.injEq] at hs
    obtain ⟨e1, e2⟩ := hs
    subst e1
    subst e2
    rcases h with h | ⟨d, h1, h2, _⟩
    · exact Or.inl h
    · exact Or.inr ⟨d, h1, h2⟩
  | succ n ih =>
    intro i vec tmp idx h vec' idx' hs
    cases hget : vec.get? i with
    | none =>
      rw [scanLoop_end timeout now ext n i vec tmp idx hget] at hs
      simp only [Scan.miss.injEq] at hs
      obtain ⟨e1, e2⟩ := hs
      subst e1
      subst e2
      rcases h with h | ⟨d, h1, h2, _⟩
      · exact Or.inl h
      · exact Or.inr ⟨d, h1, h2⟩
    | some item =>
      cases hd : item.data with
      | none =>
        rw [scanLoop_empty timeout now ext n i vec tmp idx item hget hd] at hs
        refine ih (i + 1) vec none (i : Int) (Or.inr ⟨item, ?_, hd, ?_⟩) vec' idx' hs
        · rw [Int.toNat_natCast]; exact hget
        · rw [Int.toNat_natCast]; omega
      | some q =>
        by_cases hu : useCount vec tmp ext q = 1
        · by_cases hf : item.num < 100 ∧ item.utime + timeout > now
          · rw [scanLoop_take timeout now ext n i vec tmp idx item q hget hd hu hf] at hs
            cases hs
          · rw [scanLoop_kill timeout now ext n i vec tmp idx item q hget hd hu hf] at hs
            refine ih (i + 1) _ (some q) (i : Int)
              (Or.inr ⟨{ item with data := none }, ?_, rfl, ?_⟩) vec' idx' hs
            · rw [Int.toNat_natCast]; exact get?_set_here vec i _ item hget
            · rw [Int.toNat_natCast]; omega
        · rw [scanLoop_skip timeout now ext n i vec tmp idx item q hget hd hu] at hs
          refine ih (i + 1) vec tmp idx ?_ vec' idx' hs
          rcases h with h | ⟨d, h1, h2, h3⟩
          · exact Or.inl h
          · exact Or.inr ⟨d, h1, h2, by omega⟩

/-- An attempt whose scan ends with the slot `idx` chosen: the factory is called
once and its result returned; an empty result leaves the entries as the scan
left them, a resource is installed in the slot with reuse counter 0. -/
theorem grasp_slot (p : ResPool) (w : World) (vec : List Data) (idx : Int)
    (hs : scanLoop p.timeout (w.clock w.ticks) (w.held w.scans) p.vec.length 0 p.vec none (-1) =
      Scan.miss vec idx)
    (hidx : 0 ≤ idx) :
    (∃ d, vec.get? idx.toNat = some d ∧ d.data = none) ∧
    (grasp p w).1 = w.made w.calls ∧ (grasp p w).2.2.calls = w.calls + 1 ∧
    (w.made w.calls = none → (grasp p w).2.1.vec = vec) ∧
    (∀ r, w.made w.calls = some r → (grasp p w).2.1.vec =
      vec.set idx.toNat { num := 0, utime := w.clock (w.ticks + 1), data := some r }) := by
  have hdead : ∃ d, vec.get? idx.toNat = some d ∧ d.data = none := by
    rcases scanLoop_slot_dead p.timeout (w.clock w.ticks) (w.held w.scans) p.vec.length 0
      p.vec none (-1) (Or.inl (by decide)) vec idx hs with h | h
    · omega
    · exact h
  obtain ⟨d, hd, hnone⟩ := hdead
  refine ⟨⟨d, hd, hnone⟩, ?_⟩
  unfold grasp
  simp only [World.time, World.holders, World.func, hs]
  rw [if_neg (by omega)]
  by_cases h3 : w.made w.calls = none
  · simp only [if_pos h3]
    refine ⟨trivial, trivial, fun _ => trivial, ?_⟩
    intro r hr
    rw [h3] at hr
    cases hr
  · simp only [if_neg h3, hd]
    refine ⟨trivial, trivial, fun h => absurd h h3, ?_⟩
    intro r hr
    simp only [Data.update, hr]

/-- An attempt on a pool none of whose entries holds `r`, with a factory that
never returns `r`, does not return `r` and leaves such a pool and factory. -/
theorem grasp_no_entry (p : ResPool) (w : World) (r : Nat)
    (h : (∀ d ∈ p.vec, d.data ≠ some r) ∧ ∀ n, w.made n ≠ some r) :
    (grasp p w).1 ≠ some r ∧
      (∀ d ∈ (grasp p w).2.1.vec, d.data ≠ some r) ∧ ∀ n, (grasp p w).2.2.made n ≠ some r := by
  obtain ⟨hv, hm⟩ := h
  have hl := scanLoop_no_entry p.timeout (w.clock w.ticks) (w.held w.scans) r
    p.vec.length 0 p.vec none (-1) hv
  unfold grasp
  simp only [World.time, World.holders, World.func]
  cases hs : scanLoop p.timeout (w.clock w.ticks) (w.held w.scans) p.vec.length 0 p.vec none (-1) with
  | hit vec i =>
    rw [hs] at hl
    simp only [Scan.entries] at hl
    simp only []
    cases hget : vec.get? i with
    | none => simp only []; exact ⟨by simp, hl, hm⟩
    | some item =>
      simp only []
      have hitem : item.data ≠ some r := hl item (List.get?_mem hget)
      refine ⟨hitem, ?_, hm⟩
      intro d hmem
      rcases List.mem_or_eq_of_mem_set hmem with h1 | h1
      · exact hl d h1
      · rw [h1]; exact hitem
  | miss vec idx =>
    rw [hs] at hl
    simp only [Scan.entries] at hl
    simp only []
    have hpush : ∀ (t : Int) (item : Data), (item.update (w.made w.calls) t).data ≠ some r :=
      fun t item => hm w.calls
    by_cases h1 : idx < 0
    · simp only [if_pos h1]
      by_cases h2 : (p.vec.length : Int) ≥ p.maxlen
      · simp only [if_pos h2]; exact ⟨by simp, hl, hm⟩
      · simp only [if_neg h2]
        by_cases h3 : w.made w.calls = none
        · simp only [if_pos h3]; exact ⟨hm w.calls, hl, hm⟩
        · simp only [if_neg h3]
          by_cases h4 : (vec.length : Int) < toSizeT p.maxlen
          · simp only [if_pos h4]
            refine ⟨hm w.calls, ?_, hm⟩
            intro d hmem
            rcases List.mem_append.mp hmem with h5 | h5
            · exact hl d h5
            · rw [List.mem_singleton.mp h5]; exact hpush _ _
          · simp only [if_neg h4]; exact ⟨hm w.calls, hl, hm⟩
    · simp only [if_neg h1]
      by_cases h3 : w.made w.calls = none
      · simp only [if_pos h3]; exact ⟨hm w.calls, hl, hm⟩
      · simp only [if_neg h3]
        cases hget : vec.get? idx.toNat with
        | none => simp only []; exact ⟨hm w.calls, hl, hm⟩
        | some item =>
          simp only []
          refine ⟨hm w.calls, ?_, hm⟩
          intro d hmem
          rcases List.mem_or_eq_of_mem_set hmem with h5 | h5
          · exact hl d h5
          · rw [h5]; exact hpush _ _

theorem retry_no_entry (endtime : Int) (r : Nat) :
    ∀ (fuel : Nat) (p : ResPool) (w : World),
      ((∀ d ∈ p.vec, d.data ≠ some r) ∧ ∀ n, w.made n ≠ some r) →
      (retry endtime fuel p w).1 ≠ some (some r) ∧
        (∀ d ∈ (retry endtime fuel p w).2.1.vec, d.data ≠ some r) ∧
        ∀ n, (retry endtime fuel p w).2.2.made n ≠ some r := by
  intro fuel
  induction fuel with
  | zero => intro p w h; exact ⟨by simp [retry], h.1, h.2⟩
  | succ fuel ih =>
    intro p w h
    have hg := grasp_no_entry p w r h
    unfold retry
    rcases hgr : grasp p w with ⟨data, p1, w1⟩
    rw [hgr] at hg
    simp only [] at hg
    simp only [World.time]
    have hdata : some data ≠ some (some r) := fun e => hg.1 (Option.some.inj e)
    by_cases h1 : data.isSome = true
    · simp only [if_pos h1]; exact ⟨hdata, hg.2⟩
    · simp only [if_neg h1]
      by_cases h2 : endtime < w1.clock w1.ticks
      · simp only [if_pos h2]; exact ⟨hdata, hg.2⟩
      · simp only [if_neg h2]; exact ih _ _ hg.2

theorem get_no_entry (fuel : Nat) (p : ResPool) (w : World) (r : Nat)
    (h : (∀ d ∈ p.vec, d.data ≠ some r) ∧ ∀ n, w.made n ≠ some r) :
    (get fuel p w).1 ≠ some (some r) ∧
      (∀ d ∈ (get fuel p w).2.1.vec, d.data ≠ some r) ∧
      ∀ n, (get fuel p w).2.2.made n ≠ some r := by
  unfold get
  by_cases h0 : p.timeout ≤ 0
  · simp only [if_pos h0, World.func]
    exact ⟨fun e => h.2 w.calls (Option.some.inj e), h.1, h.2⟩
  · simp only [if_neg h0]
    have hg := grasp_no_entry p w r h
    rcases hgr : grasp p w with ⟨data, p1, w1⟩
    rw [hgr] at hg
    simp only [] at hg
    simp only [World.time]
    by_cases h1 : data.isSome = true
    · simp only [if_pos h1]; exact ⟨fun e => hg.1 (Option.some.inj e), hg.2⟩
    · simp only [if_neg h1]; exact retry_no_entry _ r fuel _ _ hg.2

theorem disableLoop_no_entry (data : Option Nat) (r : Nat) (vec : List Data)
    (h : ∀ d ∈ vec, d.data ≠ some r) : ∀ d ∈ disableLoop data vec, d.data ≠ some r := by
  induction vec with
  | nil => intro d hd; simp [disableLoop] at hd
  | cons item rest ih =>
    unfold disableLoop
    split
    · intro d hd
      rcases List.mem_cons.mp hd with h1 | h1
      · rw [h1]; simp
      · exact h d (List.mem_cons_of_mem _ h1)
    · intro d hd
      rcases List.mem_cons.mp hd with h1 | h1
      · rw [h1]; exact h item (List.mem_cons_self _ _)
      · exact ih (fun d hd => h d (List.mem_cons_of_mem _ hd)) d h1

theorem run_no_entry (fuel : Nat) (r : Nat) :
    ∀ (calls : List Call) (p : ResPool) (w : World),
      ((∀ d ∈ p.vec, d.data ≠ some r) ∧ ∀ n, w.made n ≠ some r) →
      (∀ d ∈ (run fuel calls p w).1.vec, d.data ≠ some r) ∧
        ∀ n, (run fuel calls p w).2.made n ≠ some r := by
  intro calls
  induction calls with
  | nil => intro p w h; exact h
  | cons c cs ih =>
    intro p w h
    cases c with
    | get =>
      unfold run
      exact ih _ _ (get_no_entry fuel p w r h).2
    | disable d =>
      unfold run
      apply ih
      exact ⟨disableLoop_no_entry d r p.vec h.1, h.2⟩

/-- The loop of `disable` empties the first entry that holds the resource and
stops. -/
theorem disableLoop_first (r : Nat) :
    ∀ (vec : List Data) (i : Nat) (item : Data), vec.get? i = some item → item.data = some r →
      (∀ j d, j < i → vec.get? j = some d → d.data ≠ some r) →
      disableLoop (some r) vec = vec.set i { item with data := none } := by
  intro vec
  induction vec with
  | nil => intro i item h; simp at h
  | cons x xs ih =>
    intro i item h hr hfirst
    cases i with
    | zero =>
      simp only [List.get?_cons_zero, Option.some.injEq] at h
      subst h
      unfold disableLoop
      rw [if_pos hr.symm]
      rfl
    | succ i =>
      simp only [List.get?_cons_succ] at h
      have hx : ¬ (some r = x.data) := fun e => hfirst 0 x (by omega) rfl e.symm
      unfold disableLoop
      rw [if_neg hx, List.set_cons_succ]
      rw [ih i item h hr (fun j d hj hd => hfirst (j + 1) d (by omega) hd)]

/-- Once the only entry that held `r` is emptied, no entry holds `r`. -/
theorem set_no_entry (vec : List Data) (r i : Nat) (item : Data)
    (hi : vec.get? i = some item)
    (honly : ∀ j d, vec.get? j = some d → d.data = some r → j = i) :
    ∀ d ∈ vec.set i { item with data := none }, d.data ≠ some r := by
  intro d hmem
  obtain ⟨j, hj⟩ := List.mem_iff_get?.mp hmem
  by_cases e : i = j
  · subst e
    rw [get?_set_here vec i _ item hi] at hj
    cases hj
    simp
  · rw [get?_set_other vec i j _ e] at hj
    intro hd
    exact e (honly j d hj hd).symm

/-- C11, as stated, fails: with a factory that hands out the resource 0 twice,
two `get` calls (the first resource still held at the second) fill two entries
with it; `disable(0)` empties the first of them only, and the next `get`
returns 0 out of the second entry, the factory not being called. -/
theorem disabled_resource_returned :
    (run 1 [Call.get, Call.get, Call.disable (some 0)] (ResPool.new 2 60)
      { clock := fun n => (n : Int), made := fun _ => some 0,
        held := fun n => if n = 1 then [0] else [] }).1.vec =
      [{ num := 0, utime := 1, data := none }, { num := 0, utime := 3, data := some 0 }] ∧
    (get 1
      (run 1 [Call.get, Call.get, Call.disable (some 0)] (ResPool.new 2 60)
        { clock := fun n => (n : Int), made := fun _ => some 0,
          held := fun n => if n = 1 then [0] else [] }).1
      (run 1 [Call.get, Call.get, Call.disable (some 0)] (ResPool.new 2 60)
        { clock := fun n => (n : Int), made := fun _ => some 0,
          held := fun n => if n = 1 then [0] else [] }).2).1 = some (some 0) ∧
    (get 1
      (run 1 [Call.get, Call.get, Call.disable (some 0)] (ResPool.new 2 60)
        { clock := fun n => (n : Int), made := fun _ => some 0,
          held := fun n => if n = 1 then [0] else [] }).1
      (run 1 [Call.get, Call.get, Call.disable (some 0)] (ResPool.new 2 60)
        { clock := fun n => (n : Int), made := fun _ => some 0,
          held := fun n => if n = 1 then [0] else [] }).2).2.2.calls =
      (run 1 [Call.get, Call.get, Call.disable (some 0)] (ResPool.new 2 60)
        { clock := fun n => (n : Int), made := fun _ => some 0,
          held := fun n => if n = 1 then [0] else [] }).2.calls := by
  decide

/-- C11 (amended). Let entry `i` be the first entry of the pool that holds the
resource `r`.  After `disable(r)` that entry has an empty handle and the other
entries are as they were.  When no other entry holds `r`, then as long as the
factory does not return `r`, after any further sequence of `get` and `disable`
calls no entry holds `r` and no `get` returns `r`.  An acquisition attempt on
any pool whose scan ends with a slot chosen finds that slot with an empty
handle and calls the factory once: if the factory returns empty, the attempt
returns empty and the entries, the empty slot among them, stay as the scan left
them; if the factory returns a resource `s`, the attempt returns `s` and the
slot holds `s` with reuse counter 0. -/
theorem disable_recycles (p : ResPool) (r i : Nat) (item : Data)
    (hi : p.vec.get? i = some item) (hr : item.data = some r)
    (hfirst : ∀ j d, j < i → p.vec.get? j = some d → d.data ≠ some r) :
    (disable p (some r)).vec = p.vec.set i { item with data := none } ∧
    ((∀ j d, p.vec.get? j = some d → d.data = some r → j = i) →
      ∀ (fuel fuel' : Nat) (calls : List Call) (w : World), (∀ n, w.made n ≠ some r) →
        (∀ d ∈ (run fuel calls (disable p (some r)) w).1.vec, d.data ≠ some r) ∧
        (get fuel' (run fuel calls (disable p (some r)) w).1
          (run fuel calls (disable p (some r)) w).2).1 ≠ some (some r)) ∧
    (∀ (q : ResPool) (w : World) (vec : List Data) (idx : Int),
      scanLoop q.timeout (w.clock w.ticks) (w.held w.scans) q.vec.length 0 q.vec none (-1) =
        Scan.miss vec idx → 0 ≤ idx →
      (∃ d, vec.get? idx.toNat = some d ∧ d.data = none) ∧
      (grasp q w).1 = w.made w.calls ∧ (grasp q w).2.2.calls = w.calls + 1 ∧
      (w.made w.calls = none → (grasp q w).2.1.vec = vec) ∧
      (∀ s, w.made w.calls = some s → (grasp q w).2.1.vec =
        vec.set idx.toNat { num := 0, utime := w.clock (w.ticks + 1), data := some s })) := by
  have hdis : (disable p (some r)).vec = p.vec.set i { item with data := none } :=
    disableLoop_first r p.vec i item hi hr hfirst
  refine ⟨hdis, ?_, ?_⟩
  · intro honly fuel fuel' calls w hm
    have hstart : ∀ d ∈ (disable p (some r)).vec, d.data ≠ some r := by
      rw [hdis]
      exact set_no_entry p.vec r i item hi honly
    have hrun := run_no_entry fuel r calls (disable p (some r)) w ⟨hstart, hm⟩
    exact ⟨hrun.1, (get_no_entry fuel' _ _ r hrun).1⟩
  · intro q w vec idx hs hidx
    exact grasp_slot q w vec idx hs hidx

/-- C11 (amended), at a pool of two entries of which the second holds the
resource 8: `disable(8)` empties the second entry, and the next attempt, whose
factory returns 9, installs 9 in that slot and returns it. -/
theorem disable_recycles_witness :
    (disable { maxlen := 2, timeout := 60,
               vec := [{ num := 1, utime := 5, data := some 7 },
                       { num := 2, utime := 6, data := some 8 }] } (some 8)).vec =
      [{ num := 1, utime := 5, data := some 7 }, { num := 2, utime := 6, data := none }] ∧
    (grasp { maxlen := 2, timeout := 60,
             vec := [{ num := 1, utime := 5, data := some 7 },
                     { num := 2, utime := 6, data := none }] }
      { clock := fun n => 10 + (n : Int), made := fun _ => some 9,
        held := fun _ => [7, 8] }).1 = some 9 ∧
    (grasp { maxlen := 2, timeout := 60,
             vec := [{ num := 1, utime := 5, data := some 7 },
                     { num := 2, utime := 6, data := none }] }
      { clock := fun n => 10 + (n : Int), made := fun _ => some 9,
        held := fun _ => [7, 8] }).2.1.vec =
      [{ num := 1, utime := 5, data := some 7 }, { num := 0, utime := 11, data := some 9 }] ∧
    (get 1
      (run 1 [Call.get]
        (disable { maxlen := 2, timeout := 60,
                   vec := [{ num := 1, utime := 5, data := some 7 },
                           { num := 2, utime := 6, data := some 8 }] } (some 8))
        { clock := fun n => 10 + (n : Int), made := fun _ => some 9,
          held := fun _ => [7, 8] }).1
      (run 1 [Call.get]
        (disable { maxlen := 2, timeout := 60,
                   vec := [{ num := 1, utime := 5, data := some 7 },
                           { num := 2, utime := 6, data := some 8 }] } (some 8))
        { clock := fun n => 10 + (n : Int), made := fun _ => some 9,
          held := fun _ => [7, 8] }).2).1 ≠ some (some 8) :=
  have h := disable_recycles
    { maxlen := 2, timeout := 60,
      vec := [{ num := 1, utime := 5, data := some 7 },
              { num := 2, utime := 6, data := some 8 }] } 8 1
    { num := 2, utime := 6, data := some 8 } rfl rfl
    (by
      intro j d hj hd
      rcases j with _ | j
      · cases hd; decide
      · omega)
  have hslot := h.2.2
    { maxlen := 2, timeout := 60,
      vec := [{ num := 1, utime := 5, data := some 7 },
              { num := 2, utime := 6, data := none }] }
    { clock := fun n => 10 + (n : Int), made := fun _ => some 9, held := fun _ => [7, 8] }
    [{ num := 1, utime := 5, data := some 7 }, { num := 2, utime := 6, data := none }] 1
    (by decide) (by decide)
  have hlater := h.2.1
    (by
      intro j d hd hdr
      rcases j with _ | _ | j
      · cases hd; exact absurd hdr (by decide)
      · rfl
      · cases hd)
    1 1 [Call.get]
    { clock := fun n => 10 + (n : Int), made := fun _ => some 9, held := fun _ => [7, 8] }
    (fun _ => (by decide : (some 9 : Option Nat) ≠ some 8))
  ⟨h.1, hslot.2.1, hslot.2.2.2.2 9 rfl, hlater.2⟩

/-- The run of the witness continued: after `disable(8)` the first `get`
installs 9 in the emptied slot and the second `get` reuses it there. -/
theorem disable_recycles_example :
    (run 2 [Call.disable (some 8), Call.get, Call.get]
      { maxlen := 2, timeout := 60,
        vec := [{ num := 1, utime := 5, data := some 7 },
                { num := 2, utime := 6, data := some 8 }] }
      { clock := fun n => 10 + (n : Int), made := fun _ => some 9,
        held := fun _ => [7, 8] }).1.vec =
      [{ num := 1, utime := 5, data := some 7 }, { num := 1, utime := 13, data := some 9 }] := by
  decide

end ResPool
